import Mathlib

/-!
# librdkafka buffer core (`src/rdkafka_buf.c`)

A shallow embedding of the request/response buffer code of librdkafka:
buffer construction, growth, the iovec segment stack, reference counting,
the Message wire builder and the buffer queues, followed by theorems about
them.

Conventions of the embedding

* A C pointer is a natural number (an address); `NULL` is `0`.
* A function that can hit `rd_kafka_assert` or never return yields
  `Except Fault _`.
* `size_t` is the 64-bit unsigned type of an LP64 target: arithmetic the
  source does in `size_t` is taken modulo `2 ^ 64`.
* `int` / `int32_t` arithmetic the source does on caller-supplied values is
  wrapped to 32-bit two's complement, and so are the 32-bit atomic counters
  (`rd_atomic32_add`, `rd_atomic32_sub`).
* The queues are the linked `TAILQ`s of `sys/queue.h`: the embedding keeps the
  head and link pointers in a memory indexed by address and runs the list
  macros statement by statement.
* Functions, macros and types that `rdkafka_buf.c` uses but that live in
  headers are marked `Modelled from the spec:` at their definition.
-/

namespace RdKafka

/-! ## Machine integers and pointers -/

/-- A C pointer value: an address. -/
abbrev Ptr := Nat

/-- The null pointer. -/
def NULL : Ptr := 0

/-- One more than `SIZE_MAX`: `size_t` arithmetic is modulo this number. -/
def SIZE_T_MOD : Nat := 2 ^ 64

/-- Conversion of a signed value to `size_t`. -/
def size_t_of_int (x : Int) : Nat := (x % (SIZE_T_MOD : Int)).toNat

/-- Conversion of an integer to a 32-bit `int` (two's complement). -/
def int_of (x : Int) : Int := (x + 2 ^ 31) % 2 ^ 32 - 2 ^ 31

/-- The ways a call can fail to return normally. -/
inductive Fault
  /-- A failed `rd_kafka_assert`: the process aborts. -/
  | assert_failed
  /-- A loop that never exits. -/
  | no_return
  /-- A call through a null function pointer: the process is killed. -/
  | null_call
  /-- A load or store through a null pointer: the process is killed. -/
  | null_deref
deriving DecidableEq, Repr

/-! ## Data model -/

/-- One scatter/gather segment, `struct iovec`. -/
structure iovec where
  iov_base : Ptr
  iov_len : Nat
deriving DecidableEq, Repr

/-- Modelled from the spec: the flag bits of `rkbuf_flags` that this file
tests (`rdkafka_op.h` is not among the sources): "owns and must release
backing memory" and "checksum enabled for pushed segments". -/
structure Flags where
  RD_KAFKA_OP_F_FREE : Bool
  RD_KAFKA_OP_F_CRC : Bool
deriving DecidableEq, Repr

/-- Modelled from the spec: the fields of `rd_kafka_buf_t` that
`rdkafka_buf.c` reads or writes (the struct is declared in `rdkafka_buf.h`,
not among the sources).

* `rkbuf` is the address of the struct itself (the value of the C pointer
  `rkbuf`), needed to say what `rd_free(rkbuf)` frees.
* `rkbuf_iov` is the contents of the iovec array, one entry per slot;
  `none` is a slot never written (the array comes from `rd_malloc`).
* `msg_iovlen` is `rkbuf_msg.msg_iovlen`, `rkmq_msg_cnt` is
  `rkbuf_msgq.rkmq_msg_cnt`.
* `wbuf_mem` is the contents of the memory at `rkbuf_wbuf`.
* the write cursors `rkbuf_wof` and `rkbuf_wof_init` are integers;
  `rkbuf_refcnt` and `rkmq_msg_cnt` are the values of 32-bit atomic
  counters. -/
structure rd_kafka_buf_t where
  rkbuf : Ptr
  rkbuf_flags : Flags
  rkbuf_iov : List (Option iovec)
  rkbuf_iovcnt : Int
  msg_iovlen : Nat
  rkbuf_len : Nat
  rkbuf_size : Nat
  rkbuf_buf : Ptr
  rkbuf_buf2 : Ptr
  rkbuf_rbuf : Ptr
  rkbuf_wbuf : Ptr
  rkbuf_wof : Int
  rkbuf_wof_init : Int
  rkbuf_crc : Nat
  rkbuf_cb : Nat
  rkbuf_opaque : Ptr
  rkbuf_refcnt : Int
  rkbuf_rkb : Ptr
  rkmq_msg_cnt : Int
  wbuf_mem : List Nat
deriving DecidableEq, Repr

/-- Modelled from the spec: what `rdkafka_buf.c` takes from its headers and
from libc and that the sources do not contain: the fixed request-header
size, `IOV_MAX`, two `sizeof`s, the CRC engine ("a running 32-bit checksum
accumulator", updated over byte ranges) and the address `rd_realloc`
returns. -/
structure Env where
  RD_KAFKAP_REQHDR_SIZE : Nat
  IOV_MAX : Int
  sizeof_rkbuf : Nat
  sizeof_iovec : Nat
  rd_crc32_init : Nat
  rd_crc32_update : Nat → List Nat → Nat
  rd_crc32_finalize : Nat → Nat
  rd_realloc : Ptr → Nat → Ptr

/-- Modelled from the spec: `RD_KAFKA_HEADERS_IOV_CNT`, "the envelope header
and a following client identifier segment are pre-reserved as the first two
stack entries". -/
def RD_KAFKA_HEADERS_IOV_CNT : Int := 2

/-- A call the destructor makes to hand a resource back. -/
inductive Release
  /-- The call `rd_free(p)`. -/
  | rd_free (p : Ptr)
  /-- The call `rd_kafka_broker_destroy(rkb)`. -/
  | rd_kafka_broker_destroy (rkb : Ptr)
deriving DecidableEq, Repr

/-! ## Reference counting and destruction -/

/-- Modelled from the spec: `rd_atomic32_add` (`rdatomic.h`), the addition
behind the "atomic increment/decrement" of a 32-bit counter that holds `ra`:
the new value of the counter, which the call also returns. The sum is wrapped
to 32-bit two's complement. -/
def rd_atomic32_add (ra v : Int) : Int := int_of (ra + v)

/-- Modelled from the spec: `rd_atomic32_sub` (`rdatomic.h`), the
subtraction behind the "atomic increment/decrement" of a 32-bit counter that
holds `ra`: the new value of the counter, which the call also returns. The
difference is wrapped to 32-bit two's complement. -/
def rd_atomic32_sub (ra v : Int) : Int := int_of (ra - v)

/-- The values a 32-bit counter can hold. -/
def is_int32 (x : Int) : Prop := -(2 ^ 31) ≤ x ∧ x < 2 ^ 31

instance is_int32_decidable (x : Int) : Decidable (is_int32 x) := by
  unfold is_int32
  exact inferInstance

/-- Modelled from the spec: `rd_kafka_buf_keep` (a macro of `rdkafka_buf.h`),
one additional reference: `rd_atomic32_add` of 1 on `rkbuf_refcnt`. -/
def rd_kafka_buf_keep (rkbuf : rd_kafka_buf_t) : rd_kafka_buf_t :=
  { rkbuf with rkbuf_refcnt := rd_atomic32_add rkbuf.rkbuf_refcnt 1 }

/-- The function `rd_kafka_buf_destroy`: the buffer after the call and the
release calls made, in order. When the list is not empty the struct has been
passed to `rd_free`; the value returned is then what that storage held. -/
def rd_kafka_buf_destroy (rkbuf : rd_kafka_buf_t) : rd_kafka_buf_t × List Release :=
  let rkbuf := { rkbuf with rkbuf_refcnt := rd_atomic32_sub rkbuf.rkbuf_refcnt 1 }
  if rkbuf.rkbuf_refcnt > 0 then
    (rkbuf, [])
  else
    (rkbuf,
      (if rkbuf.rkbuf_buf2 ≠ NULL then [Release.rd_free rkbuf.rkbuf_buf2] else []) ++
      (if rkbuf.rkbuf_flags.RD_KAFKA_OP_F_FREE = true ∧ rkbuf.rkbuf_buf ≠ NULL then
        [Release.rd_free rkbuf.rkbuf_buf] else []) ++
      (if rkbuf.rkbuf_rkb ≠ NULL then
        [Release.rd_kafka_broker_destroy rkbuf.rkbuf_rkb] else []) ++
      [Release.rd_free rkbuf.rkbuf])

/-- The function `rd_kafka_buf_auxbuf_add`. -/
def rd_kafka_buf_auxbuf_add (rkbuf : rd_kafka_buf_t) (auxbuf : Ptr) :
    Except Fault rd_kafka_buf_t :=
  if rkbuf.rkbuf_buf2 ≠ NULL then .error .assert_failed
  else .ok { rkbuf with rkbuf_buf2 := auxbuf }

/-- `n` calls of `rd_kafka_buf_keep`. -/
def keep_times : Nat → rd_kafka_buf_t → rd_kafka_buf_t
  | 0, rkbuf => rkbuf
  | n + 1, rkbuf => keep_times n (rd_kafka_buf_keep rkbuf)

/-- `n` calls of `rd_kafka_buf_destroy` in a row: the buffer after the last
one and, per call, the releases it made. -/
def destroy_times : Nat → rd_kafka_buf_t → rd_kafka_buf_t × List (List Release)
  | 0, rkbuf => (rkbuf, [])
  | n + 1, rkbuf =>
    let r := rd_kafka_buf_destroy rkbuf
    let rest := destroy_times n r.1
    (rest.1, r.2 :: rest.2)

/-! ## Segment stack -/

/-- The function `rd_kafka_buf_rewind`. -/
def rd_kafka_buf_rewind (rkbuf : rd_kafka_buf_t) (iovindex : Int) (new_of : Int) :
    rd_kafka_buf_t :=
  { rkbuf with msg_iovlen := size_t_of_int iovindex, rkbuf_wof := new_of }

/-- The function `rd_kafka_buf_iov_next`: the buffer after the call and the
index of the slot whose address is returned. -/
def rd_kafka_buf_iov_next (rkbuf : rd_kafka_buf_t) : Except Fault (rd_kafka_buf_t × Nat) :=
  if ¬ (int_of rkbuf.msg_iovlen + 1 ≤ rkbuf.rkbuf_iovcnt) then .error .assert_failed
  else
    let rkbuf := { rkbuf with rkbuf_wof_init := rkbuf.rkbuf_wof }
    .ok ({ rkbuf with msg_iovlen := (rkbuf.msg_iovlen + 1) % SIZE_T_MOD }, rkbuf.msg_iovlen)

/-- A `const void *` argument: the address together with the bytes stored
from that address on. -/
structure cbuf where
  ptr : Ptr
  mem : List Nat
deriving DecidableEq, Repr

/-- The function `rd_kafka_buf_push0`. -/
def rd_kafka_buf_push0 (E : Env) (rkbuf : rd_kafka_buf_t) (buf : cbuf) (len : Nat)
    (allow_crc_calc : Int) : Except Fault rd_kafka_buf_t :=
  match rd_kafka_buf_iov_next rkbuf with
  | .error e => .error e
  | .ok (rkbuf, iov) =>
    let seg : iovec := { iov_base := buf.ptr, iov_len := len }
    let rkbuf := { rkbuf with rkbuf_iov := rkbuf.rkbuf_iov.set iov (some seg) }
    if allow_crc_calc ≠ 0 ∧ rkbuf.rkbuf_flags.RD_KAFKA_OP_F_CRC = true then
      .ok { rkbuf with rkbuf_crc := E.rd_crc32_update rkbuf.rkbuf_crc (buf.mem.take len) }
    else .ok rkbuf

/-- The function `rd_kafka_buf_autopush`. -/
def rd_kafka_buf_autopush (E : Env) (rkbuf : rd_kafka_buf_t) : Except Fault rd_kafka_buf_t :=
  rd_kafka_buf_push0 E rkbuf
    { ptr := rkbuf.rkbuf_wbuf + size_t_of_int rkbuf.rkbuf_wof_init,
      mem := rkbuf.wbuf_mem.drop (size_t_of_int rkbuf.rkbuf_wof_init) }
    (size_t_of_int (rkbuf.rkbuf_wof - rkbuf.rkbuf_wof_init))
    0

/-! ## Growth -/

/-- The loop `while (needed_len > alen) alen *= 2;` of `rd_kafka_buf_grow`,
run for at most `fuel` tests of the condition: `none` when the loop has not
exited by then. -/
def grow_loop : Nat → Nat → Nat → Option Nat
  | 0, _, _ => none
  | fuel + 1, alen, needed_len =>
    if needed_len > alen then grow_loop fuel (alen * 2 % SIZE_T_MOD) needed_len
    else some alen

/-- Number of tests of the loop condition after which `rd_kafka_buf_grow`
is known never to leave its loop: after 64 doublings `alen` is `0` modulo
`2 ^ 64` and stays `0` (see `grow_loop_none_forever`). -/
def GROW_FUEL : Nat := 65

/-- The function `rd_kafka_buf_grow`. The memory at the new address holds
the old contents, cut or zero-padded to the new size. -/
def rd_kafka_buf_grow (E : Env) (rkbuf : rd_kafka_buf_t) (needed_len : Nat) :
    Except Fault rd_kafka_buf_t :=
  let alen := rkbuf.rkbuf_size
  if rkbuf.rkbuf_flags.RD_KAFKA_OP_F_FREE ≠ true then .error .assert_failed
  else
    match grow_loop GROW_FUEL alen needed_len with
    | none => .error .no_return
    | some alen =>
      let new := E.rd_realloc rkbuf.rkbuf_buf alen
      let mem := rkbuf.wbuf_mem.take alen ++ List.replicate (alen - rkbuf.wbuf_mem.length) 0
      let rkbuf := { rkbuf with rkbuf_buf := new, wbuf_mem := mem }
      let rkbuf := { rkbuf with rkbuf_wbuf := rkbuf.rkbuf_buf }
      .ok { rkbuf with rkbuf_size := alen }

/-! ## Constructors -/

/-- The struct after `memset(rkbuf, 0, sizeof(*rkbuf))` (or `rd_calloc`). -/
def zeroed (rkbuf : Ptr) : rd_kafka_buf_t :=
  { rkbuf := rkbuf,
    rkbuf_flags := { RD_KAFKA_OP_F_FREE := false, RD_KAFKA_OP_F_CRC := false },
    rkbuf_iov := [], rkbuf_iovcnt := 0, msg_iovlen := 0, rkbuf_len := 0, rkbuf_size := 0,
    rkbuf_buf := NULL, rkbuf_buf2 := NULL, rkbuf_rbuf := NULL, rkbuf_wbuf := NULL,
    rkbuf_wof := 0, rkbuf_wof_init := 0, rkbuf_crc := 0, rkbuf_cb := 0, rkbuf_opaque := NULL,
    rkbuf_refcnt := 0, rkbuf_rkb := NULL, rkmq_msg_cnt := 0, wbuf_mem := [] }

/-- The function `rd_kafka_buf_new`; `rkbuf` is the address `rd_malloc`
returned. `rd_kafka_msgq_init` leaves the message counter at `0`. The two
reserved segments are stored in slots 0 and 1 of the array; when the array
has fewer than two slots (a negative `iovcnt`) the C stores fall outside it,
and the embedding drops them. -/
def rd_kafka_buf_new (E : Env) (rkbuf : Ptr) (iovcnt : Int) (size : Nat) :
    Except Fault rd_kafka_buf_t :=
  let iovcnt_fixed := RD_KAFKA_HEADERS_IOV_CNT
  let iovsize := size_t_of_int (E.sizeof_iovec * int_of (iovcnt + iovcnt_fixed))
  let b := zeroed rkbuf
  let slots : List (Option iovec) := List.replicate (int_of (iovcnt + iovcnt_fixed)).toNat none
  let b := { b with rkbuf_iov := slots, rkbuf_iovcnt := int_of (iovcnt + iovcnt_fixed) }
  if ¬ (b.rkbuf_iovcnt ≤ E.IOV_MAX) then .error .assert_failed
  else
    let b := { b with rkbuf_buf := (rkbuf + E.sizeof_rkbuf + iovsize) % SIZE_T_MOD }
    let b := { b with rkbuf_wbuf := b.rkbuf_buf }
    let hdr : iovec := { iov_base := b.rkbuf_buf, iov_len := E.RD_KAFKAP_REQHDR_SIZE }
    let b := { b with rkbuf_iov := b.rkbuf_iov.set 0 (some hdr) }
    let clientid : iovec := { iov_base := NULL, iov_len := 0 }
    let b := { b with rkbuf_iov := b.rkbuf_iov.set 1 (some clientid) }
    let b := { b with msg_iovlen := size_t_of_int iovcnt_fixed }
    let b := { b with rkbuf_size := (E.RD_KAFKAP_REQHDR_SIZE + size) % SIZE_T_MOD }
    let b := { b with wbuf_mem := List.replicate b.rkbuf_size 0 }
    let b := { b with rkbuf_wof := E.RD_KAFKAP_REQHDR_SIZE }
    let b := { b with rkbuf_wof_init := b.rkbuf_wof }
    let b := { b with rkmq_msg_cnt := 0 }
    .ok (rd_kafka_buf_keep b)

/-- The function `rd_kafka_buf_new_growable`; `rkbuf` and `buf` are the
addresses the two `rd_malloc` calls returned. -/
def rd_kafka_buf_new_growable (E : Env) (rkbuf buf : Ptr) (iovcnt : Int) (init_size : Nat) :
    Except Fault rd_kafka_buf_t :=
  match rd_kafka_buf_new E rkbuf iovcnt 0 with
  | .error e => .error e
  | .ok b =>
    let b := { b with rkbuf_buf := buf, wbuf_mem := List.replicate init_size 0 }
    let b := { b with rkbuf_wbuf := b.rkbuf_buf }
    let b := { b with rkbuf_size := init_size }
    .ok { b with rkbuf_flags := { b.rkbuf_flags with RD_KAFKA_OP_F_FREE := true } }

/-- The function `rd_kafka_buf_new_shadow`; `rkbuf` is the address
`rd_calloc` returned. -/
def rd_kafka_buf_new_shadow (rkbuf : Ptr) (ptr : Ptr) (size : Nat) : rd_kafka_buf_t :=
  let b := zeroed rkbuf
  let b := { b with rkbuf_buf2 := ptr }
  let b := { b with rkbuf_rbuf := b.rkbuf_buf2 }
  let b := { b with rkbuf_len := size }
  let b := { b with rkbuf_wof := size }
  let b := { b with rkmq_msg_cnt := 0 }
  rd_kafka_buf_keep b

/-- The buffer is what one of the three constructors returned. -/
def constructed (E : Env) (b : rd_kafka_buf_t) : Prop :=
  (∃ rkbuf iovcnt size, rd_kafka_buf_new E rkbuf iovcnt size = .ok b) ∨
  (∃ rkbuf buf iovcnt init_size, rd_kafka_buf_new_growable E rkbuf buf iovcnt init_size = .ok b) ∨
  (∃ rkbuf ptr size, rd_kafka_buf_new_shadow rkbuf ptr size = b)

/-! ## Write API and checksum hooks (`rdkafka_buf.h`) -/

/-- The `n` low-order bytes of `v`, most significant first (network byte
order). -/
def be_bytes : Nat → Int → List Nat
  | 0, _ => []
  | n + 1, v => be_bytes n (v / 256) ++ [(v % 256).toNat]

/-- The number a run of bytes in network byte order stands for. -/
def be_value (bs : List Nat) : Nat := bs.foldl (fun acc b => acc * 256 + b) 0

/-- The C library's `memcpy(mem + of, data, len)` on the contents `mem` of
a region; a region shorter than `of + len` is zero-extended first. -/
def memcpy (mem : List Nat) (of : Nat) (data : List Nat) : List Nat :=
  let m := mem ++ List.replicate (of + data.length - mem.length) 0
  m.take of ++ data ++ m.drop (of + data.length)

/-- The `n` bytes of a region from offset `of` on. -/
def mem_read (mem : List Nat) (of n : Nat) : List Nat := (mem.drop of).take n

/-- Modelled from the spec: `rd_kafka_buf_write` (an inline function of
`rdkafka_buf.h`, not among the sources), the primitive under every
`rd_kafka_buf_write_*`. "Writes land contiguously" at the write cursor,
which advances by the length written; "when a required length exceeds
current allocated size" the buffer is grown, which "is only valid on
growable buffers" (the warning at `rd_kafka_buf_autopush` in the source
speaks of the same reallocation); the checksum "covers exactly the bytes
from the start of version through the end of payload", so a write on a
checksum-enabled buffer feeds its bytes to the accumulator. Returns the
offset written at. -/
def rd_kafka_buf_write (E : Env) (rkbuf : rd_kafka_buf_t) (data : List Nat) :
    Except Fault (rd_kafka_buf_t × Int) :=
  let len : Int := data.length
  let remain : Int := rkbuf.rkbuf_size - (rkbuf.rkbuf_wof + len)
  let grown :=
    if remain < 0 then rd_kafka_buf_grow E rkbuf (size_t_of_int (rkbuf.rkbuf_wof + len))
    else .ok rkbuf
  match grown with
  | .error e => .error e
  | .ok rkbuf =>
    if ¬ (rkbuf.rkbuf_wof + len ≤ rkbuf.rkbuf_size) then .error .assert_failed
    else
      let mem := memcpy rkbuf.wbuf_mem (size_t_of_int rkbuf.rkbuf_wof) data
      let rkbuf := { rkbuf with wbuf_mem := mem, rkbuf_wof := rkbuf.rkbuf_wof + len }
      let crc :=
        if rkbuf.rkbuf_flags.RD_KAFKA_OP_F_CRC = true then E.rd_crc32_update rkbuf.rkbuf_crc data
        else rkbuf.rkbuf_crc
      .ok ({ rkbuf with rkbuf_crc := crc }, rkbuf.rkbuf_wof - len)

/-- Modelled from the spec: `rd_kafka_buf_write_i64`, an 8-byte field in
network byte order. -/
def rd_kafka_buf_write_i64 (E : Env) (rkbuf : rd_kafka_buf_t) (v : Int) :
    Except Fault (rd_kafka_buf_t × Int) :=
  rd_kafka_buf_write E rkbuf (be_bytes 8 v)

/-- Modelled from the spec: `rd_kafka_buf_write_i32`, a 4-byte field in
network byte order. -/
def rd_kafka_buf_write_i32 (E : Env) (rkbuf : rd_kafka_buf_t) (v : Int) :
    Except Fault (rd_kafka_buf_t × Int) :=
  rd_kafka_buf_write E rkbuf (be_bytes 4 v)

/-- Modelled from the spec: `rd_kafka_buf_write_i8`, a 1-byte field. -/
def rd_kafka_buf_write_i8 (E : Env) (rkbuf : rd_kafka_buf_t) (v : Int) :
    Except Fault (rd_kafka_buf_t × Int) :=
  rd_kafka_buf_write E rkbuf (be_bytes 1 v)

/-- Modelled from the spec: `rd_kafka_buf_update_u32`, "an in-place update
to an already-written slot": the four bytes at offset `of`, which must lie
below the write cursor, are overwritten. -/
def rd_kafka_buf_update_u32 (rkbuf : rd_kafka_buf_t) (of : Int) (v : Nat) :
    Except Fault rd_kafka_buf_t :=
  if ¬ (0 ≤ of ∧ of + 4 ≤ rkbuf.rkbuf_wof) then .error .assert_failed
  else .ok { rkbuf with wbuf_mem := memcpy rkbuf.wbuf_mem of.toNat (be_bytes 4 v) }

/-- Modelled from the spec: `rd_kafka_buf_crc_init`, "a running 32-bit
checksum accumulator is (re)initialized at an explicit point chosen by the
encoder", after which "every subsequent push with folding enabled updates the
accumulator". The source calls it under the comment "Start Crc calculation of
all buf writes": from this point on the writes and pushes of the buffer are
folded into the accumulator, that is, the checksum flag is set. -/
def rd_kafka_buf_crc_init (E : Env) (rkbuf : rd_kafka_buf_t) : rd_kafka_buf_t :=
  let flags : Flags := { rkbuf.rkbuf_flags with RD_KAFKA_OP_F_CRC := true }
  { rkbuf with rkbuf_flags := flags, rkbuf_crc := E.rd_crc32_init }

/-- Modelled from the spec: `rd_kafka_buf_crc_finalize`, "finalization
reads the accumulator value". -/
def rd_kafka_buf_crc_finalize (E : Env) (rkbuf : rd_kafka_buf_t) : Nat :=
  E.rd_crc32_finalize rkbuf.rkbuf_crc

/-- Modelled from the spec: `rd_kafka_buf_push`, a push "with folding
enabled": `rd_kafka_buf_push0` with `allow_crc_calc = 1`. -/
def rd_kafka_buf_push (E : Env) (rkbuf : rd_kafka_buf_t) (buf : cbuf) (len : Nat) :
    Except Fault rd_kafka_buf_t :=
  rd_kafka_buf_push0 E rkbuf buf len 1

/-- Modelled from the spec: `rd_kafkap_bytes_t`, a length-prefixed byte
string of the protocol as it lies in memory at `ptr`; `data = none` is the
null key, whose length field holds the sentinel. -/
structure rd_kafkap_bytes_t where
  ptr : Ptr
  data : Option (List Nat)
deriving DecidableEq, Repr

/-- Modelled from the spec: the "null" sentinel length. -/
def RD_KAFKAP_BYTES_LEN_NULL : Int := -1

/-- Modelled from the spec: the number of data bytes of a key, `0` when it
is null. -/
def RD_KAFKAP_BYTES_LEN (kbytes : rd_kafkap_bytes_t) : Int :=
  match kbytes.data with
  | none => 0
  | some d => d.length

/-- Modelled from the spec: `RD_KAFKAP_BYTES_SIZE`, the "encoded-key-size":
the 4-byte length prefix plus the data bytes (`4+3` for a 3-byte key). -/
def RD_KAFKAP_BYTES_SIZE (kbytes : rd_kafkap_bytes_t) : Int :=
  int_of (4 + RD_KAFKAP_BYTES_LEN kbytes)

/-- Modelled from the spec: the serialized form of a key, the length prefix
(or the null sentinel) followed by the data. -/
def RD_KAFKAP_BYTES_SER (kbytes : rd_kafkap_bytes_t) : cbuf :=
  match kbytes.data with
  | none => { ptr := kbytes.ptr, mem := be_bytes 4 RD_KAFKAP_BYTES_LEN_NULL }
  | some d => { ptr := kbytes.ptr, mem := be_bytes 4 d.length ++ d }

/-- Modelled from the spec: `rd_kafka_buf_push_kbytes`, "push a
length-prefixed key span (handles a null sentinel length when absent)". -/
def rd_kafka_buf_push_kbytes (E : Env) (rkbuf : rd_kafka_buf_t) (kbytes : rd_kafkap_bytes_t) :
    Except Fault rd_kafka_buf_t :=
  rd_kafka_buf_push E rkbuf (RD_KAFKAP_BYTES_SER kbytes)
    (size_t_of_int (RD_KAFKAP_BYTES_SIZE kbytes))

/-! ## Message builder -/

/-- What `rd_kafka_buf_write_Message` hands back: the buffer after the call,
the return value and the value stored through `outlenp` (when that pointer
is not null). -/
structure write_Message_result where
  rkbuf : rd_kafka_buf_t
  begin_of : Int
  outlen : Option Int
deriving DecidableEq, Repr

/-- The function `rd_kafka_buf_write_Message`. `payload` is the pointer
argument with the memory behind it, `outlenp` tells whether the `outlenp`
argument is a non-null pointer. -/
def rd_kafka_buf_write_Message (E : Env) (rkbuf : rd_kafka_buf_t) (Offset : Int)
    (MagicByte Attributes : Int) (key : rd_kafkap_bytes_t) (payload : cbuf) (len : Int)
    (outlenp : Bool) : Except Fault write_Message_result := do
  let (rkbuf, begin_of) ← rd_kafka_buf_write_i64 E rkbuf Offset
  let MessageSize : Int := int_of (4 + 1 + 1 + RD_KAFKAP_BYTES_SIZE key + 4 + len)
  let (rkbuf, _) ← rd_kafka_buf_write_i32 E rkbuf MessageSize
  let (rkbuf, of_Crc) ← rd_kafka_buf_write_i32 E rkbuf 0
  let rkbuf := rd_kafka_buf_crc_init E rkbuf
  let (rkbuf, _) ← rd_kafka_buf_write_i8 E rkbuf MagicByte
  let (rkbuf, _) ← rd_kafka_buf_write_i8 E rkbuf Attributes
  let rkbuf ← rd_kafka_buf_autopush E rkbuf
  let rkbuf ← rd_kafka_buf_push_kbytes E rkbuf key
  let (rkbuf, _) ← rd_kafka_buf_write_i32 E rkbuf
    (if payload.ptr ≠ NULL then len else RD_KAFKAP_BYTES_LEN_NULL)
  let rkbuf ← rd_kafka_buf_autopush E rkbuf
  let rkbuf ← if payload.ptr ≠ NULL then rd_kafka_buf_push E rkbuf payload (size_t_of_int len)
    else pure rkbuf
  let rkbuf ← rd_kafka_buf_update_u32 rkbuf of_Crc (rd_kafka_buf_crc_finalize E rkbuf)
  let outlen := if outlenp then some (int_of (8 + 4 + MessageSize)) else none
  return { rkbuf := rkbuf, begin_of := begin_of, outlen := outlen }

/-- The segments a call pushed: the slots from the live count before the
call up to the live count after it. -/
def pushed_segments (before after : rd_kafka_buf_t) : List (Option iovec) :=
  (after.rkbuf_iov.drop before.msg_iovlen).take (after.msg_iovlen - before.msg_iovlen)

/-- Sum of the lengths of a run of segment slots; a slot never written
counts for nothing. -/
def segments_len (segs : List (Option iovec)) : Nat :=
  (segs.map (fun s => match s with | some v => v.iov_len | none => 0)).sum

/-- The declared MessageSize of the frame that starts at offset `begin_of`
of the write buffer: the 4-byte field after the 8-byte offset field. -/
def declared_MessageSize (rkbuf : rd_kafka_buf_t) (begin_of : Int) : Nat :=
  be_value (mem_read rkbuf.wbuf_mem (begin_of.toNat + 8) 4)

/-- The checksum slot of the frame that starts at offset `begin_of` of the
write buffer: the 4 bytes after the offset and MessageSize fields. -/
def stored_crc (rkbuf : rd_kafka_buf_t) (begin_of : Int) : List Nat :=
  mem_read rkbuf.wbuf_mem (begin_of.toNat + 12) 4

/-- The bytes of a Message frame from the version (MagicByte) byte through
the end of the payload, in wire order: version, attributes, the
length-prefixed key as pushed, the value-length field, and the payload bytes
as pushed (none for a null payload). -/
def Message_crc_bytes (MagicByte Attributes : Int) (key : rd_kafkap_bytes_t) (payload : cbuf)
    (len : Int) : List Nat :=
  be_bytes 1 MagicByte ++ be_bytes 1 Attributes ++
    (RD_KAFKAP_BYTES_SER key).mem.take (size_t_of_int (RD_KAFKAP_BYTES_SIZE key)) ++
    be_bytes 4 (if payload.ptr ≠ NULL then len else RD_KAFKAP_BYTES_LEN_NULL) ++
    (if payload.ptr ≠ NULL then payload.mem.take (size_t_of_int len) else [])

/-- The checksum `rd_kafka_buf_write_Message` accumulates, update by update
in the order of its writes and pushes, and finalizes. -/
def Message_crc (E : Env) (MagicByte Attributes : Int) (key : rd_kafkap_bytes_t)
    (payload : cbuf) (len : Int) : Nat :=
  let c1 := E.rd_crc32_update E.rd_crc32_init (be_bytes 1 MagicByte)
  let c2 := E.rd_crc32_update c1 (be_bytes 1 Attributes)
  let c3 := E.rd_crc32_update c2
    ((RD_KAFKAP_BYTES_SER key).mem.take (size_t_of_int (RD_KAFKAP_BYTES_SIZE key)))
  let c4 := E.rd_crc32_update c3
    (be_bytes 4 (if payload.ptr ≠ NULL then len else RD_KAFKAP_BYTES_LEN_NULL))
  let c5 := if payload.ptr ≠ NULL then E.rd_crc32_update c4 (payload.mem.take (size_t_of_int len))
    else c4
  E.rd_crc32_finalize c5

/-- The CRC-32 of a run of bytes: the checksum engine started, fed the
bytes in one piece, and finalized. -/
def crc32_of (E : Env) (data : List Nat) : Nat :=
  E.rd_crc32_finalize (E.rd_crc32_update E.rd_crc32_init data)

/-- The checksum engine is incremental: feeding two runs of bytes one after
the other is feeding their concatenation. -/
def crc_incremental (E : Env) : Prop :=
  ∀ (c : Nat) (xs ys : List Nat),
    E.rd_crc32_update (E.rd_crc32_update c xs) ys = E.rd_crc32_update c (xs ++ ys)

/-- The bytes of the frame that starts at offset `begin_of` of the write
buffer, from the version byte on, as its segments put them on the wire: the
version and attributes bytes of the write buffer, the key segment, the
value-length field of the write buffer and the payload segment. -/
def frame_from_version (rkbuf : rd_kafka_buf_t) (begin_of : Int) (key : rd_kafkap_bytes_t)
    (payload : cbuf) (len : Int) : List Nat :=
  mem_read rkbuf.wbuf_mem (begin_of.toNat + 16) 1 ++
    mem_read rkbuf.wbuf_mem (begin_of.toNat + 17) 1 ++
    (RD_KAFKAP_BYTES_SER key).mem.take (size_t_of_int (RD_KAFKAP_BYTES_SIZE key)) ++
    mem_read rkbuf.wbuf_mem (begin_of.toNat + 18) 4 ++
    (if payload.ptr ≠ NULL then payload.mem.take (size_t_of_int len) else [])

/-- The buffer after a `rd_kafka_buf_write` of `data` that finds room
without growing. -/
def after_write (E : Env) (b : rd_kafka_buf_t) (data : List Nat) : rd_kafka_buf_t :=
  { b with
    wbuf_mem := memcpy b.wbuf_mem b.rkbuf_wof.toNat data,
    rkbuf_wof := b.rkbuf_wof + data.length,
    rkbuf_crc :=
      if b.rkbuf_flags.RD_KAFKA_OP_F_CRC = true then E.rd_crc32_update b.rkbuf_crc data
      else b.rkbuf_crc }

/-- The buffer after a `rd_kafka_buf_push0` that finds a free slot. -/
def after_push (E : Env) (b : rd_kafka_buf_t) (buf : cbuf) (len : Nat) (allow_crc_calc : Int) :
    rd_kafka_buf_t :=
  { b with
    rkbuf_wof_init := b.rkbuf_wof,
    msg_iovlen := b.msg_iovlen + 1,
    rkbuf_iov := b.rkbuf_iov.set b.msg_iovlen (some { iov_base := buf.ptr, iov_len := len }),
    rkbuf_crc :=
      if allow_crc_calc ≠ 0 ∧ b.rkbuf_flags.RD_KAFKA_OP_F_CRC = true then
        E.rd_crc32_update b.rkbuf_crc (buf.mem.take len)
      else b.rkbuf_crc }

/-- The buffer after a `rd_kafka_buf_autopush` that finds a free slot. -/
def after_autopush (E : Env) (b : rd_kafka_buf_t) : rd_kafka_buf_t :=
  after_push E b
    { ptr := b.rkbuf_wbuf + size_t_of_int b.rkbuf_wof_init,
      mem := b.wbuf_mem.drop (size_t_of_int b.rkbuf_wof_init) }
    (size_t_of_int (b.rkbuf_wof - b.rkbuf_wof_init)) 0

/-- The buffer after the first five writes of `rd_kafka_buf_write_Message`
(offset, MessageSize, checksum slot, magic byte, attributes), each of which
finds room. -/
def after_header (E : Env) (b : rd_kafka_buf_t) (Offset MessageSize MagicByte Attributes : Int) :
    rd_kafka_buf_t :=
  let b1 := after_write E b (be_bytes 8 Offset)
  let b2 := after_write E b1 (be_bytes 4 MessageSize)
  let b3 := after_write E b2 (be_bytes 4 0)
  let b4 := rd_kafka_buf_crc_init E b3
  let b5 := after_write E b4 (be_bytes 1 MagicByte)
  after_write E b5 (be_bytes 1 Attributes)

/-- The buffer after a `rd_kafka_buf_write_Message` in which every write
finds room and every push finds a free slot. -/
def after_write_Message (E : Env) (b : rd_kafka_buf_t) (Offset : Int)
    (MagicByte Attributes : Int) (key : rd_kafkap_bytes_t) (payload : cbuf) (len : Int) :
    rd_kafka_buf_t :=
  let MessageSize : Int := int_of (4 + 1 + 1 + RD_KAFKAP_BYTES_SIZE key + 4 + len)
  let b6 := after_header E b Offset MessageSize MagicByte Attributes
  let b7 := after_autopush E b6
  let b8 := after_push E b7 (RD_KAFKAP_BYTES_SER key) (size_t_of_int (RD_KAFKAP_BYTES_SIZE key)) 1
  let b9 := after_write E b8
    (be_bytes 4 (if payload.ptr ≠ NULL then len else RD_KAFKAP_BYTES_LEN_NULL))
  let b10 := after_autopush E b9
  let b11 := if payload.ptr ≠ NULL then after_push E b10 payload (size_t_of_int len) 1 else b10
  { b11 with
    wbuf_mem := memcpy b11.wbuf_mem (b.rkbuf_wof + 12).toNat
      (be_bytes 4 (rd_kafka_buf_crc_finalize E b11)) }

/-- The representation invariant of a buffer: the iovec array has
`rkbuf_iovcnt` slots, `rkbuf_iovcnt` is an `int`, the allocated size is a
`size_t` and the write cursor is not negative. -/
def buf_wf (b : rd_kafka_buf_t) : Prop :=
  (b.rkbuf_iov.length : Int) = b.rkbuf_iovcnt ∧ b.rkbuf_iovcnt < 2 ^ 31 ∧
  b.rkbuf_size < SIZE_T_MOD ∧ 0 ≤ b.rkbuf_wof

/-! ## Sequences of buffer operations -/

/-- One call on a buffer: the operations of this file that touch the
segment stack or the write cursor. -/
inductive buf_op
  | push0 (buf : cbuf) (len : Nat) (allow_crc_calc : Int)
  | autopush
  | rewind (iovindex new_of : Int)
  | grow (needed_len : Nat)
  | write (data : List Nat)
  | write_Message (Offset MagicByte Attributes : Int) (key : rd_kafkap_bytes_t)
      (payload : cbuf) (len : Int)
deriving DecidableEq, Repr

/-- The buffer after one call, or the fault that ends the program. -/
def buf_step (E : Env) (b : rd_kafka_buf_t) : buf_op → Except Fault rd_kafka_buf_t
  | .push0 buf len allow_crc_calc => rd_kafka_buf_push0 E b buf len allow_crc_calc
  | .autopush => rd_kafka_buf_autopush E b
  | .rewind iovindex new_of => .ok (rd_kafka_buf_rewind b iovindex new_of)
  | .grow needed_len => rd_kafka_buf_grow E b needed_len
  | .write data =>
    match rd_kafka_buf_write E b data with
    | .error e => .error e
    | .ok r => .ok r.1
  | .write_Message Offset MagicByte Attributes key payload len =>
    match rd_kafka_buf_write_Message E b Offset MagicByte Attributes key payload len false with
    | .error e => .error e
    | .ok r => .ok r.rkbuf

/-- A sequence of calls on one buffer, run in order. -/
def buf_run (E : Env) (b : rd_kafka_buf_t) : List buf_op → Except Fault rd_kafka_buf_t
  | [] => .ok b
  | op :: ops =>
    match buf_step E b op with
    | .error e => .error e
    | .ok b => buf_run E b ops

/-- The call is a push or a write: `rd_kafka_buf_push0`,
`rd_kafka_buf_autopush` or `rd_kafka_buf_write`. -/
def is_push_or_write : buf_op → Prop
  | .push0 _ _ _ => True
  | .autopush => True
  | .write _ => True
  | _ => False

/-- The buffer is what a constructor returned for a segment count `iovcnt`
that is not negative and leaves `iovcnt + 2` an `int`. -/
def constructed_nonneg (E : Env) (b : rd_kafka_buf_t) : Prop :=
  (∃ rkbuf iovcnt size, 0 ≤ iovcnt ∧ iovcnt + 2 < 2 ^ 31 ∧
    rd_kafka_buf_new E rkbuf iovcnt size = .ok b) ∨
  (∃ rkbuf buf iovcnt init_size, 0 ≤ iovcnt ∧ iovcnt + 2 < 2 ^ 31 ∧
    rd_kafka_buf_new_growable E rkbuf buf iovcnt init_size = .ok b) ∨
  (∃ rkbuf ptr size, rd_kafka_buf_new_shadow rkbuf ptr size = b)

/-- The stack invariant the operations keep: the capacity is `c`, the live
count lies between `i` and `c`, and the first `i` slots are `l`. -/
def stack_inv (c : Int) (i : Nat) (l : List (Option iovec)) (b : rd_kafka_buf_t) : Prop :=
  b.rkbuf_iovcnt = c ∧ i ≤ b.msg_iovlen ∧ (b.msg_iovlen : Int) ≤ c ∧ b.rkbuf_iov.take i = l

/-! ## Buffer queues -/

/-- The address of one of the pointers that link a queue, the type
`rd_kafka_buf_t **` of `tqh_last` and `tqe_prev`. -/
inductive Cell
  /-- The null pointer. -/
  | null
  /-- The address `&rkbufq->rkbq_bufs.tqh_first` in the queue at `rkbufq`. -/
  | tqh_first (rkbufq : Ptr)
  /-- The address `&rkbuf->rkbuf_link.tqe_next` in the buffer at `rkbuf`. -/
  | tqe_next (rkbuf : Ptr)
deriving DecidableEq, Repr

/-- Modelled from the spec: the memory the queue functions work on, "an
ordered sequence of Buffers plus two running totals" per queue, as the
`TAILQ` of `sys/queue.h` lays it out. For the queue (`rd_kafka_bufq_t`) at
an address: the head `tqh_first`, `tqh_last` of `rkbq_bufs` and the 32-bit
counters `rkbq_cnt` and `rkbq_msg_cnt`. For the buffer at an address: its
link `rkbuf_link` (`tqe_next`, `tqe_prev`) and its message-group counter
`rkbuf_msgq.rkmq_msg_cnt`. A buffer that was never linked has the null links
its constructor's `memset` or `rd_calloc` left. -/
structure Heap where
  tqh_first : Ptr → Ptr
  tqh_last : Ptr → Cell
  rkbq_cnt : Ptr → Int
  rkbq_msg_cnt : Ptr → Int
  tqe_next : Ptr → Ptr
  tqe_prev : Ptr → Cell
  rkmq_msg_cnt : Ptr → Int

/-- The pointer stored at a cell (a load `*c`); the embedding gives `NULL`
for the null cell, which no function of the file loads from. -/
def load_ptr (H : Heap) : Cell → Ptr
  | .null => NULL
  | .tqh_first rkbufq => H.tqh_first rkbufq
  | .tqe_next rkbuf => H.tqe_next rkbuf

/-- The memory after the store `*c = v` through a cell other than null. -/
def put_ptr (H : Heap) : Cell → Ptr → Heap
  | .null, _ => H
  | .tqh_first rkbufq, v => { H with tqh_first := Function.update H.tqh_first rkbufq v }
  | .tqe_next rkbuf, v => { H with tqe_next := Function.update H.tqe_next rkbuf v }

/-- The store `*c = v`: a store through the null pointer kills the
process. -/
def store_ptr (H : Heap) (c : Cell) (v : Ptr) : Except Fault Heap :=
  if c = .null then .error .null_deref else .ok (put_ptr H c v)

/-- Modelled from the spec: `TAILQ_INIT` (`sys/queue.h`), the reset "to
empty": `tqh_first = NULL; tqh_last = &tqh_first`. -/
def TAILQ_INIT (H : Heap) (head : Ptr) : Except Fault Heap :=
  if head = NULL then .error .null_deref
  else
    let H := { H with tqh_first := Function.update H.tqh_first head NULL }
    .ok { H with tqh_last := Function.update H.tqh_last head (.tqh_first head) }

/-- Modelled from the spec: `TAILQ_INSERT_TAIL` (`sys/queue.h`), "append to
queue tail", statement by statement:
`elm->tqe_next = NULL; elm->tqe_prev = head->tqh_last; *head->tqh_last = elm;
head->tqh_last = &elm->tqe_next`. -/
def TAILQ_INSERT_TAIL (H : Heap) (head elm : Ptr) : Except Fault Heap :=
  if head = NULL ∨ elm = NULL then .error .null_deref
  else
    let H := { H with tqe_next := Function.update H.tqe_next elm NULL }
    let H := { H with tqe_prev := Function.update H.tqe_prev elm (H.tqh_last head) }
    match store_ptr H (H.tqh_last head) elm with
    | .error e => .error e
    | .ok H => .ok { H with tqh_last := Function.update H.tqh_last head (.tqe_next elm) }

/-- Modelled from the spec: `TAILQ_REMOVE` (`sys/queue.h`), "remove a
specific buffer from anywhere in the queue", statement by statement:
`if (elm->tqe_next != NULL) elm->tqe_next->tqe_prev = elm->tqe_prev; else
head->tqh_last = elm->tqe_prev; *elm->tqe_prev = elm->tqe_next`. The macro
works through the links stored in `elm`, whatever queue they belong to. -/
def TAILQ_REMOVE (H : Heap) (head elm : Ptr) : Except Fault Heap :=
  if head = NULL ∨ elm = NULL then .error .null_deref
  else
    let prev := Function.update H.tqe_prev (H.tqe_next elm) (H.tqe_prev elm)
    let last := Function.update H.tqh_last head (H.tqe_prev elm)
    let H := if H.tqe_next elm ≠ NULL then { H with tqe_prev := prev } else { H with tqh_last := last }
    store_ptr H (H.tqe_prev elm) (H.tqe_next elm)

/-- Modelled from the spec: `TAILQ_CONCAT` (`sys/queue.h`), "move all
entries from a source queue to the tail of a destination queue", statement by
statement: `if (head2->tqh_first != NULL) { *head1->tqh_last =
head2->tqh_first; head2->tqh_first->tqe_prev = head1->tqh_last;
head1->tqh_last = head2->tqh_last; TAILQ_INIT(head2); }`. -/
def TAILQ_CONCAT (H : Heap) (head1 head2 : Ptr) : Except Fault Heap :=
  if head1 = NULL ∨ head2 = NULL then .error .null_deref
  else if H.tqh_first head2 ≠ NULL then
    match store_ptr H (H.tqh_last head1) (H.tqh_first head2) with
    | .error e => .error e
    | .ok H =>
      let prev := Function.update H.tqe_prev (H.tqh_first head2) (H.tqh_last head1)
      let H := { H with tqe_prev := prev }
      let H := { H with tqh_last := Function.update H.tqh_last head1 (H.tqh_last head2) }
      TAILQ_INIT H head2
  else .ok H

/-- The function `rd_kafka_bufq_enq`. -/
def rd_kafka_bufq_enq (H : Heap) (rkbufq rkbuf : Ptr) : Except Fault Heap :=
  match TAILQ_INSERT_TAIL H rkbufq rkbuf with
  | .error e => .error e
  | .ok H =>
    let cnt := Function.update H.rkbq_cnt rkbufq (rd_atomic32_add (H.rkbq_cnt rkbufq) 1)
    let H := { H with rkbq_cnt := cnt }
    let msg_cnt := Function.update H.rkbq_msg_cnt rkbufq
      (rd_atomic32_add (H.rkbq_msg_cnt rkbufq) (H.rkmq_msg_cnt rkbuf))
    .ok { H with rkbq_msg_cnt := msg_cnt }

/-- The function `rd_kafka_bufq_deq`. -/
def rd_kafka_bufq_deq (H : Heap) (rkbufq rkbuf : Ptr) : Except Fault Heap :=
  match TAILQ_REMOVE H rkbufq rkbuf with
  | .error e => .error e
  | .ok H =>
    if ¬ (H.rkbq_cnt rkbufq > 0) then .error .assert_failed
    else
      let cnt := Function.update H.rkbq_cnt rkbufq (rd_atomic32_sub (H.rkbq_cnt rkbufq) 1)
      let H := { H with rkbq_cnt := cnt }
      let msg_cnt := Function.update H.rkbq_msg_cnt rkbufq
        (rd_atomic32_sub (H.rkbq_msg_cnt rkbufq) (H.rkmq_msg_cnt rkbuf))
      .ok { H with rkbq_msg_cnt := msg_cnt }

/-- The function `rd_kafka_bufq_init`. -/
def rd_kafka_bufq_init (H : Heap) (rkbufq : Ptr) : Except Fault Heap :=
  match TAILQ_INIT H rkbufq with
  | .error e => .error e
  | .ok H =>
    let H := { H with rkbq_cnt := Function.update H.rkbq_cnt rkbufq 0 }
    .ok { H with rkbq_msg_cnt := Function.update H.rkbq_msg_cnt rkbufq 0 }

/-- The function `rd_kafka_bufq_concat`; `dst` and `src` may be the same
queue. -/
def rd_kafka_bufq_concat (H : Heap) (dst src : Ptr) : Except Fault Heap :=
  match TAILQ_CONCAT H dst src with
  | .error e => .error e
  | .ok H =>
    let cnt := Function.update H.rkbq_cnt dst (rd_atomic32_add (H.rkbq_cnt dst) (H.rkbq_cnt src))
    let H := { H with rkbq_cnt := cnt }
    let msg_cnt := Function.update H.rkbq_msg_cnt dst
      (rd_atomic32_add (H.rkbq_msg_cnt dst) (H.rkbq_msg_cnt src))
    let H := { H with rkbq_msg_cnt := msg_cnt }
    rd_kafka_bufq_init H src

/-- The links of `H` from cell `c` on spell the buffers `xs`, in order, and
end at cell `last`: `*c` is the first buffer, each buffer's `tqe_prev` is the
cell that points to it, its `tqe_next` cell continues the list, and the cell
behind the last buffer holds `NULL`. -/
def tailq_seg (H : Heap) : Cell → List Ptr → Cell → Prop
  | c, [], last => load_ptr H c = NULL ∧ last = c
  | c, x :: xs, last =>
    load_ptr H c = x ∧ x ≠ NULL ∧ H.tqe_prev x = c ∧ tailq_seg H (.tqe_next x) xs last

instance tailq_seg_decidable (H : Heap) :
    ∀ (c : Cell) (xs : List Ptr) (last : Cell), Decidable (tailq_seg H c xs last)
  | c, [], last => by
    unfold tailq_seg
    exact inferInstance
  | c, x :: xs, last => by
    unfold tailq_seg
    have := tailq_seg_decidable H (.tqe_next x) xs last
    exact inferInstance

/-- The queue at `rkbufq` holds the buffers `xs`, head first: its `TAILQ` is
well linked from `tqh_first` to `tqh_last`. -/
def is_tailq (H : Heap) (rkbufq : Ptr) (xs : List Ptr) : Prop :=
  tailq_seg H (.tqh_first rkbufq) xs (H.tqh_last rkbufq)

instance is_tailq_decidable (H : Heap) (rkbufq : Ptr) (xs : List Ptr) :
    Decidable (is_tailq H rkbufq xs) := by
  unfold is_tailq
  exact inferInstance

/-- The memory after a `TAILQ_INIT` on a queue other than null. -/
def after_tailq_init (H : Heap) (head : Ptr) : Heap :=
  let H := { H with tqh_first := Function.update H.tqh_first head NULL }
  { H with tqh_last := Function.update H.tqh_last head (.tqh_first head) }

/-- The memory after a `TAILQ_INSERT_TAIL` that returns. -/
def after_insert_tail (H : Heap) (head elm : Ptr) : Heap :=
  let H := { H with tqe_next := Function.update H.tqe_next elm NULL }
  let H := { H with tqe_prev := Function.update H.tqe_prev elm (H.tqh_last head) }
  let H := put_ptr H (H.tqh_last head) elm
  { H with tqh_last := Function.update H.tqh_last head (.tqe_next elm) }

/-- The memory after a `TAILQ_REMOVE` that returns. -/
def after_remove (H : Heap) (head elm : Ptr) : Heap :=
  let prev := Function.update H.tqe_prev (H.tqe_next elm) (H.tqe_prev elm)
  let last := Function.update H.tqh_last head (H.tqe_prev elm)
  let H := if H.tqe_next elm ≠ NULL then { H with tqe_prev := prev } else { H with tqh_last := last }
  put_ptr H (H.tqe_prev elm) (H.tqe_next elm)

/-- The memory after a `TAILQ_CONCAT` of a source queue that is not empty,
when it returns. -/
def after_concat (H : Heap) (head1 head2 : Ptr) : Heap :=
  let H := put_ptr H (H.tqh_last head1) (H.tqh_first head2)
  let prev := Function.update H.tqe_prev (H.tqh_first head2) (H.tqh_last head1)
  let H := { H with tqe_prev := prev }
  let H := { H with tqh_last := Function.update H.tqh_last head1 (H.tqh_last head2) }
  after_tailq_init H head2

/-- The memory with new values for the counters of the queues. -/
def with_counters (H : Heap) (cnt msg_cnt : Ptr → Int) : Heap :=
  { H with rkbq_cnt := cnt, rkbq_msg_cnt := msg_cnt }

/-- The cells behind the buffers `xs`: the address of each one's `tqe_next`. -/
def next_cells (xs : List Ptr) : List Cell := xs.map Cell.tqe_next

/-- The sum of the message-group counters of the buffers `xs`. -/
def msg_cnt_sum (H : Heap) (xs : List Ptr) : Int := (xs.map H.rkmq_msg_cnt).sum

/-! ## Purging a queue -/

/-- Modelled from the spec: the queue as a traversal reads it, "an ordered
sequence of Buffers plus two running totals": the members of the `TAILQ`
`rkbq_bufs`, head first, each with the fields of its struct, and the two
counters. -/
structure rd_kafka_bufq_t where
  rkbq_bufs : List rd_kafka_buf_t
  rkbq_cnt : Int
  rkbq_msg_cnt : Int
deriving DecidableEq, Repr

/-- Modelled from the spec: `rd_kafka_broker_t`, the connection that owns the
queues, with its "owning execution context". Of the broker handle the purge
reads its address (passed on to the callbacks) and `rkb_thread`, the thread
that runs the broker. -/
structure rd_kafka_broker_t where
  rkb : Ptr
  rkb_thread : Nat
deriving DecidableEq, Repr

/-- Modelled from the spec: `thrd_is_current` (the thread library), the test
behind the "assertion on context identity at queue-purge time": whether
thread `thr` is the calling thread `self`. -/
def thrd_is_current (self thr : Nat) : Bool := decide (thr = self)

/-- One invocation `rkbuf->rkbuf_cb(rkb, err, response, request, opaque)` of
a completion callback: the function called and its five arguments. -/
structure cb_call where
  cb : Nat
  rkb : Ptr
  err : Int
  response : Ptr
  request : rd_kafka_buf_t
  cb_opaque : Ptr
deriving DecidableEq, Repr

/-- Modelled from the spec: `TAILQ_FIRST` (`sys/queue.h`), the head of the
list, `none` (NULL) for an empty list. -/
def TAILQ_FIRST (head : List rd_kafka_buf_t) : Option rd_kafka_buf_t := head.head?

/-- Modelled from the spec: `TAILQ_NEXT` (`sys/queue.h`), the element linked
behind `elm`, `none` (NULL) when `elm` is the last one. The macro reads the
link stored in `elm`; for an element that is not linked in the list the model
gives NULL. -/
def TAILQ_NEXT : List rd_kafka_buf_t → rd_kafka_buf_t → Option rd_kafka_buf_t
  | [], _ => none
  | y :: l, elm => if y = elm then l.head? else TAILQ_NEXT l elm

/-- The loop `TAILQ_FOREACH_SAFE(rkbuf, &rkbufq->rkbq_bufs, rkbuf_link, tmp)`
of `rd_kafka_bufq_purge` from the cursor `rkbuf` on: the successor is saved
in `tmp` before the body runs, the body calls the member's callback, and the
cursor moves to `tmp`. `run_cb` is the code behind the function pointers: what
a callback invocation does to the queue being purged. The result is the queue
after the loop and the invocations made, in order; `none` when `fuel`
iterations were not enough to reach the end of the list. -/
def purge_loop (run_cb : cb_call → rd_kafka_bufq_t → rd_kafka_bufq_t) (rkb : Ptr) (err : Int) :
    Nat → Option rd_kafka_buf_t → rd_kafka_bufq_t → List cb_call →
    Option (Except Fault (rd_kafka_bufq_t × List cb_call))
  | 0, _, _, _ => none
  | _ + 1, none, rkbufq, calls => some (.ok (rkbufq, calls))
  | fuel + 1, some rkbuf, rkbufq, calls =>
    let tmp := TAILQ_NEXT rkbufq.rkbq_bufs rkbuf
    if rkbuf.rkbuf_cb = NULL then some (.error .null_call)
    else
      let call : cb_call :=
        { cb := rkbuf.rkbuf_cb, rkb := rkb, err := err, response := NULL, request := rkbuf,
          cb_opaque := rkbuf.rkbuf_opaque }
      purge_loop run_cb rkb err fuel tmp (run_cb call rkbufq) (calls ++ [call])

/-- The function `rd_kafka_bufq_purge`, called on thread `self`: the queue
after the call and the callback invocations made, in order. The debug line
`rd_rkb_dbg` has no effect on the queue. `none` when `fuel` iterations of the
loop were not enough. -/
def rd_kafka_bufq_purge (run_cb : cb_call → rd_kafka_bufq_t → rd_kafka_bufq_t) (self : Nat)
    (fuel : Nat) (rkb : rd_kafka_broker_t) (rkbufq : rd_kafka_bufq_t) (err : Int) :
    Option (Except Fault (rd_kafka_bufq_t × List cb_call)) :=
  if ¬ (thrd_is_current self rkb.rkb_thread = true) then some (.error .assert_failed)
  else purge_loop run_cb rkb.rkb err fuel (TAILQ_FIRST rkbufq.rkbq_bufs) rkbufq []

/-- One queue operation of a program that works on several queues, named by
their addresses. -/
inductive bufq_op
  | init (rkbufq : Ptr)
  | enq (rkbufq rkbuf : Ptr)
  | deq (rkbufq rkbuf : Ptr)
  | concat (dst src : Ptr)
deriving DecidableEq, Repr

/-- The effect of one operation on the memory. -/
def bufq_step (H : Heap) : bufq_op → Except Fault Heap
  | .init rkbufq => rd_kafka_bufq_init H rkbufq
  | .enq rkbufq rkbuf => rd_kafka_bufq_enq H rkbufq rkbuf
  | .deq rkbufq rkbuf => rd_kafka_bufq_deq H rkbufq rkbuf
  | .concat dst src => rd_kafka_bufq_concat H dst src

/-- A sequence of operations, run in order. -/
def bufq_run (H : Heap) : List bufq_op → Except Fault Heap
  | [] => .ok H
  | op :: ops =>
    match bufq_step H op with
    | .error e => .error e
    | .ok H => bufq_run H ops

/-- The members of every queue after one operation, given the members `L`
before it: the bookkeeping of who is linked where. -/
def members_step (L : Ptr → List Ptr) : bufq_op → (Ptr → List Ptr)
  | .init rkbufq => Function.update L rkbufq []
  | .enq rkbufq rkbuf => Function.update L rkbufq (L rkbufq ++ [rkbuf])
  | .deq rkbufq rkbuf => Function.update L rkbufq ((L rkbufq).erase rkbuf)
  | .concat dst src => Function.update (Function.update L dst (L dst ++ L src)) src []

/-- The members of every queue after a sequence of operations. -/
def members_run (L : Ptr → List Ptr) : List bufq_op → (Ptr → List Ptr)
  | [] => L
  | op :: ops => members_run (members_step L op) ops

/-- The operation is one a program may make on the queues `qs` whose members
are `L`: it names queues of `qs`, it enqueues a buffer (not the null pointer)
that is not linked in any of the queues, and it dequeues a buffer that is a
member of the queue it names, a queue of fewer than `2 ^ 31` members. -/
def op_legal (qs : List Ptr) (L : Ptr → List Ptr) : bufq_op → Prop
  | .init rkbufq => rkbufq ∈ qs
  | .enq rkbufq rkbuf => rkbufq ∈ qs ∧ rkbuf ≠ NULL ∧ ∀ q ∈ qs, rkbuf ∉ L q
  | .deq rkbufq rkbuf => rkbufq ∈ qs ∧ rkbuf ∈ L rkbufq ∧ (L rkbufq).length < 2 ^ 31
  | .concat dst src => dst ∈ qs ∧ src ∈ qs

/-- Every operation of the sequence is legal at the moment it is made. -/
def ops_legal (qs : List Ptr) (L : Ptr → List Ptr) : List bufq_op → Prop
  | [] => True
  | op :: ops => op_legal qs L op ∧ ops_legal qs (members_step L op) ops

/-- The invariant of the queues `qs` with members `L`: each queue is well
linked over its members, `rkbq_cnt` is the 32-bit value of their number and
`rkbq_msg_cnt` the 32-bit value of the sum of their message-group
counters. -/
def bufq_ok (qs : List Ptr) (H : Heap) (L : Ptr → List Ptr) : Prop :=
  ∀ q ∈ qs, is_tailq H q (L q) ∧ H.rkbq_cnt q = int_of (L q).length ∧
    H.rkbq_msg_cnt q = int_of (msg_cnt_sum H (L q))

/-- The call `rd_kafka_bufq_init` on each of the queues `qs`. -/
def bufq_init_all (H : Heap) : List Ptr → Except Fault Heap
  | [] => .ok H
  | q :: qs =>
    match rd_kafka_bufq_init H q with
    | .error e => .error e
    | .ok H => bufq_init_all H qs

/-! ## A concrete environment and concrete inputs

Used to run the definitions on examples. -/

/-- One shift-and-xor step of the bitwise CRC-32 (reflected polynomial
`0xEDB88320`). -/
def crc32_bit (c : Nat) : Nat :=
  if c % 2 = 1 then Nat.xor (c / 2) 0xEDB88320 else c / 2

/-- The bitwise CRC-32 of one more byte. -/
def crc32_byte (c b : Nat) : Nat :=
  crc32_bit (crc32_bit (crc32_bit (crc32_bit (crc32_bit (crc32_bit (crc32_bit (crc32_bit
    (Nat.xor c (b % 256)))))))))

/-- An LP64 environment: a 12-byte request header, `IOV_MAX = 1024`,
16-byte iovecs, the bitwise CRC-32 and a `realloc` that extends in place. -/
def lp64 : Env :=
  { RD_KAFKAP_REQHDR_SIZE := 12,
    IOV_MAX := 1024,
    sizeof_rkbuf := 512,
    sizeof_iovec := 16,
    rd_crc32_init := 0xFFFFFFFF,
    rd_crc32_update := fun c data => data.foldl crc32_byte c,
    rd_crc32_finalize := fun c => Nat.xor c 0xFFFFFFFF,
    rd_realloc := fun p _ => p }

/-- The 3-byte key "abc", stored at address `0x9000`. -/
def key_abc : rd_kafkap_bytes_t := { ptr := 0x9000, data := some [97, 98, 99] }

/-- The 5-byte payload "hello", stored at address `0xa000`. -/
def payload_hello : cbuf := { ptr := 0xa000, mem := [104, 101, 108, 108, 111] }

/-- A fresh buffer from `rd_kafka_buf_new(4, 64)`, allocated at `0x1000`. -/
def fresh_buf : rd_kafka_buf_t :=
  match rd_kafka_buf_new lp64 0x1000 4 64 with
  | .ok b => b
  | .error _ => zeroed 0x1000

/-- The buffer `fresh_buf` after one 4-byte field has been written into it
and not yet pushed: the write cursor is 4 past the initial cursor. -/
def pending_buf : rd_kafka_buf_t := after_write lp64 fresh_buf (be_bytes 4 7)

/-- The buffer `fresh_buf` with the checksum flag set and a checksum
accumulator left over from earlier use. -/
def stale_crc_buf : rd_kafka_buf_t :=
  let flags : Flags := { fresh_buf.rkbuf_flags with RD_KAFKA_OP_F_CRC := true }
  { fresh_buf with rkbuf_flags := flags, rkbuf_crc := 0xdeadbeef }

/-- A null payload pointer. -/
def payload_null : cbuf := { ptr := NULL, mem := [] }

/-- A growable buffer whose allocated size is 1 byte: what
`rd_kafka_buf_new_growable(0, 1)` returns. -/
def tiny_growable : rd_kafka_buf_t :=
  match rd_kafka_buf_new_growable lp64 0x1000 0x2000 0 1 with
  | .ok b => b
  | .error _ => zeroed 0x1000

/-- A growable buffer with 3 bytes allocated: what
`rd_kafka_buf_new_growable(0, 3)` returns. -/
def small_growable : rd_kafka_buf_t :=
  match rd_kafka_buf_new_growable lp64 0x1000 0x2000 0 3 with
  | .ok b => b
  | .error _ => zeroed 0x1000

/-- A request buffer at address `0x1000` that carries 3 messages. -/
def buf_a : rd_kafka_buf_t := { fresh_buf with rkbuf := 0x1000, rkmq_msg_cnt := 3 }

/-- A request buffer at address `0x3000` that carries 5 messages. -/
def buf_b : rd_kafka_buf_t := { fresh_buf with rkbuf := 0x3000, rkmq_msg_cnt := 5 }

/-- Memory in which no queue has been initialised and no buffer linked: all
links are null. The buffers at `0x1000`, `0x3000` and `0x5000` carry 3, 5
and 0 messages, those at `0xc000` and `0xd000` carry `INT32_MAX` messages
each. -/
def heap_zero : Heap :=
  { tqh_first := fun _ => NULL, tqh_last := fun _ => .null, rkbq_cnt := fun _ => 0,
    rkbq_msg_cnt := fun _ => 0, tqe_next := fun _ => NULL, tqe_prev := fun _ => .null,
    rkmq_msg_cnt := fun b =>
      if b = 0x1000 then 3 else if b = 0x3000 then 5
      else if b = 0xc000 ∨ b = 0xd000 then 2147483647 else 0 }

/-- The memory after the operations `ops` on `heap_zero`. -/
def heap_after (ops : List bufq_op) : Heap :=
  match bufq_run heap_zero ops with
  | .ok H => H
  | .error _ => heap_zero

/-- The queue at `0x100` holds the buffers at `0x1000`, `0x3000` and
`0x5000`, in this order. -/
def heap_abc : Heap :=
  heap_after [.init 0x100, .enq 0x100 0x1000, .enq 0x100 0x3000, .enq 0x100 0x5000]

/-- The queue at `0x100` holds the buffer at `0x1000`, the queue at `0x200`
holds the buffers at `0x3000` and `0x5000`. -/
def heap_two : Heap :=
  heap_after [.init 0x100, .init 0x200, .enq 0x100 0x1000, .enq 0x200 0x3000,
    .enq 0x200 0x5000]

/-- A run on two queues: two enqueues on the queue at `0x100`, one on the
queue at `0x200`, a concatenation of the second queue onto the first, then
the removal of the middle buffer of the first. -/
def sample_ops : List bufq_op :=
  [.enq 0x100 0x1000, .enq 0x100 0x3000, .enq 0x200 0x5000, .concat 0x100 0x200,
    .deq 0x100 0x3000]

/-- A shadow buffer at `0x1000` over the 16 bytes at `0x8000`. -/
def shadow_buf : rd_kafka_buf_t := rd_kafka_buf_new_shadow 0x1000 0x8000 16

/-- What the storage of `fresh_buf` holds after its only reference has been
released: the count is 0. -/
def released_buf : rd_kafka_buf_t := (rd_kafka_buf_destroy fresh_buf).1

/-- A growable buffer with nothing allocated: what
`rd_kafka_buf_new_growable(0, 0)` returns. -/
def zero_growable : rd_kafka_buf_t :=
  match rd_kafka_buf_new_growable lp64 0x1000 0x2000 0 0 with
  | .ok b => b
  | .error _ => zeroed 0x1000

/-- A fresh buffer from `rd_kafka_buf_new(0, 64)`: no segment slot beyond the
two reserved ones. -/
def full_buf : rd_kafka_buf_t :=
  match rd_kafka_buf_new lp64 0x1000 0 64 with
  | .ok b => b
  | .error _ => zeroed 0x1000

/-- A run on one buffer: a 4-byte write, an autopush of it, and a push of the
payload "hello". -/
def sample_buf_ops : List buf_op :=
  [.write (be_bytes 4 7), .autopush, .push0 payload_hello 5 1]

/-- The buffer `fresh_buf` after `sample_buf_ops`. -/
def pushed_buf : rd_kafka_buf_t :=
  match buf_run lp64 fresh_buf sample_buf_ops with
  | .ok b => b
  | .error _ => fresh_buf

/-- A run that pushes one segment, rewinds to the start of the free slots,
and builds a Message frame. -/
def sample_rewind_ops : List buf_op :=
  [.push0 payload_hello 5 1, .rewind 2 12, .write_Message 0 0 0 key_abc payload_hello 5]

/-- The buffer `fresh_buf` after `sample_rewind_ops`. -/
def rewound_buf : rd_kafka_buf_t :=
  match buf_run lp64 fresh_buf sample_rewind_ops with
  | .ok b => b
  | .error _ => fresh_buf

/-- The buffer `fresh_buf` after `rd_kafka_buf_rewind(rkbuf, 7, 12)`. -/
def overwound_buf : rd_kafka_buf_t := rd_kafka_buf_rewind fresh_buf 7 12

/-- What `rd_kafka_buf_new(-1, 64)` returns. -/
def negative_buf : rd_kafka_buf_t :=
  match rd_kafka_buf_new lp64 0x1000 (-1) 64 with
  | .ok b => b
  | .error _ => zeroed 0x1000

/-- The request buffer `buf_a` with a completion callback at `0x7000` and
opaque `0x7100`. -/
def req_a : rd_kafka_buf_t := { buf_a with rkbuf_cb := 0x7000, rkbuf_opaque := 0x7100 }

/-- The request buffer `buf_b` with the same completion callback and opaque
`0x7200`. -/
def req_b : rd_kafka_buf_t := { buf_b with rkbuf_cb := 0x7000, rkbuf_opaque := 0x7200 }

/-- A temporary queue that holds `req_a` and `req_b`. -/
def purge_q : rd_kafka_bufq_t :=
  { rkbq_bufs := [req_a, req_b], rkbq_cnt := 2, rkbq_msg_cnt := 8 }

/-- A broker at address `0x6000` that runs on thread 1. -/
def broker_1 : rd_kafka_broker_t := { rkb := 0x6000, rkb_thread := 1 }

/-- Callbacks that leave the queue being purged alone. -/
def cb_leaves_queue : cb_call → rd_kafka_bufq_t → rd_kafka_bufq_t := fun _ rkbufq => rkbufq

/-! # Theorems -/

/-! ## Bytes and memory -/

theorem be_bytes_length (n : Nat) (v : Int) : (be_bytes n v).length = n := by
  induction n generalizing v with
  | zero => rfl
  | succ n ih => simp [be_bytes, ih]

theorem be_value_be_bytes (n : Nat) (v : Int) :
    (be_value (be_bytes n v) : Int) = v % 256 ^ n := by
  induction n generalizing v with
  | zero => simp [be_bytes, be_value, Int.emod_one]
  | succ n ih =>
    have h := ih (v / 256)
    simp only [be_value] at h ⊢
    simp only [be_bytes, List.foldl_append, List.foldl_cons, List.foldl_nil]
    push_cast
    rw [h]
    have h1 : (0:Int) ≤ v % 256 := Int.emod_nonneg _ (by norm_num)
    have h2 : v % 256 < 256 := Int.emod_lt_of_pos _ (by norm_num)
    rw [Int.toNat_of_nonneg h1, pow_succ]
    have hK : (0:Int) < 256 ^ n := by positivity
    have h3 : (0:Int) ≤ v / 256 % 256 ^ n := Int.emod_nonneg _ (ne_of_gt hK)
    have h4 : v / 256 % 256 ^ n < 256 ^ n := Int.emod_lt_of_pos _ hK
    have e1 := Int.emod_add_ediv v 256
    have e2 := Int.emod_add_ediv (v / 256) (256 ^ n)
    have e3 : v = (v / 256 % 256 ^ n * 256 + v % 256) + (256 ^ n * 256) * (v / 256 / 256 ^ n) := by
      linear_combination (-1 : Int) * e1 - 256 * e2
    calc v / 256 % 256 ^ n * 256 + v % 256
        = (v / 256 % 256 ^ n * 256 + v % 256) % (256 ^ n * 256) :=
          (Int.emod_eq_of_lt (by nlinarith) (by nlinarith)).symm
      _ = (v / 256 % 256 ^ n * 256 + v % 256 + 256 ^ n * 256 * (v / 256 / 256 ^ n)) %
            (256 ^ n * 256) := (Int.add_mul_emod_self_left _ _ _).symm
      _ = v % (256 ^ n * 256) := congrArg (fun x => x % (256 ^ n * 256)) e3.symm

theorem memcpy_length (m : List Nat) (of : Nat) (d : List Nat) :
    (memcpy m of d).length = max m.length (of + d.length) := by
  simp only [memcpy, List.length_append, List.length_take, List.length_drop, List.length_replicate]
  omega

theorem mem_read_memcpy_same (m : List Nat) (of : Nat) (d : List Nat) :
    mem_read (memcpy m of d) of d.length = d := by
  unfold mem_read memcpy
  have hl : (List.take of (m ++ List.replicate (of + d.length - m.length) 0)).length = of := by
    simp only [List.length_take, List.length_append, List.length_replicate]; omega
  rw [List.append_assoc, List.drop_append_of_le_length (by omega), List.drop_of_length_le (by omega)]
  simp

theorem mem_read_memcpy_before (m : List Nat) (of' : Nat) (d : List Nat) (of n : Nat)
    (h1 : of + n ≤ of') (h2 : of + n ≤ m.length) :
    mem_read (memcpy m of' d) of n = mem_read m of n := by
  unfold mem_read memcpy
  simp only []
  rw [List.append_assoc, List.drop_append_of_le_length (by simp; omega)]
  rw [List.take_append_of_le_length (by simp; omega)]
  rw [List.drop_take, List.take_take, List.drop_append_of_le_length (by omega)]
  rw [List.take_append_of_le_length (by simp; omega)]
  congr 1
  omega

/-! ## The write and push primitives -/

theorem size_t_of_int_of_nonneg (x : Int) (h0 : 0 ≤ x) (h1 : x < SIZE_T_MOD) :
    size_t_of_int x = x.toNat := by
  unfold size_t_of_int
  rw [Int.emod_eq_of_lt h0 h1]

theorem int_of_of_range (x : Int) (h0 : -(2 ^ 31) ≤ x) (h1 : x < 2 ^ 31) : int_of x = x := by
  unfold int_of
  rw [Int.emod_eq_of_lt (by omega) (by omega)]
  omega

theorem rd_kafka_buf_write_room (E : Env) (b : rd_kafka_buf_t) (data : List Nat)
    (h0 : 0 ≤ b.rkbuf_wof) (h1 : b.rkbuf_wof + data.length ≤ b.rkbuf_size)
    (h2 : b.rkbuf_size < SIZE_T_MOD) :
    rd_kafka_buf_write E b data = .ok (after_write E b data, b.rkbuf_wof) := by
  have h3 : size_t_of_int b.rkbuf_wof = b.rkbuf_wof.toNat :=
    size_t_of_int_of_nonneg _ h0 (by have : (b.rkbuf_size : Int) < SIZE_T_MOD := by exact_mod_cast h2
                                     omega)
  have h4 : ¬ ((b.rkbuf_size : Int) - (b.rkbuf_wof + data.length) < 0) := by omega
  simp only [rd_kafka_buf_write, h4, if_false, h1, not_true_eq_false, h3, after_write]
  simp

theorem rd_kafka_buf_push0_slot (E : Env) (b : rd_kafka_buf_t) (buf : cbuf) (len : Nat)
    (allow_crc_calc : Int) (h0 : (b.msg_iovlen : Int) + 1 ≤ b.rkbuf_iovcnt)
    (h1 : b.rkbuf_iovcnt < 2 ^ 31) :
    rd_kafka_buf_push0 E b buf len allow_crc_calc = .ok (after_push E b buf len allow_crc_calc) := by
  have h2 : int_of b.msg_iovlen = b.msg_iovlen := int_of_of_range _ (by omega) (by omega)
  have h3 : (b.msg_iovlen + 1) % SIZE_T_MOD = b.msg_iovlen + 1 :=
    Nat.mod_eq_of_lt (by unfold SIZE_T_MOD; omega)
  simp only [rd_kafka_buf_push0, rd_kafka_buf_iov_next, h2, h0, not_true_eq_false, if_false, h3,
    after_push]
  split <;> rfl

@[simp] theorem after_write_wof (E : Env) (b : rd_kafka_buf_t) (d : List Nat) :
    (after_write E b d).rkbuf_wof = b.rkbuf_wof + d.length := rfl

@[simp] theorem after_write_wof_init (E : Env) (b : rd_kafka_buf_t) (d : List Nat) :
    (after_write E b d).rkbuf_wof_init = b.rkbuf_wof_init := rfl

@[simp] theorem after_write_size (E : Env) (b : rd_kafka_buf_t) (d : List Nat) :
    (after_write E b d).rkbuf_size = b.rkbuf_size := rfl

@[simp] theorem after_write_iovcnt (E : Env) (b : rd_kafka_buf_t) (d : List Nat) :
    (after_write E b d).rkbuf_iovcnt = b.rkbuf_iovcnt := rfl

@[simp] theorem after_write_iovlen (E : Env) (b : rd_kafka_buf_t) (d : List Nat) :
    (after_write E b d).msg_iovlen = b.msg_iovlen := rfl

@[simp] theorem after_write_iov (E : Env) (b : rd_kafka_buf_t) (d : List Nat) :
    (after_write E b d).rkbuf_iov = b.rkbuf_iov := rfl

@[simp] theorem after_write_mem (E : Env) (b : rd_kafka_buf_t) (d : List Nat) :
    (after_write E b d).wbuf_mem = memcpy b.wbuf_mem b.rkbuf_wof.toNat d := rfl

@[simp] theorem after_push_wof (E : Env) (b : rd_kafka_buf_t) (buf : cbuf) (len : Nat) (a : Int) :
    (after_push E b buf len a).rkbuf_wof = b.rkbuf_wof := rfl

@[simp] theorem after_push_wof_init (E : Env) (b : rd_kafka_buf_t) (buf : cbuf) (len : Nat)
    (a : Int) : (after_push E b buf len a).rkbuf_wof_init = b.rkbuf_wof := rfl

@[simp] theorem after_push_size (E : Env) (b : rd_kafka_buf_t) (buf : cbuf) (len : Nat)
    (a : Int) : (after_push E b buf len a).rkbuf_size = b.rkbuf_size := rfl

@[simp] theorem after_push_iovcnt (E : Env) (b : rd_kafka_buf_t) (buf : cbuf) (len : Nat)
    (a : Int) : (after_push E b buf len a).rkbuf_iovcnt = b.rkbuf_iovcnt := rfl

@[simp] theorem after_push_iovlen (E : Env) (b : rd_kafka_buf_t) (buf : cbuf) (len : Nat)
    (a : Int) : (after_push E b buf len a).msg_iovlen = b.msg_iovlen + 1 := rfl

@[simp] theorem after_push_iov (E : Env) (b : rd_kafka_buf_t) (buf : cbuf) (len : Nat)
    (a : Int) : (after_push E b buf len a).rkbuf_iov =
      b.rkbuf_iov.set b.msg_iovlen (some { iov_base := buf.ptr, iov_len := len }) := rfl

@[simp] theorem after_push_mem (E : Env) (b : rd_kafka_buf_t) (buf : cbuf) (len : Nat)
    (a : Int) : (after_push E b buf len a).wbuf_mem = b.wbuf_mem := rfl

@[simp] theorem crc_init_wof (E : Env) (b : rd_kafka_buf_t) :
    (rd_kafka_buf_crc_init E b).rkbuf_wof = b.rkbuf_wof := rfl

@[simp] theorem crc_init_wof_init (E : Env) (b : rd_kafka_buf_t) :
    (rd_kafka_buf_crc_init E b).rkbuf_wof_init = b.rkbuf_wof_init := rfl

@[simp] theorem crc_init_size (E : Env) (b : rd_kafka_buf_t) :
    (rd_kafka_buf_crc_init E b).rkbuf_size = b.rkbuf_size := rfl

@[simp] theorem crc_init_iovcnt (E : Env) (b : rd_kafka_buf_t) :
    (rd_kafka_buf_crc_init E b).rkbuf_iovcnt = b.rkbuf_iovcnt := rfl

@[simp] theorem crc_init_iovlen (E : Env) (b : rd_kafka_buf_t) :
    (rd_kafka_buf_crc_init E b).msg_iovlen = b.msg_iovlen := rfl

@[simp] theorem crc_init_iov (E : Env) (b : rd_kafka_buf_t) :
    (rd_kafka_buf_crc_init E b).rkbuf_iov = b.rkbuf_iov := rfl

@[simp] theorem crc_init_mem (E : Env) (b : rd_kafka_buf_t) :
    (rd_kafka_buf_crc_init E b).wbuf_mem = b.wbuf_mem := rfl

/-- With room for the 22 bytes it writes and a free slot for every segment
it pushes, `rd_kafka_buf_write_Message` returns, and the buffer it leaves is
`after_write_Message`. -/
theorem rd_kafka_buf_write_Message_ok (E : Env) (b : rd_kafka_buf_t) (Offset : Int)
    (MagicByte Attributes : Int) (key : rd_kafkap_bytes_t) (payload : cbuf) (len : Int)
    (outlenp : Bool) (hwf : buf_wf b) (hroom : b.rkbuf_wof + 22 ≤ b.rkbuf_size)
    (hslots : (b.msg_iovlen : Int) + (if payload.ptr ≠ NULL then 4 else 3) ≤ b.rkbuf_iovcnt) :
    rd_kafka_buf_write_Message E b Offset MagicByte Attributes key payload len outlenp =
      .ok { rkbuf := after_write_Message E b Offset MagicByte Attributes key payload len,
            begin_of := b.rkbuf_wof,
            outlen :=
              if outlenp then
                some (int_of (8 + 4 + int_of (4 + 1 + 1 + RD_KAFKAP_BYTES_SIZE key + 4 + len)))
              else none } := by
  obtain ⟨hlen, hcnt, hsize, hwof⟩ := hwf
  have hs : (b.msg_iovlen : Int) + 3 ≤ b.rkbuf_iovcnt := by split at hslots <;> omega
  have he : (after_write E (after_write E b (be_bytes 8 Offset)) (be_bytes 4
      (int_of (4 + 1 + 1 + RD_KAFKAP_BYTES_SIZE key + 4 + len)))).rkbuf_wof =
      b.rkbuf_wof + 12 := by
    simp only [after_write_wof, be_bytes_length]; push_cast; ring
  unfold rd_kafka_buf_write_Message
  simp only [rd_kafka_buf_write_i64, rd_kafka_buf_write_i32, rd_kafka_buf_write_i8,
    rd_kafka_buf_autopush, rd_kafka_buf_push_kbytes, rd_kafka_buf_push]
  rw [rd_kafka_buf_write_room E b _ hwof (by simp [be_bytes_length]; omega) hsize]
  simp only [bind, Except.bind]
  rw [rd_kafka_buf_write_room E _ _ (by simp [be_bytes_length]; omega)
    (by simp [be_bytes_length]; omega) (by simpa using hsize)]
  simp only []
  rw [rd_kafka_buf_write_room E _ _ (by simp [be_bytes_length]; omega)
    (by simp [be_bytes_length]; omega) (by simpa using hsize)]
  simp only []
  rw [rd_kafka_buf_write_room E _ _ (by simp [be_bytes_length]; omega)
    (by simp [be_bytes_length]; omega) (by simpa using hsize)]
  simp only []
  rw [rd_kafka_buf_write_room E _ _ (by simp [be_bytes_length]; omega)
    (by simp [be_bytes_length]; omega) (by simpa using hsize)]
  simp only []
  rw [rd_kafka_buf_push0_slot E _ _ _ _ (by simp; omega) (by simpa using hcnt)]
  simp only []
  rw [rd_kafka_buf_push0_slot E _ _ _ _ (by simp; omega) (by simpa using hcnt)]
  simp only []
  rw [rd_kafka_buf_write_room E _ _ (by simp [be_bytes_length]; omega)
    (by simp [be_bytes_length]; omega) (by simpa using hsize)]
  simp only []
  rw [rd_kafka_buf_push0_slot E _ _ _ _ (by simp; omega) (by simpa using hcnt)]
  simp only []
  by_cases hp : payload.ptr = NULL
  · simp only [hp, ne_eq, not_true_eq_false, if_false, pure, Except.pure]
    unfold rd_kafka_buf_update_u32
    rw [if_neg (by simp [be_bytes_length]; omega), he]
    simp only [after_write_Message, after_header, after_autopush, hp, ne_eq, not_true_eq_false,
      if_false]
  · have h4 : (b.msg_iovlen : Int) + 4 ≤ b.rkbuf_iovcnt := by
      rw [if_pos hp] at hslots; exact hslots
    simp only [ne_eq, hp, not_false_eq_true, if_true]
    rw [rd_kafka_buf_push0_slot E _ _ _ _ (by simp; omega) (by simpa using hcnt)]
    simp only []
    unfold rd_kafka_buf_update_u32
    rw [if_neg (by simp [be_bytes_length]; omega), he]
    simp only [after_write_Message, after_header, after_autopush, hp, ne_eq, not_false_eq_true,
      if_true, pure, Except.pure]

theorem take_drop_set3 {α : Type} (l : List α) (n : Nat) (a b c : α) (h : n + 3 ≤ l.length) :
    ((((l.set n a).set (n + 1) b).set (n + 2) c).drop n).take 3 = [a, b, c] := by
  induction n generalizing l with
  | zero =>
    match l, h with
    | _ :: _ :: _ :: _, _ => simp
  | succ k ih =>
    match l, h with
    | x :: xs, h =>
      simp only [List.set_cons_succ, List.drop_succ_cons]
      exact ih xs (by simpa using h)

theorem take_drop_set4 {α : Type} (l : List α) (n : Nat) (a b c d : α) (h : n + 4 ≤ l.length) :
    (((((l.set n a).set (n + 1) b).set (n + 2) c).set (n + 3) d).drop n).take 4 = [a, b, c, d] := by
  induction n generalizing l with
  | zero =>
    match l, h with
    | _ :: _ :: _ :: _ :: _, _ => simp
  | succ k ih =>
    match l, h with
    | x :: xs, h =>
      simp only [List.set_cons_succ, List.drop_succ_cons]
      exact ih xs (by simpa using h)

/-! ## The Message builder, field by field -/

theorem after_header_wof (E : Env) (b : rd_kafka_buf_t) (O M G A : Int) :
    (after_header E b O M G A).rkbuf_wof = b.rkbuf_wof + 18 := by
  simp only [after_header, after_write_wof, crc_init_wof, be_bytes_length]; push_cast; ring

theorem after_header_wof_init (E : Env) (b : rd_kafka_buf_t) (O M G A : Int) :
    (after_header E b O M G A).rkbuf_wof_init = b.rkbuf_wof_init := by
  simp only [after_header, after_write_wof_init, crc_init_wof_init]

theorem after_header_iov (E : Env) (b : rd_kafka_buf_t) (O M G A : Int) :
    (after_header E b O M G A).rkbuf_iov = b.rkbuf_iov := by
  simp only [after_header, after_write_iov, crc_init_iov]

theorem after_header_iovlen (E : Env) (b : rd_kafka_buf_t) (O M G A : Int) :
    (after_header E b O M G A).msg_iovlen = b.msg_iovlen := by
  simp only [after_header, after_write_iovlen, crc_init_iovlen]

/-- After the header writes the four bytes behind the 8-byte offset field
hold the MessageSize argument, and the region reaches past the header. -/
theorem after_header_mem (E : Env) (b : rd_kafka_buf_t) (O M G A : Int) (w : Nat)
    (hw : b.rkbuf_wof = w) :
    mem_read (after_header E b O M G A).wbuf_mem (w + 8) 4 = be_bytes 4 M ∧
    w + 18 ≤ (after_header E b O M G A).wbuf_mem.length := by
  simp only [after_header, after_write_mem, after_write_wof, crc_init_mem, crc_init_wof,
    be_bytes_length, hw]
  have e0 : ((w : Int)).toNat = w := by omega
  have e1 : ((w : Int) + (8 : Nat)).toNat = w + 8 := by omega
  have e2 : ((w : Int) + (8 : Nat) + (4 : Nat)).toNat = w + 12 := by omega
  have e3 : ((w : Int) + (8 : Nat) + (4 : Nat) + (4 : Nat)).toNat = w + 16 := by omega
  have e4 : ((w : Int) + (8 : Nat) + (4 : Nat) + (4 : Nat) + (1 : Nat)).toNat = w + 17 := by omega
  rw [e0, e1, e2, e3, e4]
  constructor
  · rw [mem_read_memcpy_before _ _ _ _ _ (by omega)
        (by simp only [memcpy_length, be_bytes_length]; omega),
      mem_read_memcpy_before _ _ _ _ _ (by omega)
        (by simp only [memcpy_length, be_bytes_length]; omega),
      mem_read_memcpy_before _ _ _ _ _ (by omega)
        (by simp only [memcpy_length, be_bytes_length]; omega)]
    have := mem_read_memcpy_same (memcpy b.wbuf_mem w (be_bytes 8 O)) (w + 8) (be_bytes 4 M)
    rwa [be_bytes_length] at this
  · simp only [memcpy_length, be_bytes_length]; omega

/-- The segments `rd_kafka_buf_write_Message` pushes: the field group written
so far (everything from the initial cursor up to and including the
attributes byte), the serialized key, the value-length field and, for a
non-null payload, the payload. -/
theorem after_write_Message_segments (E : Env) (b : rd_kafka_buf_t) (Offset : Int)
    (MagicByte Attributes : Int) (key : rd_kafkap_bytes_t) (payload : cbuf) (len : Int)
    (hlen : (b.rkbuf_iov.length : Int) = b.rkbuf_iovcnt)
    (hslots : (b.msg_iovlen : Int) + (if payload.ptr ≠ NULL then 4 else 3) ≤ b.rkbuf_iovcnt) :
    segments_len (pushed_segments b
        (after_write_Message E b Offset MagicByte Attributes key payload len)) =
      size_t_of_int (b.rkbuf_wof + 18 - b.rkbuf_wof_init) +
        size_t_of_int (RD_KAFKAP_BYTES_SIZE key) + 4 +
        (if payload.ptr ≠ NULL then size_t_of_int len else 0) := by
  have e4 : ∀ x : Int, size_t_of_int (x + (4 : Nat) - x) = 4 := by
    intro x
    rw [show x + (4 : Nat) - x = (4 : Int) by push_cast; ring]
    rfl
  by_cases hp : payload.ptr = NULL
  · have h3 : b.msg_iovlen + 3 ≤ b.rkbuf_iov.length := by
      simp only [hp, ne_eq, not_true_eq_false, if_false] at hslots; omega
    simp only [pushed_segments, after_write_Message, after_autopush, hp, ne_eq, not_true_eq_false,
      if_false, after_push_iov, after_push_iovlen, after_write_iov, after_write_iovlen,
      after_write_wof, after_write_wof_init, after_push_wof, after_push_wof_init,
      after_header_wof, after_header_wof_init, after_header_iov, after_header_iovlen,
      be_bytes_length]
    rw [show b.msg_iovlen + 1 + 1 + 1 - b.msg_iovlen = 3 by omega,
      show b.msg_iovlen + 1 + 1 = b.msg_iovlen + 2 by omega, take_drop_set3 _ _ _ _ _ h3]
    simp only [segments_len, List.map_cons, List.map_nil, List.sum_cons, List.sum_nil, e4]
    omega
  · have h4 : b.msg_iovlen + 4 ≤ b.rkbuf_iov.length := by
      simp only [hp, ne_eq, not_false_eq_true, if_true] at hslots; omega
    simp only [pushed_segments, after_write_Message, after_autopush, hp, ne_eq,
      not_false_eq_true, if_true, after_push_iov, after_push_iovlen, after_write_iov,
      after_write_iovlen, after_write_wof, after_write_wof_init, after_push_wof,
      after_push_wof_init, after_header_wof, after_header_wof_init, after_header_iov,
      after_header_iovlen, be_bytes_length]
    rw [show b.msg_iovlen + 1 + 1 + 1 + 1 - b.msg_iovlen = 4 by omega,
      show b.msg_iovlen + 1 + 1 = b.msg_iovlen + 2 by omega,
      show b.msg_iovlen + 2 + 1 = b.msg_iovlen + 3 by omega, take_drop_set4 _ _ _ _ _ _ h4]
    simp only [segments_len, List.map_cons, List.map_nil, List.sum_cons, List.sum_nil, e4]
    omega

/-- The declared MessageSize field of the frame `rd_kafka_buf_write_Message`
leaves in the write buffer is the value it computed. -/
theorem after_write_Message_declared (E : Env) (b : rd_kafka_buf_t) (Offset : Int)
    (MagicByte Attributes : Int) (key : rd_kafkap_bytes_t) (payload : cbuf) (len : Int)
    (hwof : 0 ≤ b.rkbuf_wof) :
    mem_read (after_write_Message E b Offset MagicByte Attributes key payload len).wbuf_mem
        (b.rkbuf_wof.toNat + 8) 4 =
      be_bytes 4 (int_of (4 + 1 + 1 + RD_KAFKAP_BYTES_SIZE key + 4 + len)) := by
  obtain ⟨w, hw⟩ := Int.eq_ofNat_of_zero_le hwof
  obtain ⟨hm, hl⟩ := after_header_mem E b Offset
    (int_of (4 + 1 + 1 + RD_KAFKAP_BYTES_SIZE key + 4 + len)) MagicByte Attributes w hw
  have e0 : ((w : Int)).toNat = w := by omega
  have e1 : ((w : Int) + 12).toNat = w + 12 := by omega
  have e2 : ((w : Int) + 18).toNat = w + 18 := by omega
  have hmem : ∃ c : Nat,
      (after_write_Message E b Offset MagicByte Attributes key payload len).wbuf_mem =
      memcpy (memcpy (after_header E b Offset
        (int_of (4 + 1 + 1 + RD_KAFKAP_BYTES_SIZE key + 4 + len)) MagicByte Attributes).wbuf_mem
        (w + 18) (be_bytes 4 (if payload.ptr ≠ NULL then len else RD_KAFKAP_BYTES_LEN_NULL)))
        (w + 12) (be_bytes 4 c) := by
    by_cases hp : payload.ptr = NULL
    · simp only [after_write_Message, after_autopush, hp, ne_eq, not_true_eq_false, if_false,
        after_push_mem, after_write_mem, after_push_wof, after_header_wof, hw, e1, e2]
      exact ⟨_, rfl⟩
    · simp only [after_write_Message, after_autopush, hp, ne_eq, not_false_eq_true, if_true,
        after_push_mem, after_write_mem, after_push_wof, after_header_wof, hw, e1, e2]
      exact ⟨_, rfl⟩
  obtain ⟨c, hmem⟩ := hmem
  rw [hmem, hw, e0,
    mem_read_memcpy_before _ _ _ _ _ (by omega)
      (by simp only [memcpy_length, be_bytes_length]; omega),
    mem_read_memcpy_before _ _ _ _ _ (by omega) (by omega), hm]

/-- What `rd_kafka_buf_write_Message` does with sizes, for a call that builds
the frame in place: the shared core of the theorems on the frame size. -/
theorem write_Message_sizes (E : Env) (b : rd_kafka_buf_t) (Offset : Int)
    (MagicByte Attributes : Int) (key : rd_kafkap_bytes_t) (payload : cbuf) (len : Int)
    (outlenp : Bool) (hwf : buf_wf b) (hroom : b.rkbuf_wof + 22 ≤ b.rkbuf_size)
    (hslots : (b.msg_iovlen : Int) + (if payload.ptr ≠ NULL then 4 else 3) ≤ b.rkbuf_iovcnt)
    (hpend : b.rkbuf_wof_init = b.rkbuf_wof) (hpay : payload.ptr ≠ NULL ∨ len = 0)
    (hlen : 0 ≤ len)
    (hrange : 8 + 4 + (1 + 1 + 4 + (4 + RD_KAFKAP_BYTES_LEN key) + 4 + len) < 2 ^ 31) :
    ∃ r, rd_kafka_buf_write_Message E b Offset MagicByte Attributes key payload len outlenp =
        .ok r ∧
      (declared_MessageSize r.rkbuf r.begin_of : Int) =
        1 + 1 + 4 + RD_KAFKAP_BYTES_SIZE key + 4 + len ∧
      r.outlen = (if outlenp then
        some (8 + 4 + (1 + 1 + 4 + RD_KAFKAP_BYTES_SIZE key + 4 + len)) else none) ∧
      (segments_len (pushed_segments b r.rkbuf) : Int) =
        8 + 4 + (1 + 1 + 4 + RD_KAFKAP_BYTES_SIZE key + 4 + len) := by
  have hk0 : 0 ≤ RD_KAFKAP_BYTES_LEN key := by
    unfold RD_KAFKAP_BYTES_LEN; split <;> omega
  have hks : RD_KAFKAP_BYTES_SIZE key = 4 + RD_KAFKAP_BYTES_LEN key :=
    int_of_of_range _ (by omega) (by omega)
  have hms : int_of (4 + 1 + 1 + RD_KAFKAP_BYTES_SIZE key + 4 + len) =
      1 + 1 + 4 + RD_KAFKAP_BYTES_SIZE key + 4 + len := by
    rw [int_of_of_range _ (by omega) (by omega)]; ring
  refine ⟨_, rd_kafka_buf_write_Message_ok E b Offset MagicByte Attributes key payload len
    outlenp hwf hroom hslots, ?_, ?_, ?_⟩
  · simp only [declared_MessageSize]
    rw [after_write_Message_declared E b Offset MagicByte Attributes key payload len hwf.2.2.2,
      be_value_be_bytes, hms]
    exact Int.emod_eq_of_lt (by omega) (by omega)
  · simp only [hms]
    rw [int_of_of_range _ (by omega) (by omega)]
  · simp only []
    rw [after_write_Message_segments E b Offset MagicByte Attributes key payload len hwf.1 hslots,
      hpend, show b.rkbuf_wof + 18 - b.rkbuf_wof = (18 : Int) by ring,
      size_t_of_int_of_nonneg 18 (by omega) (by unfold SIZE_T_MOD; omega),
      size_t_of_int_of_nonneg (RD_KAFKAP_BYTES_SIZE key) (by omega) (by unfold SIZE_T_MOD; omega)]
    rcases hpay with hp | hl0
    · rw [if_pos hp, size_t_of_int_of_nonneg len hlen (by unfold SIZE_T_MOD; omega)]
      push_cast
      rw [Int.toNat_of_nonneg (by omega), Int.toNat_of_nonneg hlen]
      omega
    · have : (if payload.ptr ≠ NULL then size_t_of_int len else 0) = 0 := by
        split
        · rw [hl0]; rfl
        · rfl
      rw [this]
      push_cast
      rw [Int.toNat_of_nonneg (by omega)]
      omega

/-! ## Frame size of the Message builder -/

/-- C1, amended: for every buffer whose frame is built in place (room for the
22 bytes written, a free slot for every segment pushed) and that has no
written bytes waiting to be pushed (`rkbuf_wof_init = rkbuf_wof`), and for
every Offset, MagicByte, Attributes, key, payload and in-range `len ≥ 0`
with a non-null payload or `len = 0`, one call of
`rd_kafka_buf_write_Message` returns, the MessageSize field it leaves in the
write buffer is `1 + 1 + 4 + encoded-key-size + 4 + len`, `*outlenp` is
`8 + 4 + MessageSize`, and the lengths of the segments it pushed sum to
`8 + 4 + MessageSize`. -/
theorem write_Message_frame_size (E : Env) (b : rd_kafka_buf_t) (Offset : Int)
    (MagicByte Attributes : Int) (key : rd_kafkap_bytes_t) (payload : cbuf) (len : Int)
    (hwf : buf_wf b) (hroom : b.rkbuf_wof + 22 ≤ b.rkbuf_size)
    (hslots : (b.msg_iovlen : Int) + (if payload.ptr ≠ NULL then 4 else 3) ≤ b.rkbuf_iovcnt)
    (hpend : b.rkbuf_wof_init = b.rkbuf_wof) (hpay : payload.ptr ≠ NULL ∨ len = 0)
    (hlen : 0 ≤ len)
    (hrange : 8 + 4 + (1 + 1 + 4 + (4 + RD_KAFKAP_BYTES_LEN key) + 4 + len) < 2 ^ 31) :
    ∃ r, rd_kafka_buf_write_Message E b Offset MagicByte Attributes key payload len true =
        .ok r ∧
      (declared_MessageSize r.rkbuf r.begin_of : Int) =
        1 + 1 + 4 + RD_KAFKAP_BYTES_SIZE key + 4 + len ∧
      r.outlen = some (8 + 4 + (1 + 1 + 4 + RD_KAFKAP_BYTES_SIZE key + 4 + len)) ∧
      (segments_len (pushed_segments b r.rkbuf) : Int) =
        8 + 4 + (1 + 1 + 4 + RD_KAFKAP_BYTES_SIZE key + 4 + len) := by
  simpa using write_Message_sizes E b Offset MagicByte Attributes key payload len true hwf hroom
    hslots hpend hpay hlen hrange

/-- C1, witness: the amended claim at a fresh `rd_kafka_buf_new(4, 64)` buffer
with key "abc" and payload "hello". -/
theorem write_Message_frame_size_witness :
    ∃ r, rd_kafka_buf_write_Message lp64 fresh_buf 0 0 0 key_abc payload_hello 5 true = .ok r ∧
      (declared_MessageSize r.rkbuf r.begin_of : Int) =
        1 + 1 + 4 + RD_KAFKAP_BYTES_SIZE key_abc + 4 + 5 ∧
      r.outlen = some (8 + 4 + (1 + 1 + 4 + RD_KAFKAP_BYTES_SIZE key_abc + 4 + 5)) ∧
      (segments_len (pushed_segments fresh_buf r.rkbuf) : Int) =
        8 + 4 + (1 + 1 + 4 + RD_KAFKAP_BYTES_SIZE key_abc + 4 + 5) :=
  write_Message_frame_size lp64 fresh_buf 0 0 0 key_abc payload_hello 5
    ⟨by decide, by decide, by decide, by decide⟩ (by decide) (by decide) (by decide)
    (Or.inl (by decide)) (by decide) (by decide)

/-- C1, counterexample: the claim as stated fails at two inputs, both on the
buffer `rd_kafka_buf_new(4, 64)` returns. With a null payload and `len = 5`
the call declares MessageSize 22 and reports 34, but pushes 29 bytes of
segments. After one `rd_kafka_buf_write_i32`, which leaves 4 written bytes
not yet pushed, the call with payload "hello" pushes 38 bytes of segments,
not 34. -/
theorem write_Message_frame_size_counterexample :
    rd_kafka_buf_new lp64 0x1000 4 64 = .ok fresh_buf ∧
    (∃ r, rd_kafka_buf_write_Message lp64 fresh_buf 0 0 0 key_abc payload_null 5 true = .ok r ∧
      declared_MessageSize r.rkbuf r.begin_of = 22 ∧ r.outlen = some 34 ∧
      segments_len (pushed_segments fresh_buf r.rkbuf) = 29 ∧
      (segments_len (pushed_segments fresh_buf r.rkbuf) : Int) ≠
        8 + 4 + (1 + 1 + 4 + RD_KAFKAP_BYTES_SIZE key_abc + 4 + 5)) ∧
    rd_kafka_buf_write_i32 lp64 fresh_buf 7 = .ok (pending_buf, 12) ∧
    (∃ r, rd_kafka_buf_write_Message lp64 pending_buf 0 0 0 key_abc payload_hello 5 true =
        .ok r ∧
      declared_MessageSize r.rkbuf r.begin_of = 22 ∧ r.outlen = some 34 ∧
      segments_len (pushed_segments pending_buf r.rkbuf) = 38 ∧
      (segments_len (pushed_segments pending_buf r.rkbuf) : Int) ≠
        8 + 4 + (1 + 1 + 4 + RD_KAFKAP_BYTES_SIZE key_abc + 4 + 5)) := by
  refine ⟨rfl, ⟨_, rfl, ?_, ?_, ?_, ?_⟩, rfl, ⟨_, rfl, ?_, ?_, ?_, ?_⟩⟩ <;> decide

/-- C2, amended: building one frame with Offset 0, MagicByte 0, Attributes 0,
key "abc" and payload "hello" (in place, on a buffer with nothing waiting to
be pushed) yields a declared MessageSize of 22, which is
`1 + 1 + 4 + (4 + 3) + 4 + 5`, and 34 segment bytes, `8 + 4 + 22`, which is
also the value stored in `*outlenp`. -/
theorem write_Message_abc_hello (E : Env) (b : rd_kafka_buf_t) (kp pp : Ptr) (hwf : buf_wf b)
    (hroom : b.rkbuf_wof + 22 ≤ b.rkbuf_size)
    (hslots : (b.msg_iovlen : Int) + 4 ≤ b.rkbuf_iovcnt)
    (hpend : b.rkbuf_wof_init = b.rkbuf_wof) (hpp : pp ≠ NULL) :
    ∃ r, rd_kafka_buf_write_Message E b 0 0 0 { ptr := kp, data := some [97, 98, 99] }
        { ptr := pp, mem := [104, 101, 108, 108, 111] } 5 true = .ok r ∧
      declared_MessageSize r.rkbuf r.begin_of = 22 ∧
      segments_len (pushed_segments b r.rkbuf) = 34 ∧
      r.outlen = some 34 := by
  obtain ⟨r, h1, h2, h3, h4⟩ := write_Message_sizes E b 0 0 0
    { ptr := kp, data := some [97, 98, 99] } { ptr := pp, mem := [104, 101, 108, 108, 111] } 5 true
    hwf hroom (by simpa [hpp] using hslots) hpend (Or.inl hpp) (by decide)
    (by simp [RD_KAFKAP_BYTES_LEN])
  have hk : RD_KAFKAP_BYTES_SIZE { ptr := kp, data := some [97, 98, 99] } = 7 := rfl
  rw [hk] at h2 h3 h4
  refine ⟨r, h1, ?_, ?_, ?_⟩
  · have : (declared_MessageSize r.rkbuf r.begin_of : Int) = 22 := by rw [h2]; norm_num
    exact_mod_cast this
  · have : (segments_len (pushed_segments b r.rkbuf) : Int) = 34 := by rw [h4]; norm_num
    exact_mod_cast this
  · rw [h3]; rfl

/-- C2, witness: the scenario on a fresh `rd_kafka_buf_new(4, 64)` buffer. -/
theorem write_Message_abc_hello_witness :
    ∃ r, rd_kafka_buf_write_Message lp64 fresh_buf 0 0 0 { ptr := 0x9000, data := some [97, 98, 99] }
        { ptr := 0xa000, mem := [104, 101, 108, 108, 111] } 5 true = .ok r ∧
      declared_MessageSize r.rkbuf r.begin_of = 22 ∧
      segments_len (pushed_segments fresh_buf r.rkbuf) = 34 ∧
      r.outlen = some 34 :=
  write_Message_abc_hello lp64 fresh_buf 0x9000 0xa000 ⟨by decide, by decide, by decide, by decide⟩
    (by decide) (by decide) (by decide) (by decide)

/-- C2, counterexample: on a fresh buffer the scenario declares 22, not 26,
pushes 34 segment bytes, not 38, and stores 34 in `*outlenp`. -/
theorem write_Message_abc_hello_counterexample :
    rd_kafka_buf_new lp64 0x1000 4 64 = .ok fresh_buf ∧
    ∃ r, rd_kafka_buf_write_Message lp64 fresh_buf 0 0 0 key_abc payload_hello 5 true = .ok r ∧
      declared_MessageSize r.rkbuf r.begin_of = 22 ∧ declared_MessageSize r.rkbuf r.begin_of ≠ 26 ∧
      segments_len (pushed_segments fresh_buf r.rkbuf) = 34 ∧
      segments_len (pushed_segments fresh_buf r.rkbuf) ≠ 38 ∧
      r.outlen = some 34 ∧ r.outlen ≠ some 38 := by
  refine ⟨rfl, _, rfl, ?_, ?_, ?_, ?_, ?_, ?_⟩ <;> decide

/-! ## Growth -/

/-- The doubling loop leaves with `alen * 2 ^ k` when `k` is the first
exponent at which that product reaches `needed_len`, provided the product
fits a `size_t` and the fuel covers `k` rounds. -/
theorem grow_loop_exits (k : Nat) : ∀ (fuel alen needed_len : Nat), k < fuel →
    (∀ j, j < k → alen * 2 ^ j < needed_len) → needed_len ≤ alen * 2 ^ k →
    alen * 2 ^ k < SIZE_T_MOD → grow_loop fuel alen needed_len = some (alen * 2 ^ k) := by
  induction k with
  | zero =>
    intro fuel alen needed_len hf _ hle _
    obtain ⟨f, rfl⟩ : ∃ f, fuel = f + 1 := ⟨fuel - 1, by omega⟩
    simp only [pow_zero, mul_one] at hle ⊢
    simp only [grow_loop, gt_iff_lt, not_lt.mpr hle, if_false]
  | succ k ih =>
    intro fuel alen needed_len hf hlt hle hfit
    obtain ⟨f, rfl⟩ : ∃ f, fuel = f + 1 := ⟨fuel - 1, by omega⟩
    have h0 : alen < needed_len := by simpa using hlt 0 (by omega)
    have hpow : alen * 2 ^ (k + 1) = alen * 2 * 2 ^ k := by rw [pow_succ]; ring
    have h2 : alen * 2 < SIZE_T_MOD := by
      have : alen * 2 * 1 ≤ alen * 2 * 2 ^ k := Nat.mul_le_mul_left _ (Nat.one_le_two_pow)
      omega
    simp only [grow_loop, gt_iff_lt, h0, if_true, Nat.mod_eq_of_lt h2]
    rw [hpow]
    apply ih f (alen * 2) needed_len (by omega)
    · intro j hj
      have := hlt (j + 1) (by omega)
      rwa [pow_succ, show alen * (2 ^ j * 2) = alen * 2 * 2 ^ j by ring] at this
    · rwa [← hpow]
    · rwa [← hpow]

theorem double_mod_pow (x a : Nat) :
    x * 2 % SIZE_T_MOD * 2 ^ a % SIZE_T_MOD = x * 2 ^ (a + 1) % SIZE_T_MOD := by
  rw [Nat.mod_mul_mod, pow_succ]
  congr 1
  ring

/-- Once the loop has doubled `alen` to `0` it never exits. -/
theorem grow_loop_zero (fuel needed_len : Nat) (h : 0 < needed_len) :
    grow_loop fuel 0 needed_len = none := by
  induction fuel with
  | zero => rfl
  | succ f ih => simp only [grow_loop, gt_iff_lt, h, if_true, Nat.zero_mul, Nat.zero_mod, ih]

/-- A loop that has not exited goes on from the doubled value. -/
theorem grow_loop_none_step (fuel alen needed_len : Nat)
    (h : grow_loop (fuel + 1) alen needed_len = none) :
    alen < needed_len ∧ grow_loop fuel (alen * 2 % SIZE_T_MOD) needed_len = none := by
  simp only [grow_loop, gt_iff_lt] at h
  by_cases hlt : alen < needed_len
  · rw [if_pos hlt] at h; exact ⟨hlt, h⟩
  · rw [if_neg hlt] at h; cases h

/-- After `n` rounds without exit the loop variable is `alen * 2 ^ n` modulo
`2 ^ 64`, and the loop has not exited from there either. -/
theorem grow_loop_none_split (n : Nat) : ∀ (m alen needed_len : Nat),
    grow_loop (n + m) alen needed_len = none →
    grow_loop m (alen * 2 ^ n % SIZE_T_MOD) needed_len = none ∧
    (0 < n → 0 < needed_len) := by
  induction n with
  | zero =>
    intro m alen needed_len h
    refine ⟨?_, fun h0 => absurd h0 (by omega)⟩
    cases m with
    | zero => rfl
    | succ m =>
      obtain ⟨h1, h2⟩ := grow_loop_none_step m alen needed_len (by simpa using h)
      simp only [pow_zero, mul_one, grow_loop, gt_iff_lt]
      by_cases hlt : alen % SIZE_T_MOD < needed_len
      · rw [if_pos hlt, Nat.mod_mul_mod]
        exact h2
      · exact absurd (lt_of_le_of_lt (Nat.mod_le _ _) h1) hlt
  | succ n ih =>
    intro m alen needed_len h
    obtain ⟨h1, h2⟩ := grow_loop_none_step (n + m) alen needed_len
      (by rwa [show n + 1 + m = n + m + 1 by omega] at h)
    obtain ⟨h3, _⟩ := ih m (alen * 2 % SIZE_T_MOD) needed_len h2
    refine ⟨?_, fun _ => by omega⟩
    rw [← double_mod_pow]
    exact h3

/-- The fuel of `rd_kafka_buf_grow` is enough: a loop that has not exited
after `GROW_FUEL` tests of its condition never exits. -/
theorem grow_loop_none_forever (alen needed_len : Nat)
    (h : grow_loop GROW_FUEL alen needed_len = none) (fuel : Nat) :
    grow_loop fuel alen needed_len = none := by
  obtain ⟨h1, h2⟩ := grow_loop_none_split 64 1 alen needed_len h
  have hz : alen * 2 ^ 64 % SIZE_T_MOD = 0 := by
    unfold SIZE_T_MOD; exact Nat.mul_mod_left _ _
  have hpos : 0 < needed_len := h2 (by omega)
  by_cases hf : fuel ≤ 64
  · have hmono : ∀ (a b : Nat) (x : Nat), grow_loop (a + b) x needed_len = none →
        grow_loop a x needed_len = none := by
      intro a
      induction a with
      | zero => intro _ _ _; rfl
      | succ a iha =>
        intro b x hx
        obtain ⟨hx1, hx2⟩ := grow_loop_none_step (a + b) x needed_len
          (by rwa [show a + 1 + b = a + b + 1 by omega] at hx)
        simp only [grow_loop, gt_iff_lt, hx1, if_true]
        exact iha b _ hx2
    exact hmono fuel (65 - fuel) alen (by rwa [show fuel + (65 - fuel) = GROW_FUEL by
      unfold GROW_FUEL; omega])
  · have hjoin : ∀ (a : Nat) (x : Nat) (b : Nat), grow_loop a x needed_len = none →
        grow_loop b (x * 2 ^ a % SIZE_T_MOD) needed_len = none →
        (0 < a ∨ x < SIZE_T_MOD) → grow_loop (a + b) x needed_len = none := by
      intro a
      induction a with
      | zero =>
        intro x b _ hb hx
        have hx' : x < SIZE_T_MOD := by rcases hx with h0 | h0; exact absurd h0 (by omega); exact h0
        simpa [Nat.mod_eq_of_lt hx'] using hb
      | succ a iha =>
        intro x b ha hb _
        obtain ⟨hx1, hx2⟩ := grow_loop_none_step a x needed_len ha
        rw [show a + 1 + b = a + b + 1 by omega]
        simp only [grow_loop, gt_iff_lt, hx1, if_true]
        apply iha (x * 2 % SIZE_T_MOD) b hx2
        · rw [double_mod_pow]
          exact hb
        · exact Or.inr (Nat.mod_lt _ (by unfold SIZE_T_MOD; omega))
    have h64 : grow_loop 64 alen needed_len = none := by
      have hmono1 : ∀ (a : Nat) (x : Nat), grow_loop (a + 1) x needed_len = none →
          grow_loop a x needed_len = none := by
        intro a
        induction a with
        | zero => intro _ _; rfl
        | succ a iha =>
          intro x hx
          obtain ⟨hx1, hx2⟩ := grow_loop_none_step (a + 1) x needed_len hx
          simp only [grow_loop, gt_iff_lt, hx1, if_true]
          exact iha _ hx2
      exact hmono1 64 alen h
    have := hjoin 64 alen (fuel - 64) h64 (by rw [hz]; exact grow_loop_zero _ _ hpos)
      (Or.inl (by omega))
    rwa [show 64 + (fuel - 64) = fuel by omega] at this

/-- C3, amended: for every growable buffer (owns-memory flag set) with
allocated size `S ≥ 1` and every requested length `L` that some `S * 2 ^ k`
below `2 ^ 64` reaches, `rd_kafka_buf_grow` returns and leaves the allocated
size `S * 2 ^ k` for the smallest `k` with `S * 2 ^ k ≥ L`; in particular the
new size is at least `L`, and it is `S` when `L ≤ S`. -/
theorem grow_size (E : Env) (b : rd_kafka_buf_t) (L : Nat)
    (hfree : b.rkbuf_flags.RD_KAFKA_OP_F_FREE = true) (hS : 1 ≤ b.rkbuf_size)
    (hfit : ∃ k, L ≤ b.rkbuf_size * 2 ^ k ∧ b.rkbuf_size * 2 ^ k < SIZE_T_MOD) :
    ∃ b' k, rd_kafka_buf_grow E b L = .ok b' ∧
      b'.rkbuf_size = b.rkbuf_size * 2 ^ k ∧
      L ≤ b.rkbuf_size * 2 ^ k ∧ (∀ j, j < k → b.rkbuf_size * 2 ^ j < L) ∧
      L ≤ b'.rkbuf_size ∧ (L ≤ b.rkbuf_size → b'.rkbuf_size = b.rkbuf_size) := by
  obtain ⟨k0, hk0, hk0fit⟩ := hfit
  have hex : ∃ k, L ≤ b.rkbuf_size * 2 ^ k := ⟨k0, hk0⟩
  classical
  let k := Nat.find hex
  have hk : L ≤ b.rkbuf_size * 2 ^ k := Nat.find_spec hex
  have hmin : ∀ j, j < k → b.rkbuf_size * 2 ^ j < L := fun j hj =>
    not_le.mp (Nat.find_min hex hj)
  have hkle : k ≤ k0 := Nat.find_min' hex hk0
  have hkfit : b.rkbuf_size * 2 ^ k < SIZE_T_MOD :=
    lt_of_le_of_lt (Nat.mul_le_mul_left _ (Nat.pow_le_pow_right (by omega) hkle)) hk0fit
  have hk64 : k < GROW_FUEL := by
    have h1 : 2 ^ k ≤ b.rkbuf_size * 2 ^ k := Nat.le_mul_of_pos_left _ hS
    have h2 : 2 ^ k < 2 ^ 64 := lt_of_le_of_lt h1 hkfit
    have := (Nat.pow_lt_pow_iff_right (a := 2) (by omega)).mp h2
    unfold GROW_FUEL; omega
  have hloop := grow_loop_exits k GROW_FUEL b.rkbuf_size L hk64 hmin hk hkfit
  have hgrow : ∃ b', rd_kafka_buf_grow E b L = .ok b' ∧
      b'.rkbuf_size = b.rkbuf_size * 2 ^ k := by
    simp only [rd_kafka_buf_grow, hfree, ne_eq, not_true_eq_false, if_false, hloop]
    exact ⟨_, rfl, rfl⟩
  obtain ⟨b', hb', hsz⟩ := hgrow
  refine ⟨b', k, hb', hsz, hk, hmin, ?_, ?_⟩
  · rw [hsz]; exact hk
  · intro hle
    rw [hsz]
    have : k = 0 := by
      by_contra hne
      have := hmin 0 (by omega)
      simp at this
      omega
    rw [this]; simp

/-- C3, witness: growing a 3-byte growable buffer to 100 bytes. -/
theorem grow_size_witness :
    ∃ b' k, rd_kafka_buf_grow lp64 small_growable 100 = .ok b' ∧
      b'.rkbuf_size = small_growable.rkbuf_size * 2 ^ k ∧
      100 ≤ small_growable.rkbuf_size * 2 ^ k ∧
      (∀ j, j < k → small_growable.rkbuf_size * 2 ^ j < 100) ∧
      100 ≤ b'.rkbuf_size ∧
      (100 ≤ small_growable.rkbuf_size → b'.rkbuf_size = small_growable.rkbuf_size) :=
  grow_size lp64 small_growable 100 (by decide) (by decide) ⟨6, by decide, by decide⟩

/-- C3, counterexample: on a growable buffer of allocated size 1 a request
for `2 ^ 63 + 1` bytes doubles `alen` up to `2 ^ 63`, then to `0`, and the
loop never exits: no amount of fuel makes it return. -/
theorem grow_size_counterexample :
    rd_kafka_buf_new_growable lp64 0x1000 0x2000 0 1 = .ok tiny_growable ∧
    tiny_growable.rkbuf_flags.RD_KAFKA_OP_F_FREE = true ∧ tiny_growable.rkbuf_size = 1 ∧
    rd_kafka_buf_grow lp64 tiny_growable (2 ^ 63 + 1) = .error .no_return ∧
    (∀ fuel, grow_loop fuel 1 (2 ^ 63 + 1) = none) ∧
    ¬ ∃ b', rd_kafka_buf_grow lp64 tiny_growable (2 ^ 63 + 1) = .ok b' :=
  ⟨rfl, by decide, by decide, by rfl, grow_loop_none_forever 1 (2 ^ 63 + 1) (by rfl),
    fun ⟨_, h⟩ => by
      have h' : rd_kafka_buf_grow lp64 tiny_growable (2 ^ 63 + 1) = .error .no_return := by rfl
      rw [h'] at h
      cases h⟩

/-! ## 32-bit counters -/

theorem int_of_add_int_of (a b : Int) : int_of (int_of a + b) = int_of (a + b) := by
  unfold int_of
  omega

theorem int_of_int_of_sub (a b : Int) : int_of (int_of a - b) = int_of (a - b) := by
  unfold int_of
  omega

theorem int_of_add_int_of_right (a b : Int) : int_of (a + int_of b) = int_of (a + b) := by
  unfold int_of
  omega

theorem int_of_range (a : Int) : is_int32 (int_of a) := by
  unfold is_int32 int_of
  omega

/-! ## Buffer queues: loads, stores and the list macros -/

theorem load_put_ptr (H : Heap) (c : Cell) (v : Ptr) (hc : c ≠ .null) (c' : Cell) :
    load_ptr (put_ptr H c v) c' = if c' = c then v else load_ptr H c' := by
  cases c with
  | null => exact absurd rfl hc
  | tqh_first q =>
    cases c' with
    | null => simp [load_ptr]
    | tqh_first q' => simp [load_ptr, put_ptr, Function.update_apply]
    | tqe_next b' => simp [load_ptr, put_ptr]
  | tqe_next b =>
    cases c' with
    | null => simp [load_ptr]
    | tqh_first q' => simp [load_ptr, put_ptr]
    | tqe_next b' => simp [load_ptr, put_ptr, Function.update_apply]

theorem put_ptr_fields (H : Heap) (c : Cell) (v : Ptr) :
    (put_ptr H c v).tqe_prev = H.tqe_prev ∧ (put_ptr H c v).tqh_last = H.tqh_last ∧
    (put_ptr H c v).rkbq_cnt = H.rkbq_cnt ∧ (put_ptr H c v).rkbq_msg_cnt = H.rkbq_msg_cnt ∧
    (put_ptr H c v).rkmq_msg_cnt = H.rkmq_msg_cnt := by
  cases c <;> exact ⟨rfl, rfl, rfl, rfl, rfl⟩

theorem load_ptr_congr (H H' : Heap) (h1 : H'.tqh_first = H.tqh_first)
    (h2 : H'.tqe_next = H.tqe_next) (c : Cell) : load_ptr H' c = load_ptr H c := by
  cases c with
  | null => rfl
  | tqh_first q => simp only [load_ptr, h1]
  | tqe_next b => simp only [load_ptr, h2]

theorem TAILQ_INIT_ok (H : Heap) (head : Ptr) (hh : head ≠ NULL) :
    TAILQ_INIT H head = .ok (after_tailq_init H head) := by
  simp only [TAILQ_INIT, hh, if_false, after_tailq_init]

theorem TAILQ_INSERT_TAIL_ok (H : Heap) (head elm : Ptr) (hh : head ≠ NULL) (he : elm ≠ NULL)
    (hl : H.tqh_last head ≠ .null) :
    TAILQ_INSERT_TAIL H head elm = .ok (after_insert_tail H head elm) := by
  simp only [TAILQ_INSERT_TAIL, hh, he, or_self, if_false, store_ptr, hl, after_insert_tail]

theorem TAILQ_REMOVE_ok (H : Heap) (head elm : Ptr) (hh : head ≠ NULL) (he : elm ≠ NULL)
    (hp : H.tqe_prev elm ≠ .null) :
    TAILQ_REMOVE H head elm = .ok (after_remove H head elm) := by
  by_cases hn : H.tqe_next elm = NULL
  · simp only [TAILQ_REMOVE, hh, he, or_self, if_false, store_ptr, hn, ne_eq, not_true_eq_false,
      hp, after_remove]
  · have hp' : Function.update H.tqe_prev (H.tqe_next elm) (H.tqe_prev elm) elm ≠ .null := by
      rw [Function.update_apply]
      split <;> exact hp
    simp only [TAILQ_REMOVE, hh, he, or_self, if_false, store_ptr, hn, ne_eq, not_false_eq_true,
      if_true, hp', after_remove]

theorem TAILQ_CONCAT_ok (H : Heap) (head1 head2 : Ptr) (h1 : head1 ≠ NULL) (h2 : head2 ≠ NULL)
    (hf : H.tqh_first head2 ≠ NULL) (hl : H.tqh_last head1 ≠ .null) :
    TAILQ_CONCAT H head1 head2 = .ok (after_concat H head1 head2) := by
  simp only [TAILQ_CONCAT, h1, h2, or_self, if_false, hf, ne_eq, not_false_eq_true, if_true,
    store_ptr, hl, TAILQ_INIT_ok _ _ h2, after_concat]

theorem TAILQ_CONCAT_empty (H : Heap) (head1 head2 : Ptr) (h1 : head1 ≠ NULL) (h2 : head2 ≠ NULL)
    (hf : H.tqh_first head2 = NULL) :
    TAILQ_CONCAT H head1 head2 = .ok H := by
  simp only [TAILQ_CONCAT, h1, h2, or_self, if_false, hf, ne_eq, not_true_eq_false]

/-- What `TAILQ_INIT` does to the memory. -/
theorem after_tailq_init_spec (H : Heap) (head : Ptr) :
    (∀ c, load_ptr (after_tailq_init H head) c =
      if c = .tqh_first head then NULL else load_ptr H c) ∧
    (after_tailq_init H head).tqe_prev = H.tqe_prev ∧
    (∀ q, (after_tailq_init H head).tqh_last q =
      if q = head then .tqh_first head else H.tqh_last q) ∧
    (after_tailq_init H head).rkbq_cnt = H.rkbq_cnt ∧
    (after_tailq_init H head).rkbq_msg_cnt = H.rkbq_msg_cnt ∧
    (after_tailq_init H head).rkmq_msg_cnt = H.rkmq_msg_cnt := by
  refine ⟨?_, rfl, ?_, rfl, rfl, rfl⟩
  · intro c
    cases c with
    | null => simp [load_ptr]
    | tqh_first q => simp [load_ptr, after_tailq_init, Function.update_apply]
    | tqe_next b => simp [load_ptr, after_tailq_init]
  · intro q
    simp only [after_tailq_init, Function.update_apply]

/-- What `TAILQ_INSERT_TAIL` does to the memory, for a queue whose
`tqh_last` is not null. -/
theorem after_insert_tail_spec (H : Heap) (head elm : Ptr) (hl : H.tqh_last head ≠ .null) :
    (∀ c, load_ptr (after_insert_tail H head elm) c =
      if c = H.tqh_last head then elm else if c = .tqe_next elm then NULL else load_ptr H c) ∧
    (∀ x, (after_insert_tail H head elm).tqe_prev x =
      if x = elm then H.tqh_last head else H.tqe_prev x) ∧
    (∀ q, (after_insert_tail H head elm).tqh_last q =
      if q = head then .tqe_next elm else H.tqh_last q) ∧
    (after_insert_tail H head elm).rkbq_cnt = H.rkbq_cnt ∧
    (after_insert_tail H head elm).rkbq_msg_cnt = H.rkbq_msg_cnt ∧
    (after_insert_tail H head elm).rkmq_msg_cnt = H.rkmq_msg_cnt := by
  refine ⟨?_, ?_, ?_, ?_, ?_, ?_⟩
  · intro c
    rw [show load_ptr (after_insert_tail H head elm) c = load_ptr (put_ptr
        { H with tqe_next := Function.update H.tqe_next elm NULL,
                 tqe_prev := Function.update H.tqe_prev elm (H.tqh_last head) }
        (H.tqh_last head) elm) c from by cases c <;> rfl,
      load_put_ptr _ _ _ hl]
    by_cases h1 : c = H.tqh_last head
    · simp only [h1, if_true]
    · simp only [h1, if_false]
      cases c with
      | null => simp [load_ptr]
      | tqh_first q => simp [load_ptr]
      | tqe_next b => simp [load_ptr, Function.update_apply]
  · intro x
    show (put_ptr _ (H.tqh_last head) elm).tqe_prev x = _
    rw [(put_ptr_fields _ _ _).1]
    simp only [Function.update_apply]
  · intro q
    show Function.update (put_ptr _ (H.tqh_last head) elm).tqh_last head _ q = _
    rw [(put_ptr_fields _ _ _).2.1]
    simp only [Function.update_apply]
  · show (put_ptr _ (H.tqh_last head) elm).rkbq_cnt = _
    rw [(put_ptr_fields _ _ _).2.2.1]
  · show (put_ptr _ (H.tqh_last head) elm).rkbq_msg_cnt = _
    rw [(put_ptr_fields _ _ _).2.2.2.1]
  · show (put_ptr _ (H.tqh_last head) elm).rkmq_msg_cnt = _
    rw [(put_ptr_fields _ _ _).2.2.2.2]

/-- What `TAILQ_REMOVE` does to the memory, for a buffer whose `tqe_prev`
is not null. -/
theorem after_remove_spec (H : Heap) (head elm : Ptr) (hp : H.tqe_prev elm ≠ .null) :
    (∀ c, load_ptr (after_remove H head elm) c =
      if c = H.tqe_prev elm then H.tqe_next elm else load_ptr H c) ∧
    (∀ x, (after_remove H head elm).tqe_prev x =
      if H.tqe_next elm ≠ NULL ∧ x = H.tqe_next elm then H.tqe_prev elm else H.tqe_prev x) ∧
    (∀ q, (after_remove H head elm).tqh_last q =
      if H.tqe_next elm = NULL ∧ q = head then H.tqe_prev elm else H.tqh_last q) ∧
    (after_remove H head elm).rkbq_cnt = H.rkbq_cnt ∧
    (after_remove H head elm).rkbq_msg_cnt = H.rkbq_msg_cnt ∧
    (after_remove H head elm).rkmq_msg_cnt = H.rkmq_msg_cnt := by
  by_cases hn : H.tqe_next elm = NULL
  · have e : after_remove H head elm =
        put_ptr { H with tqh_last := Function.update H.tqh_last head (H.tqe_prev elm) }
          (H.tqe_prev elm) (H.tqe_next elm) := by
      simp only [after_remove, hn, ne_eq, not_true_eq_false, if_false]
    rw [e]
    refine ⟨?_, ?_, ?_, ?_, ?_, ?_⟩
    · intro c
      rw [load_put_ptr _ _ _ hp]
      have : load_ptr { H with tqh_last := Function.update H.tqh_last head (H.tqe_prev elm) } c =
          load_ptr H c := load_ptr_congr _ _ rfl rfl c
      rw [this]
    · intro x
      rw [(put_ptr_fields _ _ _).1]
      simp only [hn, ne_eq, not_true_eq_false, false_and, if_false]
    · intro q
      rw [(put_ptr_fields _ _ _).2.1]
      simp only [hn, true_and, Function.update_apply]
    · rw [(put_ptr_fields _ _ _).2.2.1]
    · rw [(put_ptr_fields _ _ _).2.2.2.1]
    · rw [(put_ptr_fields _ _ _).2.2.2.2]
  · have hpe : Function.update H.tqe_prev (H.tqe_next elm) (H.tqe_prev elm) elm =
        H.tqe_prev elm := by
      rw [Function.update_apply]
      split <;> rfl
    have e : after_remove H head elm =
        put_ptr { H with tqe_prev := Function.update H.tqe_prev (H.tqe_next elm) (H.tqe_prev elm) }
          (H.tqe_prev elm) (H.tqe_next elm) := by
      simp only [after_remove, hn, ne_eq, not_false_eq_true, if_true, hpe]
    rw [e]
    refine ⟨?_, ?_, ?_, ?_, ?_, ?_⟩
    · intro c
      rw [load_put_ptr _ _ _ hp]
      have : load_ptr
          { H with tqe_prev := Function.update H.tqe_prev (H.tqe_next elm) (H.tqe_prev elm) } c =
          load_ptr H c := load_ptr_congr _ _ rfl rfl c
      rw [this]
    · intro x
      rw [(put_ptr_fields _ _ _).1]
      simp only [ne_eq, hn, not_false_eq_true, true_and, Function.update_apply]
    · intro q
      rw [(put_ptr_fields _ _ _).2.1]
      simp only [hn, false_and, if_false]
    · rw [(put_ptr_fields _ _ _).2.2.1]
    · rw [(put_ptr_fields _ _ _).2.2.2.1]
    · rw [(put_ptr_fields _ _ _).2.2.2.2]

/-- What `TAILQ_CONCAT` does to the memory for a source queue that is not
empty, when the `tqh_last` of the destination is not null. -/
theorem after_concat_spec (H : Heap) (head1 head2 : Ptr) (hl : H.tqh_last head1 ≠ .null) :
    (∀ c, load_ptr (after_concat H head1 head2) c =
      if c = .tqh_first head2 then NULL
      else if c = H.tqh_last head1 then H.tqh_first head2 else load_ptr H c) ∧
    (∀ x, (after_concat H head1 head2).tqe_prev x =
      if x = H.tqh_first head2 then H.tqh_last head1 else H.tqe_prev x) ∧
    (∀ q, (after_concat H head1 head2).tqh_last q =
      if q = head2 then .tqh_first head2
      else if q = head1 then H.tqh_last head2 else H.tqh_last q) ∧
    (after_concat H head1 head2).rkbq_cnt = H.rkbq_cnt ∧
    (after_concat H head1 head2).rkbq_msg_cnt = H.rkbq_msg_cnt ∧
    (after_concat H head1 head2).rkmq_msg_cnt = H.rkmq_msg_cnt := by
  have hf : (put_ptr H (H.tqh_last head1) (H.tqh_first head2)).tqh_first head2 =
      H.tqh_first head2 := by
    have := load_put_ptr H (H.tqh_last head1) (H.tqh_first head2) hl (.tqh_first head2)
    simp only [load_ptr] at this
    rw [this]
    split <;> rfl
  obtain ⟨p1, p2, p3, p4, p5⟩ := put_ptr_fields H (H.tqh_last head1) (H.tqh_first head2)
  obtain ⟨i1, i2, i3, i4, i5, i6⟩ := after_tailq_init_spec
    { put_ptr H (H.tqh_last head1) (H.tqh_first head2) with
      tqe_prev := Function.update H.tqe_prev (H.tqh_first head2) (H.tqh_last head1),
      tqh_last := Function.update H.tqh_last head1 (H.tqh_last head2) } head2
  have e : after_concat H head1 head2 = after_tailq_init
      { put_ptr H (H.tqh_last head1) (H.tqh_first head2) with
        tqe_prev := Function.update H.tqe_prev (H.tqh_first head2) (H.tqh_last head1),
        tqh_last := Function.update H.tqh_last head1 (H.tqh_last head2) } head2 := by
    simp only [after_concat, hf, p1, p2]
  rw [e]
  refine ⟨?_, ?_, ?_, ?_, ?_, ?_⟩
  · intro c
    rw [i1 c]
    have : load_ptr { put_ptr H (H.tqh_last head1) (H.tqh_first head2) with
        tqe_prev := Function.update H.tqe_prev (H.tqh_first head2) (H.tqh_last head1),
        tqh_last := Function.update H.tqh_last head1 (H.tqh_last head2) } c =
        load_ptr (put_ptr H (H.tqh_last head1) (H.tqh_first head2)) c :=
      load_ptr_congr _ _ rfl rfl c
    rw [this, load_put_ptr _ _ _ hl]
  · intro x
    rw [i2]
    simp only [Function.update_apply]
  · intro q
    rw [i3 q]
    simp only [Function.update_apply]
  · rw [i4]; exact p3
  · rw [i5]; exact p4
  · rw [i6]; exact p5

/-! ## Buffer queues: well-linked lists -/

theorem mem_next_cells (x : Ptr) (xs : List Ptr) : Cell.tqe_next x ∈ next_cells xs ↔ x ∈ xs := by
  simp [next_cells]

theorem tqh_first_not_mem_next_cells (q : Ptr) (xs : List Ptr) :
    Cell.tqh_first q ∉ next_cells xs := by
  simp [next_cells]

theorem null_not_mem_next_cells (xs : List Ptr) : Cell.null ∉ next_cells xs := by
  simp [next_cells]

theorem next_cells_cons (x : Ptr) (xs : List Ptr) :
    next_cells (x :: xs) = Cell.tqe_next x :: next_cells xs := rfl

/-- A well-linked list stays well linked when the cells and the `tqe_prev`
fields it reads keep their contents. -/
theorem tailq_seg_congr (H H' : Heap) : ∀ (xs : List Ptr) (c last : Cell),
    (∀ c', c' ∈ c :: next_cells xs → load_ptr H' c' = load_ptr H c') →
    (∀ x ∈ xs, H'.tqe_prev x = H.tqe_prev x) →
    tailq_seg H c xs last → tailq_seg H' c xs last := by
  intro xs
  induction xs with
  | nil =>
    intro c last hl _ h
    obtain ⟨h1, h2⟩ := h
    exact ⟨by rw [hl c (by simp)]; exact h1, h2⟩
  | cons x xs ih =>
    intro c last hl hp h
    obtain ⟨h1, h2, h3, h4⟩ := h
    refine ⟨by rw [hl c (by simp)]; exact h1, h2, by rw [hp x (by simp)]; exact h3, ?_⟩
    exact ih _ _ (fun c' hc' => hl c' (by
      rw [next_cells_cons]
      exact List.mem_cons_of_mem _ hc'))
      (fun y hy => hp y (List.mem_cons_of_mem _ hy)) h4

theorem tailq_seg_last (H : Heap) : ∀ (xs : List Ptr) (c last : Cell),
    tailq_seg H c xs last → last ∈ c :: next_cells xs := by
  intro xs
  induction xs with
  | nil => intro c last h; simp [h.2]
  | cons x xs ih =>
    intro c last h
    have := ih _ _ h.2.2.2
    rw [next_cells_cons]
    exact List.mem_cons_of_mem _ this

theorem tailq_seg_prev (H : Heap) : ∀ (xs : List Ptr) (c last : Cell),
    tailq_seg H c xs last → ∀ x ∈ xs, H.tqe_prev x ∈ c :: next_cells xs := by
  intro xs
  induction xs with
  | nil => intro c last _ x hx; cases hx
  | cons y xs ih =>
    intro c last h x hx
    rcases List.mem_cons.mp hx with rfl | hx'
    · rw [h.2.2.1]; simp
    · have := ih _ _ h.2.2.2 x hx'
      rw [next_cells_cons]
      exact List.mem_cons_of_mem _ this

theorem tailq_seg_next (H : Heap) : ∀ (xs : List Ptr) (c last : Cell),
    tailq_seg H c xs last → ∀ x ∈ xs, H.tqe_next x = NULL ∨ H.tqe_next x ∈ xs := by
  intro xs
  induction xs with
  | nil => intro c last _ x hx; cases hx
  | cons y xs ih =>
    intro c last h x hx
    rcases List.mem_cons.mp hx with rfl | hx'
    · cases xs with
      | nil => left; exact h.2.2.2.1
      | cons z zs =>
        right
        have : H.tqe_next x = z := h.2.2.2.1
        rw [this]; simp
    · rcases ih _ _ h.2.2.2 x hx' with h0 | h1
      · left; exact h0
      · right; exact List.mem_cons_of_mem _ h1

theorem tailq_seg_ne_null (H : Heap) : ∀ (xs : List Ptr) (c last : Cell),
    tailq_seg H c xs last → ∀ x ∈ xs, x ≠ NULL := by
  intro xs
  induction xs with
  | nil => intro c last _ x hx; cases hx
  | cons y xs ih =>
    intro c last h x hx
    rcases List.mem_cons.mp hx with rfl | hx'
    · exact h.2.1
    · exact ih _ _ h.2.2.2 x hx'

/-- A well-linked list holds no buffer twice. -/
theorem tailq_seg_nodup (H : Heap) : ∀ (xs : List Ptr) (c last : Cell),
    tailq_seg H c xs last → c ∉ next_cells xs → xs.Nodup := by
  intro xs
  induction xs with
  | nil => intro c last _ _; exact List.nodup_nil
  | cons x xs ih =>
    intro c last h hc
    have hx : x ∉ xs := by
      intro hx
      have hp := tailq_seg_prev H xs _ _ h.2.2.2 x hx
      rw [h.2.2.1, ← next_cells_cons] at hp
      exact hc hp
    exact List.nodup_cons.mpr ⟨hx, ih _ _ h.2.2.2 (by rw [mem_next_cells]; exact hx)⟩

/-- A well-linked list that does not start inside a queue shares no buffer
with that queue. -/
theorem tailq_seg_disjoint (H : Heap) (ys : List Ptr) (q2 : Ptr) (last2 : Cell)
    (h2 : tailq_seg H (.tqh_first q2) ys last2) : ∀ (xs : List Ptr) (c last : Cell),
    tailq_seg H c xs last → c ∉ Cell.tqh_first q2 :: next_cells ys → ∀ x ∈ xs, x ∉ ys := by
  intro xs
  induction xs with
  | nil => intro c last _ _ x hx; cases hx
  | cons y xs ih =>
    intro c last h hc x hx
    have hy : y ∉ ys := by
      intro hy
      have hp := tailq_seg_prev H ys _ _ h2 y hy
      rw [h.2.2.1] at hp
      exact hc hp
    rcases List.mem_cons.mp hx with rfl | hx'
    · exact hy
    · refine ih _ _ h.2.2.2 ?_ x hx'
      intro hm
      rcases List.mem_cons.mp hm with he | hm'
      · cases he
      · exact hy ((mem_next_cells y ys).mp hm')

theorem is_tailq_nodup (H : Heap) (q : Ptr) (xs : List Ptr) (h : is_tailq H q xs) :
    xs.Nodup :=
  tailq_seg_nodup H xs _ _ h (tqh_first_not_mem_next_cells q xs)

theorem is_tailq_ne_null (H : Heap) (q : Ptr) (xs : List Ptr) (h : is_tailq H q xs) :
    ∀ x ∈ xs, x ≠ NULL :=
  tailq_seg_ne_null H xs _ _ h

/-- Two different queues share no buffer. -/
theorem is_tailq_disjoint (H : Heap) (q q2 : Ptr) (xs ys : List Ptr) (hq : q ≠ q2)
    (h : is_tailq H q xs) (h2 : is_tailq H q2 ys) : ∀ x ∈ xs, x ∉ ys :=
  tailq_seg_disjoint H ys q2 _ h2 xs _ _ h (by
    intro hm
    rcases List.mem_cons.mp hm with he | hm'
    · injection he with he; exact hq he
    · exact tqh_first_not_mem_next_cells q ys hm')

theorem is_tailq_last_ne_null (H : Heap) (q : Ptr) (xs : List Ptr) (h : is_tailq H q xs) :
    H.tqh_last q ≠ .null := by
  intro h0
  have hl := tailq_seg_last H xs _ _ h
  rw [h0] at hl
  rcases List.mem_cons.mp hl with he | hm
  · cases he
  · exact null_not_mem_next_cells xs hm

/-- The list a queue holds is determined by the memory. -/
theorem tailq_seg_unique (H : Heap) : ∀ (xs ys : List Ptr) (c last last2 : Cell),
    tailq_seg H c xs last → tailq_seg H c ys last2 → xs = ys := by
  intro xs
  induction xs with
  | nil =>
    intro ys c last last2 h h2
    cases ys with
    | nil => rfl
    | cons y ys => exact absurd (h2.1.symm.trans h.1) h2.2.1
  | cons x xs ih =>
    intro ys c last last2 h h2
    cases ys with
    | nil => exact absurd (h.1.symm.trans h2.1) h.2.1
    | cons y ys =>
      have hxy : x = y := h.1.symm.trans h2.1
      subst hxy
      rw [ih ys _ _ _ h.2.2.2 h2.2.2.2]

theorem next_cells_append (xs ys : List Ptr) :
    next_cells (xs ++ ys) = next_cells xs ++ next_cells ys := by
  simp [next_cells]

/-- Appending a buffer that is not in the list: the effect of
`TAILQ_INSERT_TAIL` on a well-linked list. -/
theorem tailq_seg_insert (H H' : Heap) (e : Ptr) (last0 : Cell) (he : e ≠ NULL)
    (hload : ∀ c', load_ptr H' c' =
      if c' = last0 then e else if c' = .tqe_next e then NULL else load_ptr H c')
    (hprev : ∀ x, H'.tqe_prev x = if x = e then last0 else H.tqe_prev x) :
    ∀ (xs : List Ptr) (c : Cell), tailq_seg H c xs last0 → e ∉ xs → c ≠ .tqe_next e →
      c ∉ next_cells xs → tailq_seg H' c (xs ++ [e]) (.tqe_next e) := by
  intro xs
  induction xs with
  | nil =>
    intro c h _ hc _
    obtain ⟨_, h2⟩ := h
    subst h2
    refine ⟨by rw [hload]; simp, he, by rw [hprev]; simp, ?_, rfl⟩
    rw [hload]
    simp [Ne.symm hc]
  | cons x xs ih =>
    intro c h hex hc hcn
    obtain ⟨h1, h2, h3, h4⟩ := h
    have hxe : x ≠ e := fun hh => hex (by simp [hh])
    have hnd := tailq_seg_nodup H (x :: xs) c last0 ⟨h1, h2, h3, h4⟩ hcn
    have hx : x ∉ xs := (List.nodup_cons.mp hnd).1
    have hl : last0 ∈ next_cells (x :: xs) := tailq_seg_last H xs _ _ h4
    have hcl : c ≠ last0 := fun hh => hcn (hh ▸ hl)
    refine ⟨by rw [hload]; simp [hcl, hc, h1], h2, by rw [hprev]; simp [hxe, h3], ?_⟩
    exact ih _ h4 (fun hh => hex (List.mem_cons_of_mem _ hh))
      (by intro hh; injection hh with hh; exact hxe hh) (by rw [mem_next_cells]; exact hx)

/-- Unlinking a member: the effect of `TAILQ_REMOVE` on a well-linked list
that holds the buffer. -/
theorem tailq_seg_remove (H H' : Heap) (e : Ptr) (l2 : List Ptr) (last0 : Cell)
    (hload : ∀ c', load_ptr H' c' =
      if c' = H.tqe_prev e then H.tqe_next e else load_ptr H c')
    (hprev : ∀ x, H'.tqe_prev x =
      if H.tqe_next e ≠ NULL ∧ x = H.tqe_next e then H.tqe_prev e else H.tqe_prev x) :
    ∀ (l1 : List Ptr) (c : Cell), tailq_seg H c (l1 ++ e :: l2) last0 →
      c ∉ next_cells (l1 ++ e :: l2) →
      tailq_seg H' c (l1 ++ l2) (if H.tqe_next e = NULL then H.tqe_prev e else last0) := by
  intro l1
  induction l1 with
  | nil =>
    intro c h hcn
    have hnd := tailq_seg_nodup H _ c last0 h hcn
    obtain ⟨h1, h2, h3, h4⟩ := h
    cases l2 with
    | nil =>
      obtain ⟨h5, h6⟩ := h4
      have hn : H.tqe_next e = NULL := h5
      simp only [List.nil_append, hn, if_true]
      exact ⟨by rw [hload, h3, hn]; simp, h3⟩
    | cons y l2 =>
      obtain ⟨h5, h6, h7, h8⟩ := h4
      have hn : H.tqe_next e = y := h5
      have hy : y ∉ l2 := (List.nodup_cons.mp (List.nodup_cons.mp hnd).2).1
      simp only [List.nil_append, hn, h6, if_false]
      refine ⟨by rw [hload, h3, hn]; simp, h6, by rw [hprev, hn, h3]; simp [h6], ?_⟩
      refine tailq_seg_congr H H' l2 _ _ ?_ ?_ h8
      · intro c' hc'
        rw [hload, h3, if_neg]
        intro hh
        subst hh
        apply hcn
        simp only [List.nil_append, next_cells_cons]
        exact List.mem_cons_of_mem _ hc'
      · intro x hx
        rw [hprev, hn, if_neg]
        rintro ⟨_, hh⟩
        exact hy (hh ▸ hx)
  | cons x l1 ih =>
    intro c h hcn
    have hnd := tailq_seg_nodup H _ c last0 h hcn
    obtain ⟨h1, h2, h3, h4⟩ := h
    have hx : x ∉ l1 ++ e :: l2 := (List.nodup_cons.mp hnd).1
    have hpe : H.tqe_prev e ∈ next_cells (x :: (l1 ++ e :: l2)) :=
      tailq_seg_prev H _ _ _ h4 e (by simp)
    have hcp : c ≠ H.tqe_prev e := fun hh => hcn (hh ▸ hpe)
    have hne := tailq_seg_next H _ _ _ h4 e (by simp)
    refine ⟨by rw [hload, if_neg hcp]; exact h1, h2, ?_, ?_⟩
    · rw [hprev, if_neg]
      · exact h3
      · rintro ⟨hh1, hh2⟩
        rcases hne with h0 | hm
        · exact hh1 h0
        · exact hx (hh2 ▸ hm)
    · exact ih _ h4 (by rw [mem_next_cells]; exact hx)

/-- Linking a second list behind a first one: the effect of `TAILQ_CONCAT`
on two well-linked lists that share no buffer. -/
theorem tailq_seg_concat (H H' : Heap) (y : Ptr) (ys : List Ptr) (lastd lasts : Cell)
    (hy : y ≠ NULL) (hs : tailq_seg H (.tqe_next y) ys lasts) (hnd : (y :: ys).Nodup)
    (hprev : ∀ x, H'.tqe_prev x = if x = y then lastd else H.tqe_prev x) :
    ∀ (xs : List Ptr) (c : Cell), tailq_seg H c xs lastd →
      c ∉ next_cells (xs ++ y :: ys) → (∀ x ∈ xs, x ∉ y :: ys) →
      (∀ c', c' ∈ c :: next_cells (xs ++ y :: ys) →
        load_ptr H' c' = if c' = lastd then y else load_ptr H c') →
      tailq_seg H' c (xs ++ y :: ys) lasts := by
  intro xs
  induction xs with
  | nil =>
    intro c h hcn _ hload
    obtain ⟨_, h2⟩ := h
    subst h2
    refine ⟨by rw [hload _ (by simp)]; simp, hy, by rw [hprev]; simp, ?_⟩
    refine tailq_seg_congr H H' ys _ _ ?_ ?_ hs
    · intro c' hc'
      have hm : c' ∈ next_cells ([] ++ y :: ys) := by
        rw [List.nil_append, next_cells_cons]; exact hc'
      rw [hload c' (List.mem_cons_of_mem _ hm), if_neg]
      intro hh
      exact hcn (hh ▸ hm)
    · intro x hx
      rw [hprev, if_neg]
      intro hh
      exact (List.nodup_cons.mp hnd).1 (hh ▸ hx)
  | cons x xs ih =>
    intro c h hcn hdis hload
    have hcn' : c ∉ next_cells (x :: xs) := by
      intro hh
      apply hcn
      rw [List.cons_append, next_cells_cons, next_cells_append]
      rw [next_cells_cons] at hh
      rcases List.mem_cons.mp hh with h0 | h1
      · exact h0 ▸ List.mem_cons_self _ _
      · exact List.mem_cons_of_mem _ (List.mem_append_left _ h1)
    have hndx := tailq_seg_nodup H _ c lastd h hcn'
    obtain ⟨h1, h2, h3, h4⟩ := h
    have hx : x ∉ xs := (List.nodup_cons.mp hndx).1
    have hxy : x ∉ y :: ys := hdis x (by simp)
    have hl : lastd ∈ next_cells (x :: xs) := tailq_seg_last H xs _ _ h4
    have hcl : c ≠ lastd := fun hh => hcn' (hh ▸ hl)
    have hx' : x ∉ xs ++ y :: ys := by
      intro hh
      rcases List.mem_append.mp hh with h0 | h0
      · exact hx h0
      · exact hxy h0
    refine ⟨by rw [hload c (by simp), if_neg hcl]; exact h1, h2, ?_, ?_⟩
    · rw [hprev, if_neg]
      · exact h3
      · intro hh
        exact hxy (by simp [hh])
    · refine ih _ h4 (by rw [mem_next_cells]; exact hx')
        (fun z hz => hdis z (List.mem_cons_of_mem _ hz)) ?_
      intro c' hc'
      refine hload c' ?_
      rw [List.cons_append, next_cells_cons]
      exact List.mem_cons_of_mem _ hc'

/-! ## Buffer queues: the queue functions -/

/-- A queue stays well linked when its head, the cells of its members and
their `tqe_prev` fields keep their contents. -/
theorem is_tailq_frame (H H' : Heap) (q : Ptr) (xs : List Ptr) (h : is_tailq H q xs)
    (hload : ∀ c', c' ∈ Cell.tqh_first q :: next_cells xs → load_ptr H' c' = load_ptr H c')
    (hprev : ∀ x ∈ xs, H'.tqe_prev x = H.tqe_prev x)
    (hlast : H'.tqh_last q = H.tqh_last q) : is_tailq H' q xs := by
  unfold is_tailq
  rw [hlast]
  exact tailq_seg_congr H H' xs _ _ hload hprev h

theorem is_tailq_with_counters (H : Heap) (cnt msg_cnt : Ptr → Int) (q : Ptr) (xs : List Ptr) :
    is_tailq (with_counters H cnt msg_cnt) q xs ↔ is_tailq H q xs :=
  ⟨fun h => is_tailq_frame _ H q xs h (fun c' _ => load_ptr_congr _ _ rfl rfl c')
      (fun _ _ => rfl) rfl,
    fun h => is_tailq_frame H _ q xs h (fun c' _ => load_ptr_congr _ _ rfl rfl c')
      (fun _ _ => rfl) rfl⟩

theorem rd_kafka_bufq_init_ok (H : Heap) (q : Ptr) (hq : q ≠ NULL) :
    rd_kafka_bufq_init H q =
      .ok (with_counters (after_tailq_init H q) (Function.update H.rkbq_cnt q 0)
        (Function.update H.rkbq_msg_cnt q 0)) := by
  simp only [rd_kafka_bufq_init, TAILQ_INIT_ok H q hq, with_counters]
  rfl

theorem rd_kafka_bufq_enq_ok (H : Heap) (q e : Ptr) (hq : q ≠ NULL) (he : e ≠ NULL)
    (hl : H.tqh_last q ≠ .null) :
    rd_kafka_bufq_enq H q e =
      .ok (with_counters (after_insert_tail H q e)
        (Function.update H.rkbq_cnt q (rd_atomic32_add (H.rkbq_cnt q) 1))
        (Function.update H.rkbq_msg_cnt q
          (rd_atomic32_add (H.rkbq_msg_cnt q) (H.rkmq_msg_cnt e)))) := by
  obtain ⟨_, _, _, h4, h5, h6⟩ := after_insert_tail_spec H q e hl
  simp only [rd_kafka_bufq_enq, TAILQ_INSERT_TAIL_ok H q e hq he hl, with_counters, h4, h5, h6]

theorem rd_kafka_bufq_deq_ok (H : Heap) (q e : Ptr) (hq : q ≠ NULL) (he : e ≠ NULL)
    (hp : H.tqe_prev e ≠ .null) (hcnt : 0 < H.rkbq_cnt q) :
    rd_kafka_bufq_deq H q e =
      .ok (with_counters (after_remove H q e)
        (Function.update H.rkbq_cnt q (rd_atomic32_sub (H.rkbq_cnt q) 1))
        (Function.update H.rkbq_msg_cnt q
          (rd_atomic32_sub (H.rkbq_msg_cnt q) (H.rkmq_msg_cnt e)))) := by
  obtain ⟨_, _, _, h4, h5, h6⟩ := after_remove_spec H q e hp
  simp only [rd_kafka_bufq_deq, TAILQ_REMOVE_ok H q e hq he hp, with_counters, h4, h5, h6,
    gt_iff_lt, hcnt, not_true_eq_false, if_false]

theorem rd_kafka_bufq_deq_assert (H : Heap) (q e : Ptr) (hq : q ≠ NULL) (he : e ≠ NULL)
    (hp : H.tqe_prev e ≠ .null) (hcnt : H.rkbq_cnt q ≤ 0) :
    rd_kafka_bufq_deq H q e = .error .assert_failed := by
  obtain ⟨_, _, _, h4, _, _⟩ := after_remove_spec H q e hp
  simp only [rd_kafka_bufq_deq, TAILQ_REMOVE_ok H q e hq he hp, h4, gt_iff_lt, not_lt.mpr hcnt,
    not_false_eq_true, if_true]

theorem rd_kafka_bufq_deq_null_link (H : Heap) (q e : Ptr) (hq : q ≠ NULL) (he : e ≠ NULL)
    (hp : H.tqe_prev e = .null) :
    rd_kafka_bufq_deq H q e = .error .null_deref := by
  have h : TAILQ_REMOVE H q e = .error .null_deref := by
    by_cases hn : H.tqe_next e = NULL
    · simp only [TAILQ_REMOVE, hq, he, or_self, if_false, store_ptr, hn, ne_eq,
        not_true_eq_false, hp, if_true]
    · have hp' : Function.update H.tqe_prev (H.tqe_next e) (H.tqe_prev e) e = .null := by
        rw [Function.update_apply]
        split <;> exact hp
      simp only [TAILQ_REMOVE, hq, he, or_self, if_false, store_ptr, hn, ne_eq,
        not_false_eq_true, if_true, hp']
  simp only [rd_kafka_bufq_deq, h]

theorem cells_separate (q q' : Ptr) (xs ys : List Ptr) (hq : q' ≠ q)
    (hdis : ∀ x ∈ ys, x ∉ xs) (c c' : Cell) (hc : c ∈ Cell.tqh_first q :: next_cells xs)
    (hc' : c' ∈ Cell.tqh_first q' :: next_cells ys) : c' ≠ c := by
  intro hh
  subst hh
  rcases List.mem_cons.mp hc with h1 | h1
  · rcases List.mem_cons.mp hc' with h2 | h2
    · rw [h1] at h2; injection h2 with h2; exact hq h2.symm
    · rw [h1] at h2; exact tqh_first_not_mem_next_cells q ys h2
  · rcases List.mem_cons.mp hc' with h2 | h2
    · rw [h2] at h1; exact tqh_first_not_mem_next_cells q' xs h1
    · cases c' with
      | null => exact null_not_mem_next_cells xs h1
      | tqh_first z => exact tqh_first_not_mem_next_cells z xs h1
      | tqe_next z => exact hdis z ((mem_next_cells z ys).mp h2) ((mem_next_cells z xs).mp h1)

/-- What `rd_kafka_bufq_init` does: the queue is empty with both counters 0,
and the other queues are as before. -/
theorem rd_kafka_bufq_init_spec (H : Heap) (q : Ptr) (hq : q ≠ NULL) :
    ∃ H', rd_kafka_bufq_init H q = .ok H' ∧ is_tailq H' q [] ∧
      H'.rkbq_cnt q = 0 ∧ H'.rkbq_msg_cnt q = 0 ∧ H'.rkmq_msg_cnt = H.rkmq_msg_cnt ∧
      ∀ q', q' ≠ q → H'.rkbq_cnt q' = H.rkbq_cnt q' ∧ H'.rkbq_msg_cnt q' = H.rkbq_msg_cnt q' ∧
        ∀ ys, is_tailq H q' ys → is_tailq H' q' ys := by
  obtain ⟨i1, i2, i3, _, _, i6⟩ := after_tailq_init_spec H q
  refine ⟨_, rd_kafka_bufq_init_ok H q hq, ?_, ?_, ?_, i6, ?_⟩
  · rw [is_tailq_with_counters]
    exact ⟨by rw [i1]; simp, by rw [i3]; simp⟩
  · simp [with_counters]
  · simp [with_counters]
  · intro q' hq'
    refine ⟨by simp [with_counters, hq'], by simp [with_counters, hq'], ?_⟩
    intro ys hys
    rw [is_tailq_with_counters]
    refine is_tailq_frame H _ q' ys hys ?_ (fun x _ => by rw [i2]) (by rw [i3]; simp [hq'])
    intro c' hc'
    rw [i1, if_neg]
    exact cells_separate q q' [] ys hq' (fun _ _ h => by cases h) _ _ (by simp) hc'

/-- What `rd_kafka_bufq_enq` does with a buffer that is not linked: the
buffer is the new tail, both counters are raised, and the other queues are as
before. -/
theorem rd_kafka_bufq_enq_spec (H : Heap) (q e : Ptr) (xs : List Ptr) (hq : q ≠ NULL)
    (he : e ≠ NULL) (hxs : is_tailq H q xs) (hex : e ∉ xs) :
    ∃ H', rd_kafka_bufq_enq H q e = .ok H' ∧ is_tailq H' q (xs ++ [e]) ∧
      H'.rkbq_cnt q = rd_atomic32_add (H.rkbq_cnt q) 1 ∧
      H'.rkbq_msg_cnt q = rd_atomic32_add (H.rkbq_msg_cnt q) (H.rkmq_msg_cnt e) ∧
      H'.rkmq_msg_cnt = H.rkmq_msg_cnt ∧
      ∀ q', q' ≠ q → H'.rkbq_cnt q' = H.rkbq_cnt q' ∧ H'.rkbq_msg_cnt q' = H.rkbq_msg_cnt q' ∧
        ∀ ys, is_tailq H q' ys → e ∉ ys → is_tailq H' q' ys := by
  have hl := is_tailq_last_ne_null H q xs hxs
  obtain ⟨i1, i2, i3, _, _, i6⟩ := after_insert_tail_spec H q e hl
  refine ⟨_, rd_kafka_bufq_enq_ok H q e hq he hl, ?_, ?_, ?_, i6, ?_⟩
  · rw [is_tailq_with_counters]
    unfold is_tailq
    rw [i3, if_pos rfl]
    exact tailq_seg_insert H _ e _ he i1 i2 xs _ hxs hex (by intro h; cases h)
      (tqh_first_not_mem_next_cells q xs)
  · simp [with_counters]
  · simp [with_counters]
  · intro q' hq'
    refine ⟨by simp [with_counters, hq'], by simp [with_counters, hq'], ?_⟩
    intro ys hys hey
    rw [is_tailq_with_counters]
    have hdis := is_tailq_disjoint H q' q ys xs hq' hys hxs
    refine is_tailq_frame H _ q' ys hys ?_ ?_ (by rw [i3]; simp [hq'])
    · intro c' hc'
      rw [i1, if_neg, if_neg]
      · intro hh
        rw [hh] at hc'
        rcases List.mem_cons.mp hc' with h1 | h1
        · cases h1
        · exact hey ((mem_next_cells e ys).mp h1)
      · exact cells_separate q q' xs ys hq' hdis _ _ (tailq_seg_last H xs _ _ hxs) hc'
    · intro x hx
      rw [i2, if_neg]
      intro hh
      exact hey (hh ▸ hx)

/-- What `rd_kafka_bufq_deq` does with a member when `rkbq_cnt` is positive:
the member is unlinked, the others keep their order, both counters are
lowered, and the other queues are as before. -/
theorem rd_kafka_bufq_deq_spec (H : Heap) (q e : Ptr) (l1 l2 : List Ptr) (hq : q ≠ NULL)
    (hxs : is_tailq H q (l1 ++ e :: l2)) (hcnt : 0 < H.rkbq_cnt q) :
    ∃ H', rd_kafka_bufq_deq H q e = .ok H' ∧ is_tailq H' q (l1 ++ l2) ∧
      H'.rkbq_cnt q = rd_atomic32_sub (H.rkbq_cnt q) 1 ∧
      H'.rkbq_msg_cnt q = rd_atomic32_sub (H.rkbq_msg_cnt q) (H.rkmq_msg_cnt e) ∧
      H'.rkmq_msg_cnt = H.rkmq_msg_cnt ∧
      ∀ q', q' ≠ q → H'.rkbq_cnt q' = H.rkbq_cnt q' ∧ H'.rkbq_msg_cnt q' = H.rkbq_msg_cnt q' ∧
        ∀ ys, is_tailq H q' ys → is_tailq H' q' ys := by
  have hmem : e ∈ l1 ++ e :: l2 := by simp
  have he : e ≠ NULL := is_tailq_ne_null H q _ hxs e hmem
  have hpm := tailq_seg_prev H _ _ _ hxs e hmem
  have hp : H.tqe_prev e ≠ .null := by
    intro h0
    rw [h0] at hpm
    rcases List.mem_cons.mp hpm with h1 | h1
    · cases h1
    · exact null_not_mem_next_cells _ h1
  obtain ⟨i1, i2, i3, _, _, i6⟩ := after_remove_spec H q e hp
  have hnext := tailq_seg_next H _ _ _ hxs e hmem
  refine ⟨_, rd_kafka_bufq_deq_ok H q e hq he hp hcnt, ?_, ?_, ?_, i6, ?_⟩
  · rw [is_tailq_with_counters]
    unfold is_tailq
    have := tailq_seg_remove H (after_remove H q e) e l2 _ i1 i2 l1 _ hxs
      (tqh_first_not_mem_next_cells q _)
    rw [i3]
    by_cases hn : H.tqe_next e = NULL
    · simpa [hn] using this
    · simpa [hn] using this
  · simp [with_counters]
  · simp [with_counters]
  · intro q' hq'
    refine ⟨by simp [with_counters, hq'], by simp [with_counters, hq'], ?_⟩
    intro ys hys
    rw [is_tailq_with_counters]
    have hdis := is_tailq_disjoint H q' q ys _ hq' hys hxs
    refine is_tailq_frame H _ q' ys hys ?_ ?_ (by rw [i3]; simp [hq'])
    · intro c' hc'
      rw [i1, if_neg]
      exact cells_separate q q' _ ys hq' hdis _ _ hpm hc'
    · intro x hx
      rw [i2, if_neg]
      rintro ⟨h1, h2⟩
      rcases hnext with h0 | hm
      · exact h1 h0
      · exact hdis x hx (h2 ▸ hm)

theorem rd_kafka_bufq_concat_ok (H : Heap) (d s : Ptr) (hd : d ≠ NULL) (hs : s ≠ NULL)
    (hl : H.tqh_last d ≠ .null) :
    rd_kafka_bufq_concat H d s =
      .ok (with_counters
        (after_tailq_init (if H.tqh_first s ≠ NULL then after_concat H d s else H) s)
        (Function.update
          (Function.update H.rkbq_cnt d (rd_atomic32_add (H.rkbq_cnt d) (H.rkbq_cnt s))) s 0)
        (Function.update
          (Function.update H.rkbq_msg_cnt d
            (rd_atomic32_add (H.rkbq_msg_cnt d) (H.rkbq_msg_cnt s))) s 0)) := by
  by_cases hf : H.tqh_first s = NULL
  · simp only [rd_kafka_bufq_concat, TAILQ_CONCAT_empty H d s hd hs hf, rd_kafka_bufq_init,
      TAILQ_INIT_ok _ s hs, hf, ne_eq, not_true_eq_false, if_false]
    rfl
  · obtain ⟨_, _, _, h4, h5, _⟩ := after_concat_spec H d s hl
    simp only [rd_kafka_bufq_concat, TAILQ_CONCAT_ok H d s hd hs hf hl, rd_kafka_bufq_init,
      TAILQ_INIT_ok _ s hs, hf, ne_eq, not_false_eq_true, if_true, h4, h5]
    rfl

/-- What `rd_kafka_bufq_concat` does to the links, for two queues that may
be the same one: the source is empty afterwards, a destination other than the
source holds its members followed by those of the source, and every other
queue is as before. -/
theorem rd_kafka_bufq_concat_links (H : Heap) (d s : Ptr) (xs ys : List Ptr)
    (hx : is_tailq H d xs) (hy : is_tailq H s ys) :
    is_tailq (after_tailq_init (if H.tqh_first s ≠ NULL then after_concat H d s else H) s) s [] ∧
    (d ≠ s →
      is_tailq (after_tailq_init (if H.tqh_first s ≠ NULL then after_concat H d s else H) s) d
        (xs ++ ys)) ∧
    (after_tailq_init (if H.tqh_first s ≠ NULL then after_concat H d s else H) s).rkmq_msg_cnt =
      H.rkmq_msg_cnt ∧
    ∀ q' zs, q' ≠ d → q' ≠ s → is_tailq H q' zs →
      is_tailq (after_tailq_init (if H.tqh_first s ≠ NULL then after_concat H d s else H) s)
        q' zs := by
  have hl := is_tailq_last_ne_null H d xs hx
  have hld := tailq_seg_last H xs _ _ hx
  obtain ⟨c1, c2, c3, _, _, c6⟩ := after_concat_spec H d s hl
  cases ys with
  | nil =>
    have hf : H.tqh_first s = NULL := hy.1
    simp only [hf, ne_eq, not_true_eq_false, if_false]
    obtain ⟨i1, i2, i3, _, _, i6⟩ := after_tailq_init_spec H s
    refine ⟨⟨by rw [i1]; simp, by rw [i3]; simp⟩, ?_, i6, ?_⟩
    · intro hds
      rw [List.append_nil]
      refine is_tailq_frame H _ d xs hx ?_ (fun x _ => by rw [i2]) (by rw [i3]; simp [hds])
      intro c' hc'
      rw [i1, if_neg]
      exact cells_separate s d [] xs hds (fun _ _ h => by cases h) _ _ (by simp) hc'
    · intro q' zs _ hqs hz
      refine is_tailq_frame H _ q' zs hz ?_ (fun x _ => by rw [i2]) (by rw [i3]; simp [hqs])
      intro c' hc'
      rw [i1, if_neg]
      exact cells_separate s q' [] zs hqs (fun _ _ h => by cases h) _ _ (by simp) hc'
  | cons y ys =>
    obtain ⟨h1, h2, h3, h4⟩ := hy
    have hf : H.tqh_first s = y := h1
    have hfn : H.tqh_first s ≠ NULL := by rw [hf]; exact h2
    simp only [hfn, ne_eq, not_false_eq_true, if_true]
    obtain ⟨i1, i2, i3, _, _, i6⟩ := after_tailq_init_spec (after_concat H d s) s
    have hys : is_tailq H s (y :: ys) := ⟨h1, h2, h3, h4⟩
    refine ⟨⟨by rw [i1]; simp, by rw [i3]; simp⟩, ?_, by rw [i6, c6], ?_⟩
    · intro hds
      unfold is_tailq
      rw [i3, if_neg hds, c3, if_neg hds, if_pos rfl]
      have hdis := is_tailq_disjoint H d s xs (y :: ys) hds hx hys
      refine tailq_seg_concat H _ y ys _ _ h2 h4 (is_tailq_nodup H s _ hys) ?_ xs _ hx
        (tqh_first_not_mem_next_cells d _) hdis ?_
      · intro x
        rw [i2, c2, hf]
      · intro c' hc'
        rw [i1, if_neg, c1, if_neg, hf]
        · intro hh
          rw [hh] at hc'
          rcases List.mem_cons.mp hc' with h0 | h0
          · injection h0 with h0; exact hds h0.symm
          · exact tqh_first_not_mem_next_cells s _ h0
        · intro hh
          rw [hh] at hc'
          rcases List.mem_cons.mp hc' with h0 | h0
          · injection h0 with h0; exact hds h0.symm
          · exact tqh_first_not_mem_next_cells s _ h0
    · intro q' zs hqd hqs hz
      have hdx := is_tailq_disjoint H q' d zs xs hqd hz hx
      have hdy := is_tailq_disjoint H q' s zs (y :: ys) hqs hz hys
      refine is_tailq_frame H _ q' zs hz ?_ ?_ (by rw [i3, if_neg hqs, c3, if_neg hqs, if_neg hqd])
      · intro c' hc'
        rw [i1, if_neg, c1, if_neg, if_neg]
        · exact cells_separate d q' xs zs hqd hdx _ _ hld hc'
        · exact cells_separate s q' (y :: ys) zs hqs hdy _ _ (by simp) hc'
        · exact cells_separate s q' (y :: ys) zs hqs hdy _ _ (by simp) hc'
      · intro x hxz
        rw [i2, c2, if_neg]
        rw [hf]
        intro hh
        exact hdy x hxz (by simp [hh])

theorem rd_atomic32_sub_one (x : Int) (hx : is_int32 x) (hpos : 0 < x) :
    rd_atomic32_sub x 1 = x - 1 :=
  int_of_of_range _ (by unfold is_int32 at hx; omega) (by unfold is_int32 at hx; omega)

/-- C5, amended: for two different queues `dst` and `src`,
`rd_kafka_bufq_concat(dst, src)` returns and leaves `dst` holding its prior
entries in their order followed by those of `src` in their order, sets both
counters of `dst` to the 32-bit sums of the two queues' prior counters (the
plain sums when these fit in 32 bits), and leaves `src` empty with both
counters `0`. -/
theorem bufq_concat_moves (H : Heap) (dst src : Ptr) (xs ys : List Ptr) (hd : dst ≠ NULL)
    (hs : src ≠ NULL) (hds : dst ≠ src) (hx : is_tailq H dst xs) (hy : is_tailq H src ys) :
    ∃ H', rd_kafka_bufq_concat H dst src = .ok H' ∧
      is_tailq H' dst (xs ++ ys) ∧
      H'.rkbq_cnt dst = rd_atomic32_add (H.rkbq_cnt dst) (H.rkbq_cnt src) ∧
      H'.rkbq_msg_cnt dst = rd_atomic32_add (H.rkbq_msg_cnt dst) (H.rkbq_msg_cnt src) ∧
      (is_int32 (H.rkbq_cnt dst + H.rkbq_cnt src) →
        H'.rkbq_cnt dst = H.rkbq_cnt dst + H.rkbq_cnt src) ∧
      (is_int32 (H.rkbq_msg_cnt dst + H.rkbq_msg_cnt src) →
        H'.rkbq_msg_cnt dst = H.rkbq_msg_cnt dst + H.rkbq_msg_cnt src) ∧
      is_tailq H' src [] ∧ H'.rkbq_cnt src = 0 ∧ H'.rkbq_msg_cnt src = 0 := by
  obtain ⟨l1, l2, _, _⟩ := rd_kafka_bufq_concat_links H dst src xs ys hx hy
  refine ⟨_, rd_kafka_bufq_concat_ok H dst src hd hs (is_tailq_last_ne_null H dst xs hx), ?_, ?_,
    ?_, ?_, ?_, ?_, ?_, ?_⟩
  · rw [is_tailq_with_counters]; exact l2 hds
  · simp [with_counters, hds]
  · simp [with_counters, hds]
  · intro h
    simp only [with_counters, Function.update_apply, hds, if_false, if_true, rd_atomic32_add]
    exact int_of_of_range _ h.1 h.2
  · intro h
    simp only [with_counters, Function.update_apply, hds, if_false, if_true, rd_atomic32_add]
    exact int_of_of_range _ h.1 h.2
  · rw [is_tailq_with_counters]; exact l1
  · simp [with_counters]
  · simp [with_counters]

/-- C5, witness: the queue at `0x200` (two buffers) moved behind the queue at
`0x100` (one buffer). -/
theorem bufq_concat_moves_witness :
    ∃ H', rd_kafka_bufq_concat heap_two 0x100 0x200 = .ok H' ∧
      is_tailq H' 0x100 ([0x1000] ++ [0x3000, 0x5000]) ∧
      H'.rkbq_cnt 0x100 = rd_atomic32_add (heap_two.rkbq_cnt 0x100) (heap_two.rkbq_cnt 0x200) ∧
      H'.rkbq_msg_cnt 0x100 =
        rd_atomic32_add (heap_two.rkbq_msg_cnt 0x100) (heap_two.rkbq_msg_cnt 0x200) ∧
      (is_int32 (heap_two.rkbq_cnt 0x100 + heap_two.rkbq_cnt 0x200) →
        H'.rkbq_cnt 0x100 = heap_two.rkbq_cnt 0x100 + heap_two.rkbq_cnt 0x200) ∧
      (is_int32 (heap_two.rkbq_msg_cnt 0x100 + heap_two.rkbq_msg_cnt 0x200) →
        H'.rkbq_msg_cnt 0x100 = heap_two.rkbq_msg_cnt 0x100 + heap_two.rkbq_msg_cnt 0x200) ∧
      is_tailq H' 0x200 [] ∧ H'.rkbq_cnt 0x200 = 0 ∧ H'.rkbq_msg_cnt 0x200 = 0 :=
  bufq_concat_moves heap_two 0x100 0x200 [0x1000] [0x3000, 0x5000] (by decide) (by decide)
    (by decide) (by decide) (by decide)

/-- C5, counterexample: `rd_kafka_bufq_concat(q, q)` on the queue at `0x100`,
which holds one buffer with counters 1 and 3, returns and leaves the queue
empty with both counters 0: it does not hold its prior entry, and its
counters are not the sums 2 and 6. -/
theorem bufq_concat_moves_counterexample :
    is_tailq heap_two 0x100 [0x1000] ∧ heap_two.rkbq_cnt 0x100 = 1 ∧
    heap_two.rkbq_msg_cnt 0x100 = 3 ∧
    rd_kafka_bufq_concat heap_two 0x100 0x100 =
      .ok (heap_after [.init 0x100, .init 0x200, .enq 0x100 0x1000, .enq 0x200 0x3000,
        .enq 0x200 0x5000, .concat 0x100 0x100]) ∧
    is_tailq (heap_after [.init 0x100, .init 0x200, .enq 0x100 0x1000, .enq 0x200 0x3000,
      .enq 0x200 0x5000, .concat 0x100 0x100]) 0x100 [] ∧
    ¬ is_tailq (heap_after [.init 0x100, .init 0x200, .enq 0x100 0x1000, .enq 0x200 0x3000,
      .enq 0x200 0x5000, .concat 0x100 0x100]) 0x100 ([0x1000] ++ [0x1000]) ∧
    (heap_after [.init 0x100, .init 0x200, .enq 0x100 0x1000, .enq 0x200 0x3000,
      .enq 0x200 0x5000, .concat 0x100 0x100]).rkbq_cnt 0x100 = 0 ∧
    (heap_after [.init 0x100, .init 0x200, .enq 0x100 0x1000, .enq 0x200 0x3000,
      .enq 0x200 0x5000, .concat 0x100 0x100]).rkbq_msg_cnt 0x100 = 0 :=
  ⟨by decide, by decide, by decide, rfl, by decide, by decide, by decide, by decide⟩

/-- C6: for a buffer that is a member of the queue at any position (the
members before it are `l1`, those after it `l2`), `rd_kafka_bufq_deq` with a
positive `rkbq_cnt` removes that buffer and keeps the others in order,
decrements `rkbq_cnt` by 1 and `rkbq_msg_cnt` by the buffer's message-group
counter (a 32-bit subtraction: the plain difference when it fits in 32 bits),
and leaves every other queue as it was; with `rkbq_cnt` already zero (or
below) the call is fatal. -/
theorem bufq_deq_member (H : Heap) (q b : Ptr) (l1 l2 : List Ptr) (hq : q ≠ NULL)
    (hmem : is_tailq H q (l1 ++ b :: l2)) (hint : is_int32 (H.rkbq_cnt q)) :
    (0 < H.rkbq_cnt q → ∃ H', rd_kafka_bufq_deq H q b = .ok H' ∧
      is_tailq H' q (l1 ++ l2) ∧
      H'.rkbq_cnt q = H.rkbq_cnt q - 1 ∧
      H'.rkbq_msg_cnt q = rd_atomic32_sub (H.rkbq_msg_cnt q) (H.rkmq_msg_cnt b) ∧
      (is_int32 (H.rkbq_msg_cnt q - H.rkmq_msg_cnt b) →
        H'.rkbq_msg_cnt q = H.rkbq_msg_cnt q - H.rkmq_msg_cnt b) ∧
      ∀ q', q' ≠ q → H'.rkbq_cnt q' = H.rkbq_cnt q' ∧ H'.rkbq_msg_cnt q' = H.rkbq_msg_cnt q' ∧
        ∀ ys, is_tailq H q' ys → is_tailq H' q' ys) ∧
    (H.rkbq_cnt q ≤ 0 → rd_kafka_bufq_deq H q b = .error .assert_failed) := by
  have hm : b ∈ l1 ++ b :: l2 := by simp
  have hb : b ≠ NULL := is_tailq_ne_null H q _ hmem b hm
  have hp : H.tqe_prev b ≠ .null := by
    intro h0
    have hpm := tailq_seg_prev H _ _ _ hmem b hm
    rw [h0] at hpm
    rcases List.mem_cons.mp hpm with h1 | h1
    · cases h1
    · exact null_not_mem_next_cells _ h1
  constructor
  · intro hpos
    obtain ⟨H', h1, h2, h3, h4, _, h6⟩ := rd_kafka_bufq_deq_spec H q b l1 l2 hq hmem hpos
    refine ⟨H', h1, h2, by rw [h3, rd_atomic32_sub_one _ hint hpos], h4, ?_, h6⟩
    intro hr
    rw [h4]
    exact int_of_of_range _ hr.1 hr.2
  · intro hle
    exact rd_kafka_bufq_deq_assert H q b hq hb hp hle

/-- C6, witness: removing the middle buffer of a three-member queue. -/
theorem bufq_deq_member_witness :
    (0 < heap_abc.rkbq_cnt 0x100 → ∃ H', rd_kafka_bufq_deq heap_abc 0x100 0x3000 = .ok H' ∧
      is_tailq H' 0x100 ([0x1000] ++ [0x5000]) ∧
      H'.rkbq_cnt 0x100 = heap_abc.rkbq_cnt 0x100 - 1 ∧
      H'.rkbq_msg_cnt 0x100 =
        rd_atomic32_sub (heap_abc.rkbq_msg_cnt 0x100) (heap_abc.rkmq_msg_cnt 0x3000) ∧
      (is_int32 (heap_abc.rkbq_msg_cnt 0x100 - heap_abc.rkmq_msg_cnt 0x3000) →
        H'.rkbq_msg_cnt 0x100 = heap_abc.rkbq_msg_cnt 0x100 - heap_abc.rkmq_msg_cnt 0x3000) ∧
      ∀ q', q' ≠ 0x100 → H'.rkbq_cnt q' = heap_abc.rkbq_cnt q' ∧
        H'.rkbq_msg_cnt q' = heap_abc.rkbq_msg_cnt q' ∧
        ∀ ys, is_tailq heap_abc q' ys → is_tailq H' q' ys) ∧
    (heap_abc.rkbq_cnt 0x100 ≤ 0 →
      rd_kafka_bufq_deq heap_abc 0x100 0x3000 = .error .assert_failed) :=
  bufq_deq_member heap_abc 0x100 0x3000 [0x1000] [0x5000] (by decide) (by decide) (by decide)

theorem tailq_seg_next_eq (H : Heap) (b : Ptr) (l2 : List Ptr) (last : Cell) :
    ∀ (l1 : List Ptr) (c : Cell), tailq_seg H c (l1 ++ b :: l2) last →
      H.tqe_next b = l2.headD NULL := by
  intro l1
  induction l1 with
  | nil =>
    intro c h
    cases l2 with
    | nil => exact h.2.2.2.1
    | cons y l2 => exact h.2.2.2.1
  | cons x l1 ih =>
    intro c h
    exact ih _ h.2.2.2

/-- C7, amended: `rd_kafka_bufq_deq` does not test membership; with a buffer
that is not a member of the queue (as with any buffer) it works through the
links stored in that buffer. A buffer that was never linked (null `tqe_prev`,
so not a member of any well-linked queue) kills the process by
a store through the null pointer inside `TAILQ_REMOVE`, before the assertion.
A buffer with a `tqe_prev` link is fatal by the assertion exactly when
`rkbq_cnt` is not positive; with a positive `rkbq_cnt` the call returns,
having lowered `rkbq_cnt` by 1 and `rkbq_msg_cnt` by the buffer's
message-group counter. In particular, for a buffer that is linked in another
queue in front of another member, the call with a positive `rkbq_cnt` returns,
leaves the member list of this queue as it was, lowers this queue's two
counters, and unlinks the buffer from the other queue, whose counters stay. -/
theorem bufq_deq_non_member (H : Heap) (q b : Ptr) (xs : List Ptr) (hq : q ≠ NULL)
    (hb : b ≠ NULL) (hxs : is_tailq H q xs) :
    (H.tqe_prev b = .null → rd_kafka_bufq_deq H q b = .error .null_deref) ∧
    (H.tqe_prev b ≠ .null → H.rkbq_cnt q ≤ 0 →
      rd_kafka_bufq_deq H q b = .error .assert_failed) ∧
    (H.tqe_prev b ≠ .null → 0 < H.rkbq_cnt q →
      ∃ H', rd_kafka_bufq_deq H q b = .ok H' ∧
        H'.rkbq_cnt q = rd_atomic32_sub (H.rkbq_cnt q) 1 ∧
        H'.rkbq_msg_cnt q = rd_atomic32_sub (H.rkbq_msg_cnt q) (H.rkmq_msg_cnt b)) ∧
    (∀ (q2 : Ptr) (l1 : List Ptr) (y : Ptr) (l2 : List Ptr), q2 ≠ q →
      is_tailq H q2 (l1 ++ b :: y :: l2) → 0 < H.rkbq_cnt q →
      ∃ H', rd_kafka_bufq_deq H q b = .ok H' ∧
        is_tailq H' q xs ∧ is_tailq H' q2 (l1 ++ y :: l2) ∧
        H'.rkbq_cnt q = rd_atomic32_sub (H.rkbq_cnt q) 1 ∧
        H'.rkbq_msg_cnt q = rd_atomic32_sub (H.rkbq_msg_cnt q) (H.rkmq_msg_cnt b) ∧
        H'.rkbq_cnt q2 = H.rkbq_cnt q2 ∧ H'.rkbq_msg_cnt q2 = H.rkbq_msg_cnt q2) := by
  refine ⟨rd_kafka_bufq_deq_null_link H q b hq hb, rd_kafka_bufq_deq_assert H q b hq hb, ?_, ?_⟩
  · intro hp hpos
    exact ⟨_, rd_kafka_bufq_deq_ok H q b hq hb hp hpos, by simp [with_counters],
      by simp [with_counters]⟩
  · intro q2 l1 y l2 hq2 h2 hpos
    have hm : b ∈ l1 ++ b :: y :: l2 := by simp
    have hpm := tailq_seg_prev H _ _ _ h2 b hm
    have hp : H.tqe_prev b ≠ .null := by
      intro h0
      rw [h0] at hpm
      rcases List.mem_cons.mp hpm with h1 | h1
      · cases h1
      · exact null_not_mem_next_cells _ h1
    have hne : H.tqe_next b = y := tailq_seg_next_eq H b (y :: l2) _ l1 _ h2
    have hy : y ≠ NULL := is_tailq_ne_null H q2 _ h2 y (by simp)
    have hyn : H.tqe_next b ≠ NULL := by rw [hne]; exact hy
    obtain ⟨i1, i2, i3, _, _, _⟩ := after_remove_spec H q b hp
    have hdis := is_tailq_disjoint H q q2 xs _ (Ne.symm hq2) hxs h2
    refine ⟨_, rd_kafka_bufq_deq_ok H q b hq hb hp hpos, ?_, ?_, by simp [with_counters],
      by simp [with_counters], by simp [with_counters, hq2], by simp [with_counters, hq2]⟩
    · rw [is_tailq_with_counters]
      refine is_tailq_frame H _ q xs hxs ?_ ?_ (by rw [i3]; simp [hyn])
      · intro c' hc'
        rw [i1, if_neg]
        exact cells_separate q2 q _ xs (Ne.symm hq2) hdis _ _ hpm hc'
      · intro x hx
        rw [i2, if_neg]
        rintro ⟨_, hh⟩
        exact hdis x hx (by rw [hh, hne]; simp)
    · rw [is_tailq_with_counters]
      unfold is_tailq
      have := tailq_seg_remove H (after_remove H q b) b (y :: l2) _ i1 i2 l1 _ h2
        (tqh_first_not_mem_next_cells q2 _)
      rw [i3]
      simpa [hyn] using this

/-- C7, witness: the buffer at `0x3000` is linked in the queue at `0x200`,
in front of the buffer at `0x5000`, and is not a member of the queue at
`0x100`. -/
theorem bufq_deq_non_member_witness :
    (heap_two.tqe_prev 0x3000 = .null →
      rd_kafka_bufq_deq heap_two 0x100 0x3000 = .error .null_deref) ∧
    (heap_two.tqe_prev 0x3000 ≠ .null → heap_two.rkbq_cnt 0x100 ≤ 0 →
      rd_kafka_bufq_deq heap_two 0x100 0x3000 = .error .assert_failed) ∧
    (heap_two.tqe_prev 0x3000 ≠ .null → 0 < heap_two.rkbq_cnt 0x100 →
      ∃ H', rd_kafka_bufq_deq heap_two 0x100 0x3000 = .ok H' ∧
        H'.rkbq_cnt 0x100 = rd_atomic32_sub (heap_two.rkbq_cnt 0x100) 1 ∧
        H'.rkbq_msg_cnt 0x100 =
          rd_atomic32_sub (heap_two.rkbq_msg_cnt 0x100) (heap_two.rkmq_msg_cnt 0x3000)) ∧
    (∀ (q2 : Ptr) (l1 : List Ptr) (y : Ptr) (l2 : List Ptr), q2 ≠ 0x100 →
      is_tailq heap_two q2 (l1 ++ 0x3000 :: y :: l2) → 0 < heap_two.rkbq_cnt 0x100 →
      ∃ H', rd_kafka_bufq_deq heap_two 0x100 0x3000 = .ok H' ∧
        is_tailq H' 0x100 [0x1000] ∧ is_tailq H' q2 (l1 ++ y :: l2) ∧
        H'.rkbq_cnt 0x100 = rd_atomic32_sub (heap_two.rkbq_cnt 0x100) 1 ∧
        H'.rkbq_msg_cnt 0x100 =
          rd_atomic32_sub (heap_two.rkbq_msg_cnt 0x100) (heap_two.rkmq_msg_cnt 0x3000) ∧
        H'.rkbq_cnt q2 = heap_two.rkbq_cnt q2 ∧
        H'.rkbq_msg_cnt q2 = heap_two.rkbq_msg_cnt q2) :=
  bufq_deq_non_member heap_two 0x100 0x3000 [0x1000] (by decide) (by decide) (by decide)

/-- C7, counterexample: the buffer at `0x3000` is not a member of the queue
at `0x100`, which holds the buffer at `0x1000` with counters 1 and 3; it is
linked in the queue at `0x200`. `rd_kafka_bufq_deq` on the queue at `0x100`
returns instead of aborting and leaves that queue's counters at 0 and -2,
while the queue at `0x200` has lost the buffer and still counts 2. -/
theorem bufq_deq_non_member_counterexample :
    is_tailq heap_two 0x100 [0x1000] ∧ (0x3000 : Ptr) ∉ [(0x1000 : Ptr)] ∧
    is_tailq heap_two 0x200 [0x3000, 0x5000] ∧
    heap_two.rkbq_cnt 0x100 = 1 ∧ heap_two.rkbq_msg_cnt 0x100 = 3 ∧
    rd_kafka_bufq_deq heap_two 0x100 0x3000 =
      .ok (heap_after [.init 0x100, .init 0x200, .enq 0x100 0x1000, .enq 0x200 0x3000,
        .enq 0x200 0x5000, .deq 0x100 0x3000]) ∧
    (heap_after [.init 0x100, .init 0x200, .enq 0x100 0x1000, .enq 0x200 0x3000,
      .enq 0x200 0x5000, .deq 0x100 0x3000]).rkbq_cnt 0x100 = 0 ∧
    (heap_after [.init 0x100, .init 0x200, .enq 0x100 0x1000, .enq 0x200 0x3000,
      .enq 0x200 0x5000, .deq 0x100 0x3000]).rkbq_msg_cnt 0x100 = -2 ∧
    is_tailq (heap_after [.init 0x100, .init 0x200, .enq 0x100 0x1000, .enq 0x200 0x3000,
      .enq 0x200 0x5000, .deq 0x100 0x3000]) 0x100 [0x1000] ∧
    is_tailq (heap_after [.init 0x100, .init 0x200, .enq 0x100 0x1000, .enq 0x200 0x3000,
      .enq 0x200 0x5000, .deq 0x100 0x3000]) 0x200 [0x5000] ∧
    (heap_after [.init 0x100, .init 0x200, .enq 0x100 0x1000, .enq 0x200 0x3000,
      .enq 0x200 0x5000, .deq 0x100 0x3000]).rkbq_cnt 0x200 = 2 :=
  ⟨by decide, by decide, by decide, by decide, by decide, rfl, by decide, by decide, by decide,
    by decide, by decide⟩

/-! ## Buffer queues: the counter invariant -/

theorem msg_cnt_sum_congr (H H' : Heap) (h : H'.rkmq_msg_cnt = H.rkmq_msg_cnt) (xs : List Ptr) :
    msg_cnt_sum H' xs = msg_cnt_sum H xs := by
  unfold msg_cnt_sum
  rw [h]

theorem msg_cnt_sum_append (H : Heap) (xs ys : List Ptr) :
    msg_cnt_sum H (xs ++ ys) = msg_cnt_sum H xs + msg_cnt_sum H ys := by
  simp [msg_cnt_sum]

theorem msg_cnt_sum_cons (H : Heap) (x : Ptr) (xs : List Ptr) :
    msg_cnt_sum H (x :: xs) = H.rkmq_msg_cnt x + msg_cnt_sum H xs := by
  simp [msg_cnt_sum]

theorem bufq_init_all_ok (qs : List Ptr) (hqs : NULL ∉ qs) : ∀ (pre : List Ptr) (H : Heap),
    (∀ q ∈ pre, is_tailq H q [] ∧ H.rkbq_cnt q = 0 ∧ H.rkbq_msg_cnt q = 0) →
    ∃ Hi, bufq_init_all H qs = .ok Hi ∧ Hi.rkmq_msg_cnt = H.rkmq_msg_cnt ∧
      ∀ q, q ∈ pre ∨ q ∈ qs → is_tailq Hi q [] ∧ Hi.rkbq_cnt q = 0 ∧ Hi.rkbq_msg_cnt q = 0 := by
  induction qs with
  | nil =>
    intro pre H hpre
    exact ⟨H, rfl, rfl, fun q hq => hq.elim (hpre q) (fun h => by cases h)⟩
  | cons q0 qs ih =>
    intro pre H hpre
    have hq0 : q0 ≠ NULL := fun h => hqs (by simp [h])
    obtain ⟨H1, e1, t1, c1, m1, r1, f1⟩ := rd_kafka_bufq_init_spec H q0 hq0
    have hpre1 : ∀ q ∈ q0 :: pre,
        is_tailq H1 q [] ∧ H1.rkbq_cnt q = 0 ∧ H1.rkbq_msg_cnt q = 0 := by
      intro q hq
      by_cases hqq : q = q0
      · subst hqq; exact ⟨t1, c1, m1⟩
      · have hq' : q ∈ pre := by
          rcases List.mem_cons.mp hq with h | h
          · exact absurd h hqq
          · exact h
        obtain ⟨a, b, c⟩ := hpre q hq'
        obtain ⟨fa, fb, fc⟩ := f1 q hqq
        exact ⟨fc _ a, by rw [fa, b], by rw [fb, c]⟩
    obtain ⟨Hi, e2, r2, h2⟩ := ih (fun h => hqs (List.mem_cons_of_mem _ h)) (q0 :: pre) H1 hpre1
    refine ⟨Hi, by simp only [bufq_init_all, e1, e2], by rw [r2, r1], ?_⟩
    intro q hq
    apply h2
    rcases hq with h | h
    · left; exact List.mem_cons_of_mem _ h
    · rcases List.mem_cons.mp h with h | h
      · left; rw [h]; exact List.mem_cons_self _ _
      · right; exact h

theorem int_of_zero : int_of 0 = 0 := by decide

/-- One legal operation returns and keeps the invariant of the queues. -/
theorem bufq_step_ok (qs : List Ptr) (hqs : NULL ∉ qs) (H : Heap) (L : Ptr → List Ptr)
    (op : bufq_op) (hok : bufq_ok qs H L) (hleg : op_legal qs L op) :
    ∃ H', bufq_step H op = .ok H' ∧ bufq_ok qs H' (members_step L op) := by
  have hnn : ∀ q ∈ qs, q ≠ NULL := fun q hq h => hqs (h ▸ hq)
  cases op with
  | init q =>
    have hq : q ∈ qs := hleg
    obtain ⟨H', e1, t1, c1, m1, r1, f1⟩ := rd_kafka_bufq_init_spec H q (hnn q hq)
    refine ⟨H', e1, ?_⟩
    intro q0 hq0
    by_cases hqq : q0 = q
    · subst hqq
      simp only [members_step, Function.update_same, List.length_nil, Nat.cast_zero, int_of_zero,
        msg_cnt_sum, List.map_nil, List.sum_nil]
      exact ⟨t1, c1, m1⟩
    · obtain ⟨a, b, c⟩ := hok q0 hq0
      obtain ⟨fa, fb, fc⟩ := f1 q0 hqq
      simp only [members_step, Function.update_noteq hqq]
      exact ⟨fc _ a, by rw [fa, b], by rw [fb, c, msg_cnt_sum_congr H H' r1]⟩
  | enq q e =>
    obtain ⟨hq, he, hfree⟩ := hleg
    obtain ⟨a, b, c⟩ := hok q hq
    obtain ⟨H', e1, t1, c1, m1, r1, f1⟩ :=
      rd_kafka_bufq_enq_spec H q e (L q) (hnn q hq) he a (hfree q hq)
    refine ⟨H', e1, ?_⟩
    intro q0 hq0
    by_cases hqq : q0 = q
    · subst hqq
      simp only [members_step, Function.update_same]
      refine ⟨t1, ?_, ?_⟩
      · rw [c1, b, rd_atomic32_add, int_of_add_int_of]
        congr 1
        simp
      · rw [m1, c, rd_atomic32_add, int_of_add_int_of, msg_cnt_sum_congr H H' r1,
          msg_cnt_sum_append, msg_cnt_sum_cons]
        simp [msg_cnt_sum]
    · obtain ⟨a0, b0, c0⟩ := hok q0 hq0
      obtain ⟨fa, fb, fc⟩ := f1 q0 hqq
      simp only [members_step, Function.update_noteq hqq]
      exact ⟨fc _ a0 (hfree q0 hq0), by rw [fa, b0], by rw [fb, c0, msg_cnt_sum_congr H H' r1]⟩
  | deq q e =>
    obtain ⟨hq, hmem, hlen⟩ := hleg
    obtain ⟨a, b, c⟩ := hok q hq
    obtain ⟨l1, l2, hsplit⟩ := List.append_of_mem hmem
    have hnd := is_tailq_nodup H q (L q) a
    rw [hsplit] at hnd a
    have hel1 : e ∉ l1 := by
      intro h
      have := List.nodup_append.mp hnd
      exact this.2.2 h (List.mem_cons_self _ _) 
    have herase : (L q).erase e = l1 ++ l2 := by
      rw [hsplit, List.erase_append_right _ hel1, List.erase_cons_head]
    have hlen' : ((L q).length : Int) = (l1.length : Int) + 1 + l2.length := by
      rw [hsplit]; simp; ring
    have hcnt : H.rkbq_cnt q = (L q).length := by
      rw [b]
      exact int_of_of_range _ (by omega) (by exact_mod_cast hlen)
    obtain ⟨H', e1, t1, c1, m1, r1, f1⟩ :=
      rd_kafka_bufq_deq_spec H q e l1 l2 (hnn q hq) a (by rw [hcnt, hlen']; omega)
    refine ⟨H', e1, ?_⟩
    intro q0 hq0
    by_cases hqq : q0 = q
    · subst hqq
      simp only [members_step, Function.update_same, herase]
      refine ⟨t1, ?_, ?_⟩
      · rw [c1, b, rd_atomic32_sub, int_of_int_of_sub, hlen']
        congr 1
        simp only [List.length_append, Nat.cast_add]
        ring
      · rw [m1, c, rd_atomic32_sub, int_of_int_of_sub, msg_cnt_sum_congr H H' r1, hsplit,
          msg_cnt_sum_append, msg_cnt_sum_append, msg_cnt_sum_cons]
        congr 1
        ring
    · obtain ⟨a0, b0, c0⟩ := hok q0 hq0
      obtain ⟨fa, fb, fc⟩ := f1 q0 hqq
      simp only [members_step, Function.update_noteq hqq]
      exact ⟨fc _ a0, by rw [fa, b0], by rw [fb, c0, msg_cnt_sum_congr H H' r1]⟩
  | concat d s =>
    obtain ⟨hd, hs⟩ := hleg
    obtain ⟨ad, bd, cd⟩ := hok d hd
    obtain ⟨as, bs, cs⟩ := hok s hs
    obtain ⟨l1, l2, l3, l4⟩ := rd_kafka_bufq_concat_links H d s (L d) (L s) ad as
    refine ⟨_, rd_kafka_bufq_concat_ok H d s (hnn d hd) (hnn s hs)
      (is_tailq_last_ne_null H d _ ad), ?_⟩
    intro q0 hq0
    by_cases hq0s : q0 = s
    · subst hq0s
      simp only [members_step, Function.update_same, is_tailq_with_counters, List.length_nil,
        Nat.cast_zero, int_of_zero, msg_cnt_sum, List.map_nil, List.sum_nil]
      exact ⟨l1, by simp [with_counters], by simp [with_counters]⟩
    · by_cases hq0d : q0 = d
      · subst hq0d
        simp only [members_step, Function.update_noteq hq0s, Function.update_same,
          is_tailq_with_counters]
        refine ⟨l2 hq0s, ?_, ?_⟩
        · simp only [with_counters, Function.update_noteq hq0s, Function.update_same, bd, bs,
            rd_atomic32_add, int_of_add_int_of, int_of_add_int_of_right]
          congr 1
          simp
        · have hr : msg_cnt_sum (with_counters
              (after_tailq_init (if H.tqh_first s ≠ NULL then after_concat H q0 s else H) s)
              (Function.update (Function.update H.rkbq_cnt q0
                (rd_atomic32_add (H.rkbq_cnt q0) (H.rkbq_cnt s))) s 0)
              (Function.update (Function.update H.rkbq_msg_cnt q0
                (rd_atomic32_add (H.rkbq_msg_cnt q0) (H.rkbq_msg_cnt s))) s 0))
              (L q0 ++ L s) = msg_cnt_sum H (L q0 ++ L s) :=
            msg_cnt_sum_congr H _ l3 _
          rw [hr]
          simp only [with_counters, Function.update_noteq hq0s, Function.update_same, cd, cs,
            rd_atomic32_add, int_of_add_int_of, int_of_add_int_of_right, msg_cnt_sum_append]
      · obtain ⟨a0, b0, c0⟩ := hok q0 hq0
        simp only [members_step, Function.update_noteq hq0s, Function.update_noteq hq0d,
          is_tailq_with_counters]
        refine ⟨l4 q0 _ hq0d hq0s a0, ?_, ?_⟩
        · simp only [with_counters, Function.update_noteq hq0s, Function.update_noteq hq0d, b0]
        · have hr : msg_cnt_sum (with_counters
              (after_tailq_init (if H.tqh_first s ≠ NULL then after_concat H d s else H) s)
              (Function.update (Function.update H.rkbq_cnt d
                (rd_atomic32_add (H.rkbq_cnt d) (H.rkbq_cnt s))) s 0)
              (Function.update (Function.update H.rkbq_msg_cnt d
                (rd_atomic32_add (H.rkbq_msg_cnt d) (H.rkbq_msg_cnt s))) s 0))
              (L q0) = msg_cnt_sum H (L q0) :=
            msg_cnt_sum_congr H _ l3 _
          rw [hr]
          simp only [with_counters, Function.update_noteq hq0s, Function.update_noteq hq0d, c0]

/-- A legal sequence of operations returns and keeps the invariant of the
queues. -/
theorem bufq_run_ok (qs : List Ptr) (hqs : NULL ∉ qs) (ops : List bufq_op) :
    ∀ (H : Heap) (L : Ptr → List Ptr), bufq_ok qs H L → ops_legal qs L ops →
    ∃ H', bufq_run H ops = .ok H' ∧ bufq_ok qs H' (members_run L ops) := by
  induction ops with
  | nil => intro H L hok _; exact ⟨H, rfl, hok⟩
  | cons op ops ih =>
    intro H L hok hleg
    obtain ⟨H1, e1, hok1⟩ := bufq_step_ok qs hqs H L op hok hleg.1
    obtain ⟨H2, e2, hok2⟩ := ih H1 _ hok1 hleg.2
    exact ⟨H2, by simp only [bufq_run, e1, e2], hok2⟩

/-- C4, amended: starting from queues initialised by `rd_kafka_bufq_init`,
any sequence of `rd_kafka_bufq_init`, `rd_kafka_bufq_enq` (of a buffer, not
null, that is not linked in any of the queues at the time),
`rd_kafka_bufq_deq` (of a buffer that is a member of the queue named at the
time) and `rd_kafka_bufq_concat` runs to its end, and afterwards every queue
is well linked over its members, `rkbq_cnt` is the number of members and
`rkbq_msg_cnt` the sum of the members' message-group counters, both as
32-bit values: they are that number and that sum whenever these fit in 32
bits. -/
theorem bufq_counters_invariant (H0 : Heap) (qs : List Ptr) (ops : List bufq_op)
    (hqs : NULL ∉ qs) (hleg : ops_legal qs (fun _ => []) ops) :
    ∃ Hi H, bufq_init_all H0 qs = .ok Hi ∧ bufq_run Hi ops = .ok H ∧
      ∀ q ∈ qs, is_tailq H q (members_run (fun _ => []) ops q) ∧
        H.rkbq_cnt q = int_of (members_run (fun _ => []) ops q).length ∧
        H.rkbq_msg_cnt q = int_of (msg_cnt_sum H (members_run (fun _ => []) ops q)) ∧
        ((members_run (fun _ => []) ops q).length < 2 ^ 31 →
          H.rkbq_cnt q = (members_run (fun _ => []) ops q).length) ∧
        (is_int32 (msg_cnt_sum H (members_run (fun _ => []) ops q)) →
          H.rkbq_msg_cnt q = msg_cnt_sum H (members_run (fun _ => []) ops q)) := by
  obtain ⟨Hi, e1, _, h1⟩ := bufq_init_all_ok qs hqs [] H0 (fun q hq => by cases hq)
  have hok : bufq_ok qs Hi (fun _ => []) := by
    intro q hq
    obtain ⟨a, b, c⟩ := h1 q (Or.inr hq)
    refine ⟨a, ?_, ?_⟩
    · rw [b]
      simp only [List.length_nil, Nat.cast_zero, int_of_zero]
    · rw [c]
      simp only [msg_cnt_sum, List.map_nil, List.sum_nil, int_of_zero]
  obtain ⟨H, e2, hok2⟩ := bufq_run_ok qs hqs ops Hi _ hok hleg
  refine ⟨Hi, H, e1, e2, ?_⟩
  intro q hq
  obtain ⟨a, b, c⟩ := hok2 q hq
  refine ⟨a, b, c, ?_, ?_⟩
  · intro hl
    rw [b]
    exact int_of_of_range _ (by omega) (by exact_mod_cast hl)
  · intro hr
    rw [c]
    exact int_of_of_range _ hr.1 hr.2

/-- C4, witness: the run `sample_ops` on the queues at `0x100` and
`0x200`. -/
theorem bufq_counters_invariant_witness :
    ∃ Hi H, bufq_init_all heap_zero [0x100, 0x200] = .ok Hi ∧ bufq_run Hi sample_ops = .ok H ∧
      ∀ q ∈ [(0x100 : Ptr), 0x200], is_tailq H q (members_run (fun _ => []) sample_ops q) ∧
        H.rkbq_cnt q = int_of (members_run (fun _ => []) sample_ops q).length ∧
        H.rkbq_msg_cnt q = int_of (msg_cnt_sum H (members_run (fun _ => []) sample_ops q)) ∧
        ((members_run (fun _ => []) sample_ops q).length < 2 ^ 31 →
          H.rkbq_cnt q = (members_run (fun _ => []) sample_ops q).length) ∧
        (is_int32 (msg_cnt_sum H (members_run (fun _ => []) sample_ops q)) →
          H.rkbq_msg_cnt q = msg_cnt_sum H (members_run (fun _ => []) sample_ops q)) :=
  bufq_counters_invariant heap_zero [0x100, 0x200] sample_ops (by decide) (by
    simp only [sample_ops, ops_legal, op_legal, members_step, and_true]
    decide)

/-- C4, counterexample: two buffers with `INT32_MAX` messages each, enqueued
on an initialised queue, are its two members while `rkbq_msg_cnt` has wrapped
to -2 and is not their sum 4294967294. And a buffer enqueued twice is linked
to itself: the queue holds one buffer in a cycle while `rkbq_cnt` is 2. -/
theorem bufq_counters_invariant_counterexample :
    bufq_run heap_zero [.init 0x100, .enq 0x100 0xc000, .enq 0x100 0xd000] =
      .ok (heap_after [.init 0x100, .enq 0x100 0xc000, .enq 0x100 0xd000]) ∧
    is_tailq (heap_after [.init 0x100, .enq 0x100 0xc000, .enq 0x100 0xd000]) 0x100
      [0xc000, 0xd000] ∧
    msg_cnt_sum (heap_after [.init 0x100, .enq 0x100 0xc000, .enq 0x100 0xd000])
      [0xc000, 0xd000] = 4294967294 ∧
    (heap_after [.init 0x100, .enq 0x100 0xc000, .enq 0x100 0xd000]).rkbq_msg_cnt 0x100 = -2 ∧
    bufq_run heap_zero [.init 0x100, .enq 0x100 0x1000, .enq 0x100 0x1000] =
      .ok (heap_after [.init 0x100, .enq 0x100 0x1000, .enq 0x100 0x1000]) ∧
    (heap_after [.init 0x100, .enq 0x100 0x1000, .enq 0x100 0x1000]).tqh_first 0x100 = 0x1000 ∧
    (heap_after [.init 0x100, .enq 0x100 0x1000, .enq 0x100 0x1000]).tqe_next 0x1000 = 0x1000 ∧
    (heap_after [.init 0x100, .enq 0x100 0x1000, .enq 0x100 0x1000]).rkbq_cnt 0x100 = 2 ∧
    ¬ is_tailq (heap_after [.init 0x100, .enq 0x100 0x1000, .enq 0x100 0x1000]) 0x100
      [0x1000, 0x1000] :=
  ⟨rfl, by decide, by decide, by decide, rfl, by decide, by decide, by decide, by decide⟩

/-! ## Reference counting -/

theorem rd_kafka_buf_new_refcnt (E : Env) (rkbuf : Ptr) (iovcnt : Int) (size : Nat)
    (b : rd_kafka_buf_t) (h : rd_kafka_buf_new E rkbuf iovcnt size = .ok b) :
    b.rkbuf_refcnt = 1 ∧ b.rkbuf = rkbuf := by
  unfold rd_kafka_buf_new at h
  simp only [] at h
  split at h
  · cases h
  · injection h with h
    subst h
    exact ⟨rfl, rfl⟩

theorem constructed_refcnt (E : Env) (b : rd_kafka_buf_t) (h : constructed E b) :
    b.rkbuf_refcnt = 1 := by
  rcases h with ⟨rkbuf, iovcnt, size, h⟩ | ⟨rkbuf, buf, iovcnt, init_size, h⟩ | ⟨rkbuf, ptr, size, h⟩
  · exact (rd_kafka_buf_new_refcnt E rkbuf iovcnt size b h).1
  · unfold rd_kafka_buf_new_growable at h
    split at h
    · cases h
    · rename_i b0 hb0
      injection h with h
      subst h
      exact (rd_kafka_buf_new_refcnt E rkbuf iovcnt 0 b0 hb0).1
  · subst h; rfl

theorem keep_times_eq (k : Nat) : ∀ b : rd_kafka_buf_t, is_int32 b.rkbuf_refcnt →
    keep_times k b = { b with rkbuf_refcnt := int_of (b.rkbuf_refcnt + k) } := by
  induction k with
  | zero =>
    intro b hb
    simp only [keep_times, Nat.cast_zero, add_zero, int_of_of_range _ hb.1 hb.2]
  | succ k ih =>
    intro b _
    simp only [keep_times]
    rw [ih _ (int_of_range _)]
    simp only [rd_kafka_buf_keep, rd_atomic32_add, int_of_add_int_of]
    congr 2
    push_cast; ring

theorem destroy_positive (b : rd_kafka_buf_t) (h : 0 < rd_atomic32_sub b.rkbuf_refcnt 1) :
    rd_kafka_buf_destroy b =
      ({ b with rkbuf_refcnt := rd_atomic32_sub b.rkbuf_refcnt 1 }, []) := by
  simp only [rd_kafka_buf_destroy, gt_iff_lt, h, if_true]

theorem destroy_last (b : rd_kafka_buf_t) (h : rd_atomic32_sub b.rkbuf_refcnt 1 ≤ 0) :
    (rd_kafka_buf_destroy b).1 = { b with rkbuf_refcnt := rd_atomic32_sub b.rkbuf_refcnt 1 } ∧
    (rd_kafka_buf_destroy b).2 =
      (if b.rkbuf_buf2 ≠ NULL then [Release.rd_free b.rkbuf_buf2] else []) ++
      (if b.rkbuf_flags.RD_KAFKA_OP_F_FREE = true ∧ b.rkbuf_buf ≠ NULL then
        [Release.rd_free b.rkbuf_buf] else []) ++
      (if b.rkbuf_rkb ≠ NULL then [Release.rd_kafka_broker_destroy b.rkbuf_rkb] else []) ++
      [Release.rd_free b.rkbuf] := by
  simp only [rd_kafka_buf_destroy, gt_iff_lt, not_lt.mpr h, if_false, and_self]

theorem destroy_times_positive (j : Nat) : ∀ b : rd_kafka_buf_t, (j : Int) < b.rkbuf_refcnt →
    b.rkbuf_refcnt < 2 ^ 31 →
    destroy_times j b =
      ({ b with rkbuf_refcnt := b.rkbuf_refcnt - j }, List.replicate j []) := by
  induction j with
  | zero => intro b _ _; simp [destroy_times]
  | succ j ih =>
    intro b h hr
    have hs : rd_atomic32_sub b.rkbuf_refcnt 1 = b.rkbuf_refcnt - 1 :=
      int_of_of_range _ (by push_cast at h; omega) (by omega)
    have h1 : 0 < rd_atomic32_sub b.rkbuf_refcnt 1 := by rw [hs]; push_cast at h; omega
    simp only [destroy_times, destroy_positive b h1, hs]
    rw [ih _ (by simp only []; push_cast at h; omega) (by simp only []; omega)]
    simp only [List.replicate_succ]
    congr 2
    push_cast; ring

theorem destroy_times_succ (j : Nat) : ∀ b : rd_kafka_buf_t,
    destroy_times (j + 1) b =
      ((rd_kafka_buf_destroy (destroy_times j b).1).1,
        (destroy_times j b).2 ++ [(rd_kafka_buf_destroy (destroy_times j b).1).2]) := by
  induction j with
  | zero => intro b; simp [destroy_times]
  | succ j ih =>
    intro b
    have h := ih (rd_kafka_buf_destroy b).1
    simp only [destroy_times, Prod.mk.injEq] at h ⊢
    exact ⟨h.1, by rw [h.2]; rfl⟩

/-- C8, amended: a buffer returned by any of the three constructors has
reference count 1, and after `k` additional `rd_kafka_buf_keep`, for `k + 1`
within the 32-bit counter (`k + 1 ≤ INT32_MAX`), each of the first `k` calls
of `rd_kafka_buf_destroy` releases nothing (after `j ≤ k` of them the count
is `k + 1 - j`), while the `(k + 1)`-th call performs the destruction: it is
the only one with releases, and they end with the buffer's own storage. -/
theorem refcount_destroy_after_keeps (E : Env) (b : rd_kafka_buf_t) (k : Nat)
    (hb : constructed E b) (hk : (k : Int) + 1 < 2 ^ 31) :
    b.rkbuf_refcnt = 1 ∧
    (∀ j, j ≤ k →
      (destroy_times j (keep_times k b)).2 = List.replicate j [] ∧
      (destroy_times j (keep_times k b)).1.rkbuf_refcnt = k + 1 - j) ∧
    ∃ rel, (destroy_times (k + 1) (keep_times k b)).2 = List.replicate k [] ++ [rel] ∧
      rel ≠ [] ∧ Release.rd_free b.rkbuf ∈ rel := by
  have h1 := constructed_refcnt E b hb
  have hi : is_int32 b.rkbuf_refcnt := by rw [h1]; unfold is_int32; omega
  have hkeep : keep_times k b = { b with rkbuf_refcnt := (k : Int) + 1 } := by
    rw [keep_times_eq k b hi, h1, int_of_of_range _ (by omega) (by omega)]
    congr 1
    ring
  rw [hkeep]
  have hpos : ∀ j : Nat, j ≤ k →
      destroy_times j { b with rkbuf_refcnt := (k : Int) + 1 } =
        ({ b with rkbuf_refcnt := (k : Int) + 1 - j }, List.replicate j []) := by
    intro j hj
    have hlt : (j : Int) < ({ b with rkbuf_refcnt := (k : Int) + 1 } : rd_kafka_buf_t).rkbuf_refcnt := by
      show (j : Int) < (k : Int) + 1
      omega
    exact destroy_times_positive j _ hlt hk
  refine ⟨h1, ?_, ?_⟩
  · intro j hj
    rw [hpos j hj]
    exact ⟨rfl, rfl⟩
  · rw [destroy_times_succ, hpos k (le_refl k)]
    have hl : rd_atomic32_sub ((k : Int) + 1 - k) 1 ≤ 0 := by
      have : (k : Int) + 1 - k - 1 = 0 := by ring
      unfold rd_atomic32_sub
      rw [this]
      decide
    have hd := (destroy_last { b with rkbuf_refcnt := (k : Int) + 1 - k } hl).2
    refine ⟨_, rfl, ?_, ?_⟩
    · rw [hd]
      simp
    · rw [hd]
      simp

/-- C8, witness: a fresh `rd_kafka_buf_new(4, 64)` buffer with two additional
references. -/
theorem refcount_destroy_after_keeps_witness :
    fresh_buf.rkbuf_refcnt = 1 ∧
    (∀ j, j ≤ 2 →
      (destroy_times j (keep_times 2 fresh_buf)).2 = List.replicate j [] ∧
      (destroy_times j (keep_times 2 fresh_buf)).1.rkbuf_refcnt = (2 : Nat) + 1 - j) ∧
    ∃ rel, (destroy_times (2 + 1) (keep_times 2 fresh_buf)).2 = List.replicate 2 [] ++ [rel] ∧
      rel ≠ [] ∧ Release.rd_free fresh_buf.rkbuf ∈ rel :=
  refcount_destroy_after_keeps lp64 fresh_buf 2 (Or.inl ⟨0x1000, 4, 64, rfl⟩) (by decide)

/-- C8, counterexample: after `2 ^ 31` additional references the 32-bit count
of a fresh `rd_kafka_buf_new(4, 64)` buffer has wrapped to `-2 ^ 31 + 1`, and
the first `rd_kafka_buf_destroy` already performs the destruction. -/
theorem refcount_destroy_after_keeps_counterexample :
    fresh_buf.rkbuf_refcnt = 1 ∧
    (keep_times (2 ^ 31) fresh_buf).rkbuf_refcnt = -(2 ^ 31) + 1 ∧
    (rd_kafka_buf_destroy (keep_times (2 ^ 31) fresh_buf)).1.rkbuf_refcnt = -(2 ^ 31) ∧
    (rd_kafka_buf_destroy (keep_times (2 ^ 31) fresh_buf)).2 = [Release.rd_free 0x1000] := by
  have h := keep_times_eq (2 ^ 31) fresh_buf (by decide)
  have hc : int_of (fresh_buf.rkbuf_refcnt + ((2 ^ 31 : Nat) : Int)) = -(2 ^ 31) + 1 := by decide
  rw [hc] at h
  rw [h]
  refine ⟨by decide, rfl, by decide, by decide⟩

/-- C9, amended: `rd_kafka_buf_destroy` releases resources if and only if
the 32-bit decrement leaves the count at zero or below (the test it makes is
`> 0`), that is, if and only if the count at entry is at most 1 and is not
`INT32_MIN`. For a count above 1 nothing is released and the buffer is
untouched apart from the count, which is one lower. The count alone does not
stop a further release: a call that finds it at 0 or below, and above
`INT32_MIN`, takes it one lower and releases again. At `INT32_MIN` the
decrement wraps to `INT32_MAX` and nothing is released. -/
theorem destroy_releases_iff (b : rd_kafka_buf_t) (hc : is_int32 b.rkbuf_refcnt) :
    ((rd_kafka_buf_destroy b).2 ≠ [] ↔ rd_atomic32_sub b.rkbuf_refcnt 1 ≤ 0) ∧
    ((rd_kafka_buf_destroy b).2 ≠ [] ↔ (-(2 ^ 31) < b.rkbuf_refcnt ∧ b.rkbuf_refcnt ≤ 1)) ∧
    (1 < b.rkbuf_refcnt →
      rd_kafka_buf_destroy b = ({ b with rkbuf_refcnt := b.rkbuf_refcnt - 1 }, [])) ∧
    (-(2 ^ 31) < b.rkbuf_refcnt →
      (rd_kafka_buf_destroy b).1 = { b with rkbuf_refcnt := b.rkbuf_refcnt - 1 }) ∧
    (-(2 ^ 31) < b.rkbuf_refcnt → b.rkbuf_refcnt ≤ 0 →
      Release.rd_free b.rkbuf ∈ (rd_kafka_buf_destroy b).2) ∧
    (b.rkbuf_refcnt = -(2 ^ 31) →
      rd_kafka_buf_destroy b = ({ b with rkbuf_refcnt := 2 ^ 31 - 1 }, [])) := by
  obtain ⟨hlo, hhi⟩ := hc
  have hsub : -(2 ^ 31) < b.rkbuf_refcnt →
      rd_atomic32_sub b.rkbuf_refcnt 1 = b.rkbuf_refcnt - 1 :=
    fun h => int_of_of_range _ (by omega) (by omega)
  have hmin : b.rkbuf_refcnt = -(2 ^ 31) → rd_atomic32_sub b.rkbuf_refcnt 1 = 2 ^ 31 - 1 := by
    intro h
    rw [h]
    decide
  have hrel : (rd_kafka_buf_destroy b).2 ≠ [] ↔ rd_atomic32_sub b.rkbuf_refcnt 1 ≤ 0 := by
    by_cases h : 0 < rd_atomic32_sub b.rkbuf_refcnt 1
    · rw [destroy_positive b h]
      simp only [ne_eq, not_true_eq_false, false_iff]
      omega
    · rw [(destroy_last b (by omega)).2]
      simp only [ne_eq, List.append_eq_nil, List.cons_ne_self, and_false, not_false_eq_true,
        true_iff]
      omega
  refine ⟨hrel, ?_, ?_, ?_, ?_, ?_⟩
  · rw [hrel]
    by_cases h : b.rkbuf_refcnt = -(2 ^ 31)
    · rw [hmin h]
      constructor
      · intro h'; norm_num at h'
      · intro h'; omega
    · rw [hsub (by omega)]
      constructor
      · intro h'; exact ⟨by omega, by omega⟩
      · intro h'; omega
  · intro h
    have := destroy_positive b (by rw [hsub (by omega)]; omega)
    rw [hsub (by omega)] at this
    exact this
  · intro h
    by_cases h' : 0 < rd_atomic32_sub b.rkbuf_refcnt 1
    · rw [destroy_positive b h', hsub h]
    · rw [(destroy_last b (by omega)).1, hsub h]
  · intro h h0
    rw [(destroy_last b (by rw [hsub h]; omega)).2]
    simp
  · intro h
    have := destroy_positive b (by rw [hmin h]; norm_num)
    rw [hmin h] at this
    exact this

/-- C9, witness: the released buffer, whose count is 0. -/
theorem destroy_releases_iff_witness :
    ((rd_kafka_buf_destroy released_buf).2 ≠ [] ↔
      rd_atomic32_sub released_buf.rkbuf_refcnt 1 ≤ 0) ∧
    ((rd_kafka_buf_destroy released_buf).2 ≠ [] ↔
      (-(2 ^ 31) < released_buf.rkbuf_refcnt ∧ released_buf.rkbuf_refcnt ≤ 1)) ∧
    (1 < released_buf.rkbuf_refcnt →
      rd_kafka_buf_destroy released_buf =
        ({ released_buf with rkbuf_refcnt := released_buf.rkbuf_refcnt - 1 }, [])) ∧
    (-(2 ^ 31) < released_buf.rkbuf_refcnt →
      (rd_kafka_buf_destroy released_buf).1 =
        { released_buf with rkbuf_refcnt := released_buf.rkbuf_refcnt - 1 }) ∧
    (-(2 ^ 31) < released_buf.rkbuf_refcnt → released_buf.rkbuf_refcnt ≤ 0 →
      Release.rd_free released_buf.rkbuf ∈ (rd_kafka_buf_destroy released_buf).2) ∧
    (released_buf.rkbuf_refcnt = -(2 ^ 31) →
      rd_kafka_buf_destroy released_buf =
        ({ released_buf with rkbuf_refcnt := 2 ^ 31 - 1 }, [])) :=
  destroy_releases_iff released_buf (by decide)

/-- C9, counterexample: after the last release of `fresh_buf` the count is 0;
one more `rd_kafka_buf_destroy` takes it to -1, which is not zero, and
releases the buffer's storage a second time. -/
theorem destroy_releases_iff_counterexample :
    fresh_buf.rkbuf_refcnt = 1 ∧ released_buf.rkbuf_refcnt = 0 ∧
    (rd_kafka_buf_destroy fresh_buf).2 = [Release.rd_free 0x1000] ∧
    (rd_kafka_buf_destroy released_buf).1.rkbuf_refcnt = -1 ∧
    (rd_kafka_buf_destroy released_buf).2 = [Release.rd_free 0x1000] := by
  refine ⟨?_, ?_, ?_, ?_, ?_⟩ <;> decide

/-- C10, amended: the buffer `rd_kafka_buf_new_shadow(ptr, size)` returns has
logical length and write cursor `size`, no owns-memory flag, no primary
region, one reference, and holds `ptr` as its auxiliary region
`rkbuf_buf2`; when its last reference is released `rd_kafka_buf_destroy`
releases `ptr` (when it is not null) and then the buffer's own storage, and
nothing else. -/
theorem shadow_destroy (rkbuf ptr : Ptr) (size : Nat) :
    (rd_kafka_buf_new_shadow rkbuf ptr size).rkbuf_len = size ∧
    (rd_kafka_buf_new_shadow rkbuf ptr size).rkbuf_wof = size ∧
    (rd_kafka_buf_new_shadow rkbuf ptr size).rkbuf_flags.RD_KAFKA_OP_F_FREE = false ∧
    (rd_kafka_buf_new_shadow rkbuf ptr size).rkbuf_buf = NULL ∧
    (rd_kafka_buf_new_shadow rkbuf ptr size).rkbuf_buf2 = ptr ∧
    (rd_kafka_buf_new_shadow rkbuf ptr size).rkbuf_refcnt = 1 ∧
    (rd_kafka_buf_destroy (rd_kafka_buf_new_shadow rkbuf ptr size)).2 =
      (if ptr ≠ NULL then [Release.rd_free ptr] else []) ++ [Release.rd_free rkbuf] := by
  have h01 : rd_atomic32_sub (rd_atomic32_add 0 1) 1 = 0 := by decide
  refine ⟨rfl, rfl, rfl, rfl, rfl, rfl, ?_⟩
  simp [rd_kafka_buf_destroy, rd_kafka_buf_new_shadow, rd_kafka_buf_keep, zeroed, NULL, h01]

/-- C10, counterexample: releasing the only reference of a shadow buffer over
the region at `0x8000` frees that region before the buffer's own storage. -/
theorem shadow_destroy_counterexample :
    shadow_buf.rkbuf_refcnt = 1 ∧
    (rd_kafka_buf_destroy shadow_buf).2 = [Release.rd_free 0x8000, Release.rd_free 0x1000] ∧
    Release.rd_free 0x8000 ∈ (rd_kafka_buf_destroy shadow_buf).2 ∧
    (rd_kafka_buf_destroy shadow_buf).2 ≠ [Release.rd_free 0x1000] := by
  refine ⟨?_, ?_, ?_, ?_⟩ <;> decide

/-! ## Segment stack -/

theorem getElem?_set_other {α : Type} (l : List α) (n i : Nat) (a : α) (h : i ≠ n) :
    (l.set n a)[i]? = l[i]? := by
  rw [List.getElem?_set]
  simp [Ne.symm h]

theorem getElem?_set_same {α : Type} (l : List α) (n : Nat) (a : α) (h : n < l.length) :
    (l.set n a)[n]? = some a := by
  rw [List.getElem?_set]
  simp [h]

/-- C14: for every buffer whose live segment count is below its capacity,
`rd_kafka_buf_push0` stores the segment `(buf, len)` in the slot at the old
count, raises the count by one, leaves every other slot as it was, and
replaces the checksum accumulator by `rd_crc32_update` of the old value over
the `len` bytes at `buf` exactly when `allow_crc_calc` is non-zero and the
checksum flag is set; when the count equals the capacity the call is
fatal. -/
theorem push0_slot_and_crc (E : Env) (b : rd_kafka_buf_t) (buf : cbuf) (len : Nat)
    (allow_crc_calc : Int) (hslots : (b.rkbuf_iov.length : Int) = b.rkbuf_iovcnt)
    (hint : b.rkbuf_iovcnt < 2 ^ 31) :
    ((b.msg_iovlen : Int) < b.rkbuf_iovcnt →
      ∃ b', rd_kafka_buf_push0 E b buf len allow_crc_calc = .ok b' ∧
        b'.rkbuf_iov[b.msg_iovlen]? = some (some { iov_base := buf.ptr, iov_len := len }) ∧
        b'.msg_iovlen = b.msg_iovlen + 1 ∧
        (∀ i, i ≠ b.msg_iovlen → b'.rkbuf_iov[i]? = b.rkbuf_iov[i]?) ∧
        b'.rkbuf_crc =
          (if allow_crc_calc ≠ 0 ∧ b.rkbuf_flags.RD_KAFKA_OP_F_CRC = true then
            E.rd_crc32_update b.rkbuf_crc (buf.mem.take len)
          else b.rkbuf_crc)) ∧
    ((b.msg_iovlen : Int) = b.rkbuf_iovcnt →
      rd_kafka_buf_push0 E b buf len allow_crc_calc = .error .assert_failed) := by
  constructor
  · intro hlt
    refine ⟨_, rd_kafka_buf_push0_slot E b buf len allow_crc_calc (by omega) hint, ?_, rfl, ?_, rfl⟩
    · rw [after_push_iov]
      exact getElem?_set_same _ _ _ (by omega)
    · intro i hi
      rw [after_push_iov]
      exact getElem?_set_other _ _ _ _ hi
  · intro heq
    have h2 : int_of b.msg_iovlen = b.msg_iovlen := int_of_of_range _ (by omega) (by omega)
    simp only [rd_kafka_buf_push0, rd_kafka_buf_iov_next, h2]
    rw [if_pos (by omega)]

/-- C14, witness: a push onto the fresh `rd_kafka_buf_new(4, 64)` buffer. -/
theorem push0_slot_and_crc_witness :
    ((fresh_buf.msg_iovlen : Int) < fresh_buf.rkbuf_iovcnt →
      ∃ b', rd_kafka_buf_push0 lp64 fresh_buf payload_hello 5 1 = .ok b' ∧
        b'.rkbuf_iov[fresh_buf.msg_iovlen]? =
          some (some { iov_base := payload_hello.ptr, iov_len := 5 }) ∧
        b'.msg_iovlen = fresh_buf.msg_iovlen + 1 ∧
        (∀ i, i ≠ fresh_buf.msg_iovlen → b'.rkbuf_iov[i]? = fresh_buf.rkbuf_iov[i]?) ∧
        b'.rkbuf_crc =
          (if (1 : Int) ≠ 0 ∧ fresh_buf.rkbuf_flags.RD_KAFKA_OP_F_CRC = true then
            lp64.rd_crc32_update fresh_buf.rkbuf_crc (payload_hello.mem.take 5)
          else fresh_buf.rkbuf_crc)) ∧
    ((fresh_buf.msg_iovlen : Int) = fresh_buf.rkbuf_iovcnt →
      rd_kafka_buf_push0 lp64 fresh_buf payload_hello 5 1 = .error .assert_failed) :=
  push0_slot_and_crc lp64 fresh_buf payload_hello 5 1 (by decide) (by decide)

/-! ## Constructors -/

/-- What `rd_kafka_buf_new` returns when its assertion holds and its sizes
fit their types. -/
theorem rd_kafka_buf_new_fields (E : Env) (rkbuf : Ptr) (iovcnt : Int) (size : Nat)
    (hmax : iovcnt + 2 ≤ E.IOV_MAX) (h0 : -(2 ^ 31) ≤ iovcnt + 2) (hint : iovcnt + 2 < 2 ^ 31) :
    ∃ b, rd_kafka_buf_new E rkbuf iovcnt size = .ok b ∧
      b.rkbuf_iovcnt = iovcnt + 2 ∧
      b.rkbuf_iov = ((List.replicate (iovcnt + 2).toNat none).set 0
        (some { iov_base := b.rkbuf_buf, iov_len := E.RD_KAFKAP_REQHDR_SIZE })).set 1
        (some { iov_base := NULL, iov_len := 0 }) ∧
      b.msg_iovlen = 2 ∧
      b.rkbuf_wof = E.RD_KAFKAP_REQHDR_SIZE ∧ b.rkbuf_wof_init = E.RD_KAFKAP_REQHDR_SIZE ∧
      b.rkbuf_size = (E.RD_KAFKAP_REQHDR_SIZE + size) % SIZE_T_MOD ∧
      b.rkbuf_refcnt = 1 ∧ b.rkbuf_flags.RD_KAFKA_OP_F_FREE = false ∧
      b.rkbuf_wbuf = b.rkbuf_buf := by
  have hi : int_of (iovcnt + 2) = iovcnt + 2 := int_of_of_range _ h0 hint
  simp only [rd_kafka_buf_new, RD_KAFKA_HEADERS_IOV_CNT, hi]
  rw [if_neg (by simpa using hmax)]
  exact ⟨_, rfl, rfl, rfl, rfl, rfl, rfl, rfl, rfl, rfl, rfl⟩

/-- C16, amended: for every `iovcnt ≥ 0` that passes the assertion
`iovcnt + 2 ≤ IOV_MAX` (and is an `int`) and every `size` with
`RD_KAFKAP_REQHDR_SIZE + size ≤ SIZE_MAX`, `rd_kafka_buf_new(iovcnt, size)`
returns a buffer with segment capacity `iovcnt + 2`, live segment count 2,
segment 0 = (start of the primary region, request-header size), segment 1 =
(NULL, 0), write cursor = initial cursor = request-header size, allocated
size = request-header size + `size`, reference count 1 and no owns-memory
flag; when `iovcnt ≥ 1` the first segment pushed afterwards lands in
slot 2. -/
theorem buf_new_layout (E : Env) (rkbuf : Ptr) (iovcnt : Int) (size : Nat)
    (h0 : 0 ≤ iovcnt) (hmax : iovcnt + 2 ≤ E.IOV_MAX) (hint : iovcnt + 2 < 2 ^ 31)
    (hsize : E.RD_KAFKAP_REQHDR_SIZE + size < SIZE_T_MOD) :
    ∃ b, rd_kafka_buf_new E rkbuf iovcnt size = .ok b ∧
      b.rkbuf_iovcnt = iovcnt + 2 ∧ (b.rkbuf_iov.length : Int) = iovcnt + 2 ∧
      b.msg_iovlen = 2 ∧
      b.rkbuf_iov[0]? =
        some (some { iov_base := b.rkbuf_buf, iov_len := E.RD_KAFKAP_REQHDR_SIZE }) ∧
      b.rkbuf_iov[1]? = some (some { iov_base := NULL, iov_len := 0 }) ∧
      b.rkbuf_wof = E.RD_KAFKAP_REQHDR_SIZE ∧ b.rkbuf_wof_init = E.RD_KAFKAP_REQHDR_SIZE ∧
      b.rkbuf_size = E.RD_KAFKAP_REQHDR_SIZE + size ∧
      b.rkbuf_refcnt = 1 ∧ b.rkbuf_flags.RD_KAFKA_OP_F_FREE = false ∧
      (1 ≤ iovcnt → ∀ (buf : cbuf) (len : Nat) (allow_crc_calc : Int),
        ∃ b', rd_kafka_buf_push0 E b buf len allow_crc_calc = .ok b' ∧
          b'.rkbuf_iov[2]? = some (some { iov_base := buf.ptr, iov_len := len }) ∧
          b'.msg_iovlen = 3) := by
  obtain ⟨b, hb, hcnt, hiov, hlive, hwof, hinit, hsz, href, hfree, _⟩ :=
    rd_kafka_buf_new_fields E rkbuf iovcnt size hmax (by omega) hint
  have hlen : (b.rkbuf_iov.length : Int) = iovcnt + 2 := by
    rw [hiov]
    simp only [List.length_set, List.length_replicate]
    omega
  have hlen2 : 2 ≤ (List.replicate (iovcnt + 2).toNat (none : Option iovec)).length := by
    simp only [List.length_replicate]; omega
  refine ⟨b, hb, hcnt, hlen, hlive, ?_, ?_, hwof, hinit, ?_, href, hfree, ?_⟩
  · rw [hiov, getElem?_set_other _ _ _ _ (by omega), getElem?_set_same _ _ _ (by omega)]
  · rw [hiov, getElem?_set_same _ _ _ (by simp only [List.length_set]; omega)]
  · rw [hsz, Nat.mod_eq_of_lt hsize]
  · intro h1 buf len a
    refine ⟨_, rd_kafka_buf_push0_slot E b buf len a (by rw [hlive, hcnt]; omega)
      (by rw [hcnt]; exact hint), ?_, ?_⟩
    · rw [after_push_iov, hlive]
      exact getElem?_set_same _ _ _ (by omega)
    · rw [after_push_iovlen, hlive]

/-- C16, witness: `rd_kafka_buf_new(4, 64)`. -/
theorem buf_new_layout_witness :
    ∃ b, rd_kafka_buf_new lp64 0x1000 4 64 = .ok b ∧
      b.rkbuf_iovcnt = 4 + 2 ∧ (b.rkbuf_iov.length : Int) = 4 + 2 ∧
      b.msg_iovlen = 2 ∧
      b.rkbuf_iov[0]? =
        some (some { iov_base := b.rkbuf_buf, iov_len := lp64.RD_KAFKAP_REQHDR_SIZE }) ∧
      b.rkbuf_iov[1]? = some (some { iov_base := NULL, iov_len := 0 }) ∧
      b.rkbuf_wof = lp64.RD_KAFKAP_REQHDR_SIZE ∧ b.rkbuf_wof_init = lp64.RD_KAFKAP_REQHDR_SIZE ∧
      b.rkbuf_size = lp64.RD_KAFKAP_REQHDR_SIZE + 64 ∧
      b.rkbuf_refcnt = 1 ∧ b.rkbuf_flags.RD_KAFKA_OP_F_FREE = false ∧
      ((1 : Int) ≤ 4 → ∀ (buf : cbuf) (len : Nat) (allow_crc_calc : Int),
        ∃ b', rd_kafka_buf_push0 lp64 b buf len allow_crc_calc = .ok b' ∧
          b'.rkbuf_iov[2]? = some (some { iov_base := buf.ptr, iov_len := len }) ∧
          b'.msg_iovlen = 3) :=
  buf_new_layout lp64 0x1000 4 64 (by decide) (by decide) (by decide) (by decide)

/-- C16, counterexample: with `IOV_MAX = 1024`, `rd_kafka_buf_new(1023, 64)`
fails its assertion and returns no buffer; and on the buffer
`rd_kafka_buf_new(0, 64)` returns, whose two slots are both taken, the first
push is fatal instead of landing in slot 2. -/
theorem buf_new_layout_counterexample :
    rd_kafka_buf_new lp64 0x1000 1023 64 = .error .assert_failed ∧
    rd_kafka_buf_new lp64 0x1000 0 64 = .ok full_buf ∧
    full_buf.rkbuf_iovcnt = 2 ∧ full_buf.msg_iovlen = 2 ∧
    rd_kafka_buf_push0 lp64 full_buf payload_hello 5 1 = .error .assert_failed :=
  ⟨rfl, rfl, by decide, by decide, rfl⟩

/-- C18, the code at the failing input: `rd_kafka_buf_new_growable(0, 0)`
returns a growable buffer of allocated size 0, and on it
`rd_kafka_buf_grow(rkbuf, 1)` never returns: `alen` starts at 0, doubling
leaves it at 0, and `needed_len > alen` holds at every test. -/
theorem grow_from_zero_never_returns :
    rd_kafka_buf_new_growable lp64 0x1000 0x2000 0 0 = .ok zero_growable ∧
    zero_growable.rkbuf_flags.RD_KAFKA_OP_F_FREE = true ∧ zero_growable.rkbuf_size = 0 ∧
    rd_kafka_buf_grow lp64 zero_growable 1 = .error .no_return ∧
    (∀ fuel, grow_loop fuel 0 1 = none) ∧
    ¬ ∃ b', rd_kafka_buf_grow lp64 zero_growable 1 = .ok b' :=
  ⟨rfl, by decide, by decide, by rfl, fun fuel => grow_loop_zero fuel 1 (by omega),
    fun ⟨_, h⟩ => by
      have h' : rd_kafka_buf_grow lp64 zero_growable 1 = .error .no_return := by rfl
      rw [h'] at h
      cases h⟩

/-- C20, amended: a buffer `rd_kafka_buf_new(iovcnt, size)` returns, for
`RD_KAFKAP_REQHDR_SIZE + size ≤ SIZE_MAX`, has initial cursor = write cursor
= request-header size ≤ allocated size. A buffer
`rd_kafka_buf_new_growable(iovcnt, init_size)` returns has initial cursor =
write cursor = request-header size and allocated size `init_size`, so its
write cursor lies inside the allocated size exactly when `init_size` is at
least the request-header size. -/
theorem new_buffer_cursor (E : Env) (rkbuf buf : Ptr) (iovcnt : Int) (size init_size : Nat)
    (hsize : E.RD_KAFKAP_REQHDR_SIZE + size < SIZE_T_MOD) :
    (∀ b, rd_kafka_buf_new E rkbuf iovcnt size = .ok b →
      b.rkbuf_wof_init = E.RD_KAFKAP_REQHDR_SIZE ∧ b.rkbuf_wof = E.RD_KAFKAP_REQHDR_SIZE ∧
      b.rkbuf_wof_init ≤ b.rkbuf_wof ∧ b.rkbuf_wof ≤ b.rkbuf_size) ∧
    (∀ b, rd_kafka_buf_new_growable E rkbuf buf iovcnt init_size = .ok b →
      b.rkbuf_wof_init = E.RD_KAFKAP_REQHDR_SIZE ∧ b.rkbuf_wof = E.RD_KAFKAP_REQHDR_SIZE ∧
      b.rkbuf_size = init_size ∧ b.rkbuf_wof_init ≤ b.rkbuf_wof ∧
      (b.rkbuf_wof ≤ b.rkbuf_size ↔ E.RD_KAFKAP_REQHDR_SIZE ≤ init_size)) := by
  have hnew : ∀ (sz : Nat) (b : rd_kafka_buf_t), rd_kafka_buf_new E rkbuf iovcnt sz = .ok b →
      b.rkbuf_wof_init = E.RD_KAFKAP_REQHDR_SIZE ∧ b.rkbuf_wof = E.RD_KAFKAP_REQHDR_SIZE ∧
      b.rkbuf_size = (E.RD_KAFKAP_REQHDR_SIZE + sz) % SIZE_T_MOD := by
    intro sz b h
    unfold rd_kafka_buf_new at h
    simp only [] at h
    split at h
    · cases h
    · injection h with h
      subst h
      exact ⟨rfl, rfl, rfl⟩
  constructor
  · intro b h
    obtain ⟨h1, h2, h3⟩ := hnew size b h
    refine ⟨h1, h2, by rw [h1, h2], ?_⟩
    rw [h2, h3, Nat.mod_eq_of_lt hsize]
    push_cast
    omega
  · intro b h
    unfold rd_kafka_buf_new_growable at h
    split at h
    · cases h
    · rename_i b0 hb0
      obtain ⟨h1, h2, _⟩ := hnew 0 b0 hb0
      injection h with h
      subst h
      refine ⟨h1, h2, rfl, by simp only [h1, h2]; exact le_refl _, ?_⟩
      simp only [h2]
      exact Nat.cast_le

/-- C20, witness: `rd_kafka_buf_new(4, 64)` and
`rd_kafka_buf_new_growable(4, 64)`. -/
theorem new_buffer_cursor_witness :
    (∀ b, rd_kafka_buf_new lp64 0x1000 4 64 = .ok b →
      b.rkbuf_wof_init = lp64.RD_KAFKAP_REQHDR_SIZE ∧ b.rkbuf_wof = lp64.RD_KAFKAP_REQHDR_SIZE ∧
      b.rkbuf_wof_init ≤ b.rkbuf_wof ∧ b.rkbuf_wof ≤ b.rkbuf_size) ∧
    (∀ b, rd_kafka_buf_new_growable lp64 0x1000 0x2000 4 64 = .ok b →
      b.rkbuf_wof_init = lp64.RD_KAFKAP_REQHDR_SIZE ∧ b.rkbuf_wof = lp64.RD_KAFKAP_REQHDR_SIZE ∧
      b.rkbuf_size = 64 ∧ b.rkbuf_wof_init ≤ b.rkbuf_wof ∧
      (b.rkbuf_wof ≤ b.rkbuf_size ↔ lp64.RD_KAFKAP_REQHDR_SIZE ≤ 64)) :=
  new_buffer_cursor lp64 0x1000 0x2000 4 64 64 (by decide)

/-- C20, counterexample: with a 12-byte request header,
`rd_kafka_buf_new_growable(0, 1)` returns a buffer whose write cursor is 12
while 1 byte is allocated. -/
theorem new_buffer_cursor_counterexample :
    rd_kafka_buf_new_growable lp64 0x1000 0x2000 0 1 = .ok tiny_growable ∧
    tiny_growable.rkbuf_wof_init = 12 ∧ tiny_growable.rkbuf_wof = 12 ∧
    tiny_growable.rkbuf_size = 1 ∧ ¬ (tiny_growable.rkbuf_wof ≤ tiny_growable.rkbuf_size) :=
  ⟨rfl, by decide, by decide, by decide, by decide⟩

/-! ## Sequences of buffer operations -/

theorem except_bind_ok {ε α β : Type} (x : Except ε α) (f : α → Except ε β) (b : β) :
    (x >>= f) = .ok b ↔ ∃ a, x = .ok a ∧ f a = .ok b := by
  cases x with
  | error e => simp [bind, Except.bind]
  | ok a => simp [bind, Except.bind]

theorem take_set_of_le {α : Type} (l : List α) (n i : Nat) (a : α) (h : i ≤ n) :
    (l.set n a).take i = l.take i := by
  apply List.ext_getElem?
  intro j
  by_cases hj : j < i
  · rw [List.getElem?_take_of_lt hj, List.getElem?_take_of_lt hj,
      getElem?_set_other _ _ _ _ (by omega)]
  · rw [List.getElem?_take_eq_none (by omega), List.getElem?_take_eq_none (by omega)]

theorem push0_stack_inv (E : Env) (b b' : rd_kafka_buf_t) (buf : cbuf) (len : Nat) (a : Int)
    (c : Int) (i : Nat) (l : List (Option iovec)) (hc : c < 2 ^ 31)
    (h : rd_kafka_buf_push0 E b buf len a = .ok b') (hinv : stack_inv c i l b) :
    stack_inv c i l b' := by
  obtain ⟨h1, h2, h3, h4⟩ := hinv
  have hi : int_of b.msg_iovlen = b.msg_iovlen := int_of_of_range _ (by omega) (by omega)
  by_cases hs : (b.msg_iovlen : Int) + 1 ≤ b.rkbuf_iovcnt
  · rw [rd_kafka_buf_push0_slot E b buf len a hs (by omega)] at h
    injection h with h
    subst h
    refine ⟨h1, ?_, ?_, ?_⟩
    · rw [after_push_iovlen]; omega
    · rw [after_push_iovlen]; push_cast; omega
    · rw [after_push_iov, take_set_of_le _ _ _ _ h2, h4]
  · simp only [rd_kafka_buf_push0, rd_kafka_buf_iov_next, hi] at h
    rw [if_pos hs] at h
    cases h

theorem grow_stack (E : Env) (b b' : rd_kafka_buf_t) (n : Nat)
    (h : rd_kafka_buf_grow E b n = .ok b') :
    b'.rkbuf_iovcnt = b.rkbuf_iovcnt ∧ b'.msg_iovlen = b.msg_iovlen ∧
    b'.rkbuf_iov = b.rkbuf_iov ∧ b'.rkbuf_wof = b.rkbuf_wof ∧
    b'.rkbuf_wof_init = b.rkbuf_wof_init ∧ b'.rkbuf_flags = b.rkbuf_flags ∧
    b'.rkbuf_crc = b.rkbuf_crc := by
  unfold rd_kafka_buf_grow at h
  simp only [] at h
  split at h
  · cases h
  · split at h
    · cases h
    · injection h with h
      subst h
      exact ⟨rfl, rfl, rfl, rfl, rfl, rfl, rfl⟩

theorem write_stack (E : Env) (b : rd_kafka_buf_t) (data : List Nat)
    (r : rd_kafka_buf_t × Int) (h : rd_kafka_buf_write E b data = .ok r) :
    r.1.rkbuf_iovcnt = b.rkbuf_iovcnt ∧ r.1.msg_iovlen = b.msg_iovlen ∧
    r.1.rkbuf_iov = b.rkbuf_iov ∧ r.1.rkbuf_wof_init = b.rkbuf_wof_init ∧
    r.1.rkbuf_flags = b.rkbuf_flags := by
  unfold rd_kafka_buf_write at h
  simp only [] at h
  split at h
  · cases h
  · rename_i g hg
    split at h
    · cases h
    · injection h with h
      subst h
      simp only []
      split at hg
      · obtain ⟨g1, g2, g3, _, g5, g6, _⟩ := grow_stack E b g _ hg
        exact ⟨g1, g2, g3, g5, g6⟩
      · injection hg with hg
        subst hg
        exact ⟨rfl, rfl, rfl, rfl, rfl⟩

theorem write_stack_inv (E : Env) (b : rd_kafka_buf_t) (data : List Nat)
    (r : rd_kafka_buf_t × Int) (c : Int) (i : Nat) (l : List (Option iovec))
    (h : rd_kafka_buf_write E b data = .ok r) (hinv : stack_inv c i l b) :
    stack_inv c i l r.1 := by
  obtain ⟨g1, g2, g3, _, _⟩ := write_stack E b data r h
  unfold stack_inv at hinv ⊢
  rw [g1, g2, g3]
  exact hinv

theorem update_u32_stack_inv (b b' : rd_kafka_buf_t) (of : Int) (v : Nat)
    (c : Int) (i : Nat) (l : List (Option iovec))
    (h : rd_kafka_buf_update_u32 b of v = .ok b') (hinv : stack_inv c i l b) :
    stack_inv c i l b' := by
  unfold rd_kafka_buf_update_u32 at h
  split at h
  · cases h
  · injection h with h
    subst h
    exact hinv

theorem write_Message_stack_inv (E : Env) (b : rd_kafka_buf_t) (Offset : Int)
    (MagicByte Attributes : Int) (key : rd_kafkap_bytes_t) (payload : cbuf) (len : Int)
    (outlenp : Bool) (r : write_Message_result) (c : Int) (i : Nat) (l : List (Option iovec))
    (hc : c < 2 ^ 31)
    (h : rd_kafka_buf_write_Message E b Offset MagicByte Attributes key payload len outlenp =
      .ok r) (hinv : stack_inv c i l b) :
    stack_inv c i l r.rkbuf := by
  unfold rd_kafka_buf_write_Message at h
  simp only [except_bind_ok, rd_kafka_buf_write_i64, rd_kafka_buf_write_i32,
    rd_kafka_buf_write_i8, rd_kafka_buf_autopush, rd_kafka_buf_push_kbytes,
    rd_kafka_buf_push] at h
  obtain ⟨a0, h0, a1, h1, a2, h2, a3, h3, a4, h4, a5, h5, a6, h6, a7, h7, a8, h8, h9⟩ := h
  have i0 := write_stack_inv E _ _ _ c i l h0 hinv
  have i1 := write_stack_inv E _ _ _ c i l h1 i0
  have i2 := write_stack_inv E _ _ _ c i l h2 i1
  have i3 := write_stack_inv E _ _ _ c i l h3 i2
  have i4 := write_stack_inv E _ _ _ c i l h4 i3
  have i5 := push0_stack_inv E _ _ _ _ _ c i l hc h5 i4
  have i6 := push0_stack_inv E _ _ _ _ _ c i l hc h6 i5
  have i7 := write_stack_inv E _ _ _ c i l h7 i6
  have i8 := push0_stack_inv E _ _ _ _ _ c i l hc h8 i7
  split at h9
  · simp only [except_bind_ok, pure, Except.pure] at h9
    obtain ⟨a9, h9a, a10, h10, h11⟩ := h9
    injection h11 with h11
    subst h11
    exact update_u32_stack_inv _ _ _ _ c i l h10 (push0_stack_inv E _ _ _ _ _ c i l hc h9a i8)
  · simp only [except_bind_ok, pure, Except.pure] at h9
    obtain ⟨a9, h9a, a10, h10, h11⟩ := h9
    injection h9a with h9a
    subst h9a
    injection h11 with h11
    subst h11
    exact update_u32_stack_inv _ _ _ _ c i l h10 i8

theorem buf_step_stack_inv (E : Env) (b b' : rd_kafka_buf_t) (op : buf_op)
    (c : Int) (i : Nat) (l : List (Option iovec)) (hc : c < 2 ^ 31)
    (hop : ∀ x o, op = .rewind x o → (i : Int) ≤ x ∧ x ≤ c ∧ i = 0)
    (h : buf_step E b op = .ok b') (hinv : stack_inv c i l b) :
    stack_inv c i l b' := by
  cases op with
  | push0 buf len a => exact push0_stack_inv E b b' buf len a c i l hc h hinv
  | autopush => exact push0_stack_inv E b b' _ _ _ c i l hc h hinv
  | rewind x o =>
    obtain ⟨hx1, hx2, hi0⟩ := hop x o rfl
    simp only [buf_step] at h
    injection h with h
    subst h
    obtain ⟨h1, _, _, h4⟩ := hinv
    subst hi0
    have hx : size_t_of_int x = x.toNat :=
      size_t_of_int_of_nonneg x (by omega) (by unfold SIZE_T_MOD; omega)
    refine ⟨h1, Nat.zero_le _, ?_, ?_⟩
    · simp only [rd_kafka_buf_rewind, hx]
      rw [Int.toNat_of_nonneg (by omega)]
      exact hx2
    · simpa [rd_kafka_buf_rewind] using h4
  | grow n =>
    obtain ⟨g1, g2, g3, _⟩ := grow_stack E b b' n h
    unfold stack_inv at hinv ⊢
    rw [g1, g2, g3]
    exact hinv
  | write data =>
    simp only [buf_step] at h
    split at h
    · cases h
    · rename_i r hr
      injection h with h
      subst h
      exact write_stack_inv E b data r c i l hr hinv
  | write_Message O M A key payload len =>
    simp only [buf_step] at h
    split at h
    · cases h
    · rename_i r hr
      injection h with h
      subst h
      exact write_Message_stack_inv E b O M A key payload len false r c i l hc hr hinv

theorem buf_run_stack_inv (E : Env) (c : Int) (i : Nat) (l : List (Option iovec))
    (hc : c < 2 ^ 31) (ops : List buf_op) : ∀ (b b' : rd_kafka_buf_t),
    (∀ x o, buf_op.rewind x o ∈ ops → (i : Int) ≤ x ∧ x ≤ c ∧ i = 0) →
    buf_run E b ops = .ok b' → stack_inv c i l b → stack_inv c i l b' := by
  induction ops with
  | nil =>
    intro b b' _ h hinv
    simp only [buf_run] at h
    injection h with h
    subst h
    exact hinv
  | cons op ops ih =>
    intro b b' hop h hinv
    simp only [buf_run] at h
    split at h
    · cases h
    · rename_i b1 hb1
      exact ih b1 b' (fun x o hx => hop x o (List.mem_cons_of_mem _ hx)) h
        (buf_step_stack_inv E b b1 op c i l hc
          (fun x o hx => hop x o (by rw [hx]; exact List.mem_cons_self _ _)) hb1 hinv)

theorem rd_kafka_buf_new_stack (E : Env) (rkbuf : Ptr) (iovcnt : Int) (size : Nat)
    (b : rd_kafka_buf_t) (h0 : 0 ≤ iovcnt) (hint : iovcnt + 2 < 2 ^ 31)
    (h : rd_kafka_buf_new E rkbuf iovcnt size = .ok b) :
    b.rkbuf_iovcnt = iovcnt + 2 ∧ b.msg_iovlen = 2 := by
  have hi : int_of (iovcnt + 2) = iovcnt + 2 := int_of_of_range _ (by omega) hint
  simp only [rd_kafka_buf_new, RD_KAFKA_HEADERS_IOV_CNT, hi] at h
  split at h
  · cases h
  · injection h with h
    subst h
    exact ⟨rfl, rfl⟩

theorem constructed_nonneg_stack (E : Env) (b : rd_kafka_buf_t) (h : constructed_nonneg E b) :
    b.rkbuf_iovcnt < 2 ^ 31 ∧ (b.msg_iovlen : Int) ≤ b.rkbuf_iovcnt := by
  rcases h with ⟨rkbuf, iovcnt, size, h0, hint, h⟩ | ⟨rkbuf, buf, iovcnt, init_size, h0, hint, h⟩ |
    ⟨rkbuf, ptr, size, h⟩
  · obtain ⟨h1, h2⟩ := rd_kafka_buf_new_stack E rkbuf iovcnt size b h0 hint h
    rw [h1, h2]
    constructor
    · exact hint
    · push_cast; omega
  · unfold rd_kafka_buf_new_growable at h
    split at h
    · cases h
    · rename_i b0 hb0
      obtain ⟨h1, h2⟩ := rd_kafka_buf_new_stack E rkbuf iovcnt 0 b0 h0 hint hb0
      injection h with h
      subst h
      simp only [h1, h2]
      constructor
      · exact hint
      · push_cast; omega
  · subst h
    constructor
    · show (0 : Int) < 2 ^ 31
      norm_num
    · show ((0 : Nat) : Int) ≤ 0
      norm_num

/-! ## Capacity of the segment stack -/

/-- C15, amended: for every buffer a constructor produced for a segment
count `iovcnt ≥ 0`, and every sequence of `rd_kafka_buf_push0`,
`rd_kafka_buf_autopush`, `rd_kafka_buf_grow`, `rd_kafka_buf_write`,
`rd_kafka_buf_write_Message` calls and of `rd_kafka_buf_rewind` calls whose
index lies between 0 and the capacity, that does not abort, the number of
live segments does not exceed the capacity `rkbuf_iovcnt`, which never
changes. -/
theorem iovlen_within_capacity (E : Env) (b b' : rd_kafka_buf_t) (ops : List buf_op)
    (hb : constructed_nonneg E b)
    (hrew : ∀ x o, buf_op.rewind x o ∈ ops → 0 ≤ x ∧ x ≤ b.rkbuf_iovcnt)
    (hrun : buf_run E b ops = .ok b') :
    (b'.msg_iovlen : Int) ≤ b'.rkbuf_iovcnt ∧ b'.rkbuf_iovcnt = b.rkbuf_iovcnt := by
  obtain ⟨hc, hcap⟩ := constructed_nonneg_stack E b hb
  have hinv : stack_inv b.rkbuf_iovcnt 0 [] b := ⟨rfl, Nat.zero_le _, hcap, rfl⟩
  obtain ⟨h1, _, h3, _⟩ := buf_run_stack_inv E b.rkbuf_iovcnt 0 [] hc ops b b'
    (fun x o hx => ⟨by simpa using (hrew x o hx).1, (hrew x o hx).2, rfl⟩) hrun hinv
  exact ⟨by rw [h1]; exact h3, h1⟩

/-- C15, witness: a push, a rewind to index 2 and a Message frame on the
fresh `rd_kafka_buf_new(4, 64)` buffer. -/
theorem iovlen_within_capacity_witness :
    (rewound_buf.msg_iovlen : Int) ≤ rewound_buf.rkbuf_iovcnt ∧
    rewound_buf.rkbuf_iovcnt = fresh_buf.rkbuf_iovcnt :=
  iovlen_within_capacity lp64 fresh_buf rewound_buf sample_rewind_ops
    (Or.inl ⟨0x1000, 4, 64, by decide, by decide, rfl⟩)
    (by
      intro x o hx
      simp only [sample_rewind_ops, List.mem_cons, List.mem_singleton, reduceCtorEq,
        buf_op.rewind.injEq, false_or, or_false, List.not_mem_nil] at hx
      obtain ⟨rfl, _⟩ := hx
      decide)
    rfl

/-- C15, counterexample: `rd_kafka_buf_rewind(rkbuf, 7, 12)` on the fresh
`rd_kafka_buf_new(4, 64)` buffer, whose capacity is 6, returns and leaves 7
live segments; and `rd_kafka_buf_new(-1, 64)` returns a buffer with capacity
1 and 2 live segments. -/
theorem iovlen_within_capacity_counterexample :
    rd_kafka_buf_new lp64 0x1000 4 64 = .ok fresh_buf ∧
    buf_run lp64 fresh_buf [.rewind 7 12] = .ok overwound_buf ∧
    overwound_buf.rkbuf_iovcnt = 6 ∧ overwound_buf.msg_iovlen = 7 ∧
    ¬ ((overwound_buf.msg_iovlen : Int) ≤ overwound_buf.rkbuf_iovcnt) ∧
    rd_kafka_buf_new lp64 0x1000 (-1) 64 = .ok negative_buf ∧
    negative_buf.rkbuf_iovcnt = 1 ∧ negative_buf.msg_iovlen = 2 :=
  ⟨rfl, rfl, by decide, by decide, by decide, rfl, by decide, by decide⟩

/-- C19: for every buffer with live segment count `i` (within its capacity)
and write cursor `w`, after any sequence of `rd_kafka_buf_push0`,
`rd_kafka_buf_autopush` and `rd_kafka_buf_write` calls that does not abort,
`rd_kafka_buf_rewind(rkbuf, i, w)` leaves `i` live segments, which are the
original ones (the first `i` slots hold what they held), and the write
cursor `w`, and changes no field other than the segment count and the write
cursor. -/
theorem rewind_restores (E : Env) (b b' : rd_kafka_buf_t) (ops : List buf_op)
    (hcap : (b.msg_iovlen : Int) ≤ b.rkbuf_iovcnt) (hint : b.rkbuf_iovcnt < 2 ^ 31)
    (hops : ∀ op, op ∈ ops → is_push_or_write op)
    (hrun : buf_run E b ops = .ok b') :
    (rd_kafka_buf_rewind b' b.msg_iovlen b.rkbuf_wof).msg_iovlen = b.msg_iovlen ∧
    (rd_kafka_buf_rewind b' b.msg_iovlen b.rkbuf_wof).rkbuf_iov.take b.msg_iovlen =
      b.rkbuf_iov.take b.msg_iovlen ∧
    (rd_kafka_buf_rewind b' b.msg_iovlen b.rkbuf_wof).rkbuf_wof = b.rkbuf_wof ∧
    rd_kafka_buf_rewind b' b.msg_iovlen b.rkbuf_wof =
      { b' with msg_iovlen := b.msg_iovlen, rkbuf_wof := b.rkbuf_wof } := by
  have hinv : stack_inv b.rkbuf_iovcnt b.msg_iovlen (b.rkbuf_iov.take b.msg_iovlen) b :=
    ⟨rfl, le_refl _, hcap, rfl⟩
  obtain ⟨_, _, _, h4⟩ := buf_run_stack_inv E b.rkbuf_iovcnt b.msg_iovlen
    (b.rkbuf_iov.take b.msg_iovlen) hint ops b b'
    (fun x o hx => absurd (hops _ hx) (by simp [is_push_or_write])) hrun hinv
  have hx : size_t_of_int (b.msg_iovlen : Int) = b.msg_iovlen := by
    rw [size_t_of_int_of_nonneg _ (by omega) (by unfold SIZE_T_MOD; omega)]
    exact Int.toNat_natCast _
  refine ⟨?_, ?_, rfl, ?_⟩
  · simp only [rd_kafka_buf_rewind, hx]
  · simpa only [rd_kafka_buf_rewind] using h4
  · simp only [rd_kafka_buf_rewind, hx]

/-- C19, witness: a write, an autopush and a push on the fresh
`rd_kafka_buf_new(4, 64)` buffer, then a rewind to its 2 segments and
cursor 12. -/
theorem rewind_restores_witness :
    (rd_kafka_buf_rewind pushed_buf fresh_buf.msg_iovlen fresh_buf.rkbuf_wof).msg_iovlen =
      fresh_buf.msg_iovlen ∧
    (rd_kafka_buf_rewind pushed_buf fresh_buf.msg_iovlen
      fresh_buf.rkbuf_wof).rkbuf_iov.take fresh_buf.msg_iovlen =
      fresh_buf.rkbuf_iov.take fresh_buf.msg_iovlen ∧
    (rd_kafka_buf_rewind pushed_buf fresh_buf.msg_iovlen fresh_buf.rkbuf_wof).rkbuf_wof =
      fresh_buf.rkbuf_wof ∧
    rd_kafka_buf_rewind pushed_buf fresh_buf.msg_iovlen fresh_buf.rkbuf_wof =
      { pushed_buf with msg_iovlen := fresh_buf.msg_iovlen, rkbuf_wof := fresh_buf.rkbuf_wof } :=
  rewind_restores lp64 fresh_buf pushed_buf sample_buf_ops (by decide) (by decide)
    (by
      intro op hop
      simp only [sample_buf_ops, List.mem_cons, List.mem_singleton, List.not_mem_nil,
        or_false] at hop
      rcases hop with rfl | rfl | rfl <;> exact trivial)
    rfl

/-! ## Checksum of the Message builder -/

theorem after_write_crc (E : Env) (b : rd_kafka_buf_t) (d : List Nat) :
    (after_write E b d).rkbuf_crc =
      if b.rkbuf_flags.RD_KAFKA_OP_F_CRC = true then E.rd_crc32_update b.rkbuf_crc d
      else b.rkbuf_crc := rfl

theorem after_write_flags (E : Env) (b : rd_kafka_buf_t) (d : List Nat) :
    (after_write E b d).rkbuf_flags = b.rkbuf_flags := rfl

theorem after_push_crc (E : Env) (b : rd_kafka_buf_t) (buf : cbuf) (len : Nat) (a : Int) :
    (after_push E b buf len a).rkbuf_crc =
      if a ≠ 0 ∧ b.rkbuf_flags.RD_KAFKA_OP_F_CRC = true then
        E.rd_crc32_update b.rkbuf_crc (buf.mem.take len)
      else b.rkbuf_crc := rfl

theorem after_push_flags (E : Env) (b : rd_kafka_buf_t) (buf : cbuf) (len : Nat) (a : Int) :
    (after_push E b buf len a).rkbuf_flags = b.rkbuf_flags := rfl

theorem after_header_flags (E : Env) (b : rd_kafka_buf_t) (O M G A : Int) :
    (after_header E b O M G A).rkbuf_flags.RD_KAFKA_OP_F_CRC = true := by
  simp only [after_header, after_write_flags, rd_kafka_buf_crc_init]

theorem after_header_crc (E : Env) (b : rd_kafka_buf_t) (O M G A : Int) :
    (after_header E b O M G A).rkbuf_crc =
      E.rd_crc32_update (E.rd_crc32_update E.rd_crc32_init (be_bytes 1 G)) (be_bytes 1 A) := by
  simp only [after_header, after_write_crc, after_write_flags, rd_kafka_buf_crc_init, if_true]

/-- The checksum slot of the frame `rd_kafka_buf_write_Message` leaves in the
write buffer holds the checksum accumulated over its writes and pushes. -/
theorem after_write_Message_stored_crc (E : Env) (b : rd_kafka_buf_t) (Offset : Int)
    (MagicByte Attributes : Int) (key : rd_kafkap_bytes_t) (payload : cbuf) (len : Int)
    (hwof : 0 ≤ b.rkbuf_wof) :
    stored_crc (after_write_Message E b Offset MagicByte Attributes key payload len)
        b.rkbuf_wof =
      be_bytes 4 (Message_crc E MagicByte Attributes key payload len) := by
  have e1 : (b.rkbuf_wof + 12).toNat = b.rkbuf_wof.toNat + 12 := by omega
  have hmem : ∃ m : List Nat,
      (after_write_Message E b Offset MagicByte Attributes key payload len).wbuf_mem =
      memcpy m (b.rkbuf_wof.toNat + 12)
        (be_bytes 4 (Message_crc E MagicByte Attributes key payload len)) := by
    by_cases hp : payload.ptr = NULL
    · simp only [after_write_Message, after_autopush, hp, ne_eq, not_true_eq_false, if_false,
        rd_kafka_buf_crc_finalize, after_push_crc, after_write_crc, after_push_flags,
        after_write_flags, after_header_flags, after_header_crc, Message_crc, e1,
        false_and, true_and, if_true, one_ne_zero, not_false_eq_true]
      exact ⟨_, rfl⟩
    · simp only [after_write_Message, after_autopush, hp, ne_eq, not_false_eq_true, if_true,
        rd_kafka_buf_crc_finalize, after_push_crc, after_write_crc, after_push_flags,
        after_write_flags, after_header_flags, after_header_crc, Message_crc, e1,
        false_and, true_and, if_false, one_ne_zero]
      exact ⟨_, rfl⟩
  obtain ⟨m, hmem⟩ := hmem
  have := mem_read_memcpy_same m (b.rkbuf_wof.toNat + 12)
    (be_bytes 4 (Message_crc E MagicByte Attributes key payload len))
  rw [be_bytes_length] at this
  rw [stored_crc, hmem, this]

theorem mem_read_memcpy_after (m : List Nat) (of' : Nat) (d : List Nat) (of n : Nat)
    (h1 : of' + d.length ≤ of) (h2 : of' + d.length ≤ m.length) :
    mem_read (memcpy m of' d) of n = mem_read m of n := by
  unfold mem_read memcpy
  simp only []
  have h0 : of' + d.length - m.length = 0 := by omega
  rw [h0, List.replicate_zero, List.append_nil]
  have hl : (List.take of' m ++ d).length = of' + d.length := by
    simp only [List.length_append, List.length_take]; omega
  rw [List.drop_append_eq_append_drop, List.drop_of_length_le (by omega), List.nil_append, hl,
    List.drop_drop]
  congr 2
  omega

/-- After the header writes the version and attributes bytes sit at offsets
16 and 17 of the frame. -/
theorem after_header_version (E : Env) (b : rd_kafka_buf_t) (O M G A : Int) (w : Nat)
    (hw : b.rkbuf_wof = w) :
    mem_read (after_header E b O M G A).wbuf_mem (w + 16) 1 = be_bytes 1 G ∧
    mem_read (after_header E b O M G A).wbuf_mem (w + 17) 1 = be_bytes 1 A := by
  simp only [after_header, after_write_mem, after_write_wof, crc_init_mem, crc_init_wof,
    be_bytes_length, hw]
  have e0 : ((w : Int)).toNat = w := by omega
  have e1 : ((w : Int) + (8 : Nat)).toNat = w + 8 := by omega
  have e2 : ((w : Int) + (8 : Nat) + (4 : Nat)).toNat = w + 12 := by omega
  have e3 : ((w : Int) + (8 : Nat) + (4 : Nat) + (4 : Nat)).toNat = w + 16 := by omega
  have e4 : ((w : Int) + (8 : Nat) + (4 : Nat) + (4 : Nat) + (1 : Nat)).toNat = w + 17 := by omega
  rw [e0, e1, e2, e3, e4]
  constructor
  · rw [mem_read_memcpy_before _ _ _ _ _ (by omega)
        (by simp only [memcpy_length, be_bytes_length]; omega)]
    have := mem_read_memcpy_same (memcpy (memcpy (memcpy b.wbuf_mem w (be_bytes 8 O)) (w + 8)
      (be_bytes 4 M)) (w + 12) (be_bytes 4 0)) (w + 16) (be_bytes 1 G)
    rwa [be_bytes_length] at this
  · have := mem_read_memcpy_same (memcpy (memcpy (memcpy (memcpy b.wbuf_mem w (be_bytes 8 O))
      (w + 8) (be_bytes 4 M)) (w + 12) (be_bytes 4 0)) (w + 16) (be_bytes 1 G)) (w + 17)
      (be_bytes 1 A)
    rwa [be_bytes_length] at this

/-- The bytes from the version byte on of the frame
`rd_kafka_buf_write_Message` leaves are the version, the attributes, the
serialized key, the value length and the payload, in this order. -/
theorem after_write_Message_frame (E : Env) (b : rd_kafka_buf_t) (Offset : Int)
    (MagicByte Attributes : Int) (key : rd_kafkap_bytes_t) (payload : cbuf) (len : Int)
    (hwof : 0 ≤ b.rkbuf_wof) :
    frame_from_version (after_write_Message E b Offset MagicByte Attributes key payload len)
        b.rkbuf_wof key payload len =
      Message_crc_bytes MagicByte Attributes key payload len := by
  obtain ⟨w, hw⟩ := Int.eq_ofNat_of_zero_le hwof
  obtain ⟨-, hl⟩ := after_header_mem E b Offset
    (int_of (4 + 1 + 1 + RD_KAFKAP_BYTES_SIZE key + 4 + len)) MagicByte Attributes w hw
  obtain ⟨hG, hA⟩ := after_header_version E b Offset
    (int_of (4 + 1 + 1 + RD_KAFKAP_BYTES_SIZE key + 4 + len)) MagicByte Attributes w hw
  have e0 : ((w : Int)).toNat = w := by omega
  have e1 : ((w : Int) + 12).toNat = w + 12 := by omega
  have e2 : ((w : Int) + 18).toNat = w + 18 := by omega
  have hmem : ∃ c : Nat,
      (after_write_Message E b Offset MagicByte Attributes key payload len).wbuf_mem =
      memcpy (memcpy (after_header E b Offset
        (int_of (4 + 1 + 1 + RD_KAFKAP_BYTES_SIZE key + 4 + len)) MagicByte Attributes).wbuf_mem
        (w + 18) (be_bytes 4 (if payload.ptr ≠ NULL then len else RD_KAFKAP_BYTES_LEN_NULL)))
        (w + 12) (be_bytes 4 c) := by
    by_cases hp : payload.ptr = NULL
    · simp only [after_write_Message, after_autopush, hp, ne_eq, not_true_eq_false, if_false,
        after_push_mem, after_write_mem, after_push_wof, after_header_wof, hw, e1, e2]
      exact ⟨_, rfl⟩
    · simp only [after_write_Message, after_autopush, hp, ne_eq, not_false_eq_true, if_true,
        after_push_mem, after_write_mem, after_push_wof, after_header_wof, hw, e1, e2]
      exact ⟨_, rfl⟩
  obtain ⟨c, hmem⟩ := hmem
  simp only [frame_from_version, Message_crc_bytes, hmem, hw, e0]
  generalize (after_header E b Offset (int_of (4 + 1 + 1 + RD_KAFKAP_BYTES_SIZE key + 4 + len))
    MagicByte Attributes).wbuf_mem = H at hl hG hA
  have hv := be_bytes_length 4 (if payload.ptr ≠ NULL then len else RD_KAFKAP_BYTES_LEN_NULL)
  generalize be_bytes 4 (if payload.ptr ≠ NULL then len else RD_KAFKAP_BYTES_LEN_NULL) = v at hv
  have hc := be_bytes_length 4 c
  generalize be_bytes 4 (c : Int) = d at hc
  have hHv : (memcpy H (w + 18) v).length = max H.length (w + 18 + v.length) := memcpy_length _ _ _
  have hV := mem_read_memcpy_same H (w + 18) v
  rw [hv] at hV
  rw [mem_read_memcpy_after (memcpy H (w + 18) v) (w + 12) d (w + 16) 1 (by omega) (by omega),
    mem_read_memcpy_after (memcpy H (w + 18) v) (w + 12) d (w + 17) 1 (by omega) (by omega),
    mem_read_memcpy_after (memcpy H (w + 18) v) (w + 12) d (w + 18) 4 (by omega) (by omega),
    mem_read_memcpy_before H (w + 18) v (w + 16) 1 (by omega) (by omega),
    mem_read_memcpy_before H (w + 18) v (w + 17) 1 (by omega) (by omega), hG, hA, hV]

/-- With an incremental checksum engine the checksum
`rd_kafka_buf_write_Message` accumulates is the CRC-32 of the bytes it covers,
taken as one run. -/
theorem Message_crc_eq (E : Env) (hinc : crc_incremental E) (MagicByte Attributes : Int)
    (key : rd_kafkap_bytes_t) (payload : cbuf) (len : Int) :
    Message_crc E MagicByte Attributes key payload len =
      crc32_of E (Message_crc_bytes MagicByte Attributes key payload len) := by
  have h : ∀ (c : Nat) (xs ys : List Nat),
      E.rd_crc32_update (E.rd_crc32_update c xs) ys = E.rd_crc32_update c (xs ++ ys) := hinc
  unfold Message_crc crc32_of Message_crc_bytes
  by_cases hp : payload.ptr = NULL
  · simp only [hp, ne_eq, not_true_eq_false, if_false, h, List.append_nil, List.append_assoc]
  · simp only [hp, ne_eq, not_false_eq_true, if_true, h, List.append_assoc]

theorem lp64_crc_incremental : crc_incremental lp64 := by
  intro c xs ys
  simp only [lp64, List.foldl_append]

/-- C12: for every buffer on which the frame is built in place (room for the
22 bytes written, a free slot for every segment pushed), checksum-enabled
before the call or not, and every Offset, MagicByte, Attributes, key, payload
and len, `rd_kafka_buf_write_Message` returns, and the 4 bytes it leaves in
the checksum slot of the frame are the big-endian CRC-32 of the frame bytes
from the version byte through the end of the payload; these bytes are, in
wire order, the version, the attributes, the length-prefixed key, the value
length and the payload. The checksum engine is taken to be incremental. -/
theorem write_Message_checksum (E : Env) (b : rd_kafka_buf_t) (Offset : Int)
    (MagicByte Attributes : Int) (key : rd_kafkap_bytes_t) (payload : cbuf) (len : Int)
    (outlenp : Bool) (hinc : crc_incremental E) (hwf : buf_wf b)
    (hroom : b.rkbuf_wof + 22 ≤ b.rkbuf_size)
    (hslots : (b.msg_iovlen : Int) + (if payload.ptr ≠ NULL then 4 else 3) ≤ b.rkbuf_iovcnt) :
    ∃ r, rd_kafka_buf_write_Message E b Offset MagicByte Attributes key payload len outlenp =
        .ok r ∧
      stored_crc r.rkbuf r.begin_of =
        be_bytes 4 (crc32_of E (frame_from_version r.rkbuf r.begin_of key payload len)) ∧
      frame_from_version r.rkbuf r.begin_of key payload len =
        be_bytes 1 MagicByte ++ be_bytes 1 Attributes ++
          (RD_KAFKAP_BYTES_SER key).mem.take (size_t_of_int (RD_KAFKAP_BYTES_SIZE key)) ++
          be_bytes 4 (if payload.ptr ≠ NULL then len else RD_KAFKAP_BYTES_LEN_NULL) ++
          (if payload.ptr ≠ NULL then payload.mem.take (size_t_of_int len) else []) := by
  refine ⟨_, rd_kafka_buf_write_Message_ok E b Offset MagicByte Attributes key payload len outlenp
    hwf hroom hslots, ?_, ?_⟩
  · show stored_crc (after_write_Message E b Offset MagicByte Attributes key payload len)
      b.rkbuf_wof = be_bytes 4 (crc32_of E (frame_from_version
        (after_write_Message E b Offset MagicByte Attributes key payload len)
        b.rkbuf_wof key payload len))
    rw [after_write_Message_stored_crc E b Offset MagicByte Attributes key payload len hwf.2.2.2,
      after_write_Message_frame E b Offset MagicByte Attributes key payload len hwf.2.2.2,
      Message_crc_eq E hinc]
  · exact after_write_Message_frame E b Offset MagicByte Attributes key payload len hwf.2.2.2

/-- C12, witness: the frame for key "abc" and payload "hello" built on a fresh
`rd_kafka_buf_new(4, 64)` buffer, with the bitwise CRC-32 as engine. -/
theorem write_Message_checksum_witness :
    ∃ r, rd_kafka_buf_write_Message lp64 fresh_buf 0 0 0 key_abc payload_hello 5 true = .ok r ∧
      stored_crc r.rkbuf r.begin_of =
        be_bytes 4 (crc32_of lp64 (frame_from_version r.rkbuf r.begin_of key_abc
          payload_hello 5)) ∧
      frame_from_version r.rkbuf r.begin_of key_abc payload_hello 5 =
        be_bytes 1 0 ++ be_bytes 1 0 ++
          (RD_KAFKAP_BYTES_SER key_abc).mem.take (size_t_of_int (RD_KAFKAP_BYTES_SIZE key_abc)) ++
          be_bytes 4 (if payload_hello.ptr ≠ NULL then 5 else RD_KAFKAP_BYTES_LEN_NULL) ++
          (if payload_hello.ptr ≠ NULL then payload_hello.mem.take (size_t_of_int 5) else []) :=
  write_Message_checksum lp64 fresh_buf 0 0 0 key_abc payload_hello 5 true
    (fun _ _ _ => by simp only [lp64, List.foldl_append])
    ⟨by decide, by decide, by decide, by decide⟩ (by decide) (by decide)

/-- C13: two calls of `rd_kafka_buf_write_Message` with the same MagicByte,
Attributes, key and payload (pointer, bytes and len), each on a buffer on
which the frame is built in place, both return and leave the same 4 bytes in
the checksum slot of their frame, whatever the two Offset arguments and
whatever checksum accumulator and checksum flag the two buffers held before
the call. -/
theorem checksum_ignores_offset (E : Env) (b1 b2 : rd_kafka_buf_t)
    (Offset1 Offset2 : Int) (MagicByte Attributes : Int) (key : rd_kafkap_bytes_t)
    (payload : cbuf) (len : Int) (outlenp1 outlenp2 : Bool)
    (hwf1 : buf_wf b1) (hroom1 : b1.rkbuf_wof + 22 ≤ b1.rkbuf_size)
    (hslots1 : (b1.msg_iovlen : Int) + (if payload.ptr ≠ NULL then 4 else 3) ≤ b1.rkbuf_iovcnt)
    (hwf2 : buf_wf b2) (hroom2 : b2.rkbuf_wof + 22 ≤ b2.rkbuf_size)
    (hslots2 : (b2.msg_iovlen : Int) + (if payload.ptr ≠ NULL then 4 else 3) ≤ b2.rkbuf_iovcnt) :
    ∃ r1 r2,
      rd_kafka_buf_write_Message E b1 Offset1 MagicByte Attributes key payload len outlenp1 =
        .ok r1 ∧
      rd_kafka_buf_write_Message E b2 Offset2 MagicByte Attributes key payload len outlenp2 =
        .ok r2 ∧
      stored_crc r1.rkbuf r1.begin_of = stored_crc r2.rkbuf r2.begin_of := by
  refine ⟨_, _,
    rd_kafka_buf_write_Message_ok E b1 Offset1 MagicByte Attributes key payload len outlenp1
      hwf1 hroom1 hslots1,
    rd_kafka_buf_write_Message_ok E b2 Offset2 MagicByte Attributes key payload len outlenp2
      hwf2 hroom2 hslots2, ?_⟩
  show stored_crc (after_write_Message E b1 Offset1 MagicByte Attributes key payload len)
      b1.rkbuf_wof =
    stored_crc (after_write_Message E b2 Offset2 MagicByte Attributes key payload len) b2.rkbuf_wof
  rw [after_write_Message_stored_crc E b1 Offset1 MagicByte Attributes key payload len hwf1.2.2.2,
    after_write_Message_stored_crc E b2 Offset2 MagicByte Attributes key payload len hwf2.2.2.2]

/-- C13, witness: the frame for key "abc" and payload "hello" built with
Offset 0 on a fresh buffer and with Offset 42 on a buffer that holds a stale
accumulator. -/
theorem checksum_ignores_offset_witness :
    ∃ r1 r2,
      rd_kafka_buf_write_Message lp64 fresh_buf 0 0 0 key_abc payload_hello 5 true = .ok r1 ∧
      rd_kafka_buf_write_Message lp64 stale_crc_buf 42 0 0 key_abc payload_hello 5 false =
        .ok r2 ∧
      stored_crc r1.rkbuf r1.begin_of = stored_crc r2.rkbuf r2.begin_of :=
  checksum_ignores_offset lp64 fresh_buf stale_crc_buf 0 42 0 0 key_abc payload_hello 5
    true false ⟨by decide, by decide, by decide, by decide⟩ (by decide) (by decide)
    ⟨by decide, by decide, by decide, by decide⟩ (by decide) (by decide)

/-! ## Purging a queue -/

theorem TAILQ_NEXT_nodup (p s : List rd_kafka_buf_t) (x : rd_kafka_buf_t)
    (h : (p ++ x :: s).Nodup) : TAILQ_NEXT (p ++ x :: s) x = s.head? := by
  induction p with
  | nil => simp [TAILQ_NEXT]
  | cons y p ih =>
    have hy : y ≠ x := by
      intro e
      rw [List.cons_append, List.nodup_cons] at h
      exact h.1 (by simp [e])
    rw [List.cons_append, List.nodup_cons] at h
    simp only [List.cons_append, TAILQ_NEXT, hy, if_false]
    exact ih h.2

/-- The purge loop from a cursor on: with callbacks that keep the list of
the queue, members without duplicates and no null callback, the loop makes
one call for each member from the cursor to the tail and ends within one
iteration more than that many. -/
theorem purge_loop_suffix (run_cb : cb_call → rd_kafka_bufq_t → rd_kafka_bufq_t) (rkb : Ptr)
    (err : Int) (hkeep : ∀ call rkbufq, (run_cb call rkbufq).rkbq_bufs = rkbufq.rkbq_bufs)
    (s : List rd_kafka_buf_t) :
    ∀ (p : List rd_kafka_buf_t) (q : rd_kafka_bufq_t) (calls : List cb_call) (fuel : Nat),
      q.rkbq_bufs = p ++ s → (p ++ s).Nodup → (∀ m ∈ s, m.rkbuf_cb ≠ NULL) → s.length < fuel →
      purge_loop run_cb rkb err fuel s.head? q calls =
        some (.ok
          ((s.map (fun m : rd_kafka_buf_t =>
              ({ cb := m.rkbuf_cb, rkb := rkb, err := err, response := NULL, request := m,
                 cb_opaque := m.rkbuf_opaque } : cb_call))).foldl
              (fun rkbufq call => run_cb call rkbufq) q,
           calls ++ s.map (fun m : rd_kafka_buf_t =>
              ({ cb := m.rkbuf_cb, rkb := rkb, err := err, response := NULL, request := m,
                 cb_opaque := m.rkbuf_opaque } : cb_call)))) := by
  induction s with
  | nil =>
    intro p q calls fuel _ _ _ hf
    obtain ⟨f, rfl⟩ : ∃ f, fuel = f + 1 := ⟨fuel - 1, by simp at hf; omega⟩
    simp [purge_loop]
  | cons x s ih =>
    intro p q calls fuel hq hnd hcb hf
    obtain ⟨f, rfl⟩ : ∃ f, fuel = f + 1 := ⟨fuel - 1, by omega⟩
    have hx : x.rkbuf_cb ≠ NULL := hcb x (by simp)
    have hnext : TAILQ_NEXT q.rkbq_bufs x = s.head? := by
      rw [hq]; exact TAILQ_NEXT_nodup p s x hnd
    simp only [List.head?_cons, purge_loop, hx, if_false, hnext]
    rw [ih (p ++ [x]) _ _ f (by rw [hkeep, hq]; simp) (by simpa using hnd)
      (fun m hm => hcb m (by simp [hm])) (by simp at hf; omega)]
    simp

/-- On the thread of the broker `rd_kafka_bufq_purge` passes its assertion
and runs the loop from the head of the list. -/
theorem rd_kafka_bufq_purge_on_thread (run_cb : cb_call → rd_kafka_bufq_t → rd_kafka_bufq_t)
    (self fuel : Nat) (rkb : rd_kafka_broker_t) (q : rd_kafka_bufq_t) (err : Int)
    (hthr : thrd_is_current self rkb.rkb_thread = true) :
    rd_kafka_bufq_purge run_cb self fuel rkb q err =
      purge_loop run_cb rkb.rkb err fuel q.rkbq_bufs.head? q [] := by
  unfold rd_kafka_bufq_purge TAILQ_FIRST
  rw [if_neg (by simp [hthr])]

/-- C11: for every queue whose list holds N distinct buffers, each with a
callback, and every error code `err`, `rd_kafka_bufq_purge` called on the
thread of the broker, with callbacks that keep the list of the queue, returns
after exactly N callback invocations, one for each member in list order; each
invocation calls the callback of the member with the broker, `err`, a NULL
response, the member itself as request and the opaque of that member. -/
theorem bufq_purge_calls (run_cb : cb_call → rd_kafka_bufq_t → rd_kafka_bufq_t)
    (self fuel : Nat) (rkb : rd_kafka_broker_t) (q : rd_kafka_bufq_t) (err : Int)
    (hthr : thrd_is_current self rkb.rkb_thread = true)
    (hkeep : ∀ call rkbufq, (run_cb call rkbufq).rkbq_bufs = rkbufq.rkbq_bufs)
    (hnodup : q.rkbq_bufs.Nodup) (hcb : ∀ m ∈ q.rkbq_bufs, m.rkbuf_cb ≠ NULL)
    (hfuel : q.rkbq_bufs.length < fuel) :
    ∃ q' calls, rd_kafka_bufq_purge run_cb self fuel rkb q err = some (.ok (q', calls)) ∧
      calls.length = q.rkbq_bufs.length ∧
      calls = q.rkbq_bufs.map (fun m : rd_kafka_buf_t =>
        ({ cb := m.rkbuf_cb, rkb := rkb.rkb, err := err, response := NULL, request := m,
           cb_opaque := m.rkbuf_opaque } : cb_call)) := by
  have h := purge_loop_suffix run_cb rkb.rkb err hkeep q.rkbq_bufs [] q [] fuel rfl hnodup hcb
    hfuel
  rw [List.nil_append] at h
  rw [rd_kafka_bufq_purge_on_thread run_cb self fuel rkb q err hthr, h]
  exact ⟨_, _, rfl, by simp, rfl⟩

/-- C11, witness: the purge of the queue that holds `req_a` and `req_b`, on
the thread of the broker, with error code 7. -/
theorem bufq_purge_calls_witness :
    ∃ q' calls, rd_kafka_bufq_purge cb_leaves_queue 1 3 broker_1 purge_q 7 =
        some (.ok (q', calls)) ∧
      calls.length = purge_q.rkbq_bufs.length ∧
      calls = purge_q.rkbq_bufs.map (fun m : rd_kafka_buf_t =>
        ({ cb := m.rkbuf_cb, rkb := broker_1.rkb, err := 7, response := NULL, request := m,
           cb_opaque := m.rkbuf_opaque } : cb_call)) :=
  bufq_purge_calls cb_leaves_queue 1 3 broker_1 purge_q 7 (by decide) (fun _ _ => rfl)
    (by decide) (by decide) (by decide)

/-- C17: for every queue of distinct buffers, each with a callback, whose
callbacks leave the queue as it is, `rd_kafka_bufq_purge` called on the thread
of the broker returns and the queue after the call is the queue before it: the
same members in the same order and the same `rkbq_cnt` and `rkbq_msg_cnt`. -/
theorem bufq_purge_removes_nothing (run_cb : cb_call → rd_kafka_bufq_t → rd_kafka_bufq_t)
    (self fuel : Nat) (rkb : rd_kafka_broker_t) (q : rd_kafka_bufq_t) (err : Int)
    (hthr : thrd_is_current self rkb.rkb_thread = true)
    (hkeep : ∀ call rkbufq, run_cb call rkbufq = rkbufq)
    (hnodup : q.rkbq_bufs.Nodup) (hcb : ∀ m ∈ q.rkbq_bufs, m.rkbuf_cb ≠ NULL)
    (hfuel : q.rkbq_bufs.length < fuel) :
    ∃ q' calls, rd_kafka_bufq_purge run_cb self fuel rkb q err = some (.ok (q', calls)) ∧
      q'.rkbq_bufs = q.rkbq_bufs ∧ q'.rkbq_cnt = q.rkbq_cnt ∧
      q'.rkbq_msg_cnt = q.rkbq_msg_cnt := by
  have hfold : ∀ (cs : List cb_call) (q0 : rd_kafka_bufq_t),
      cs.foldl (fun rkbufq call => run_cb call rkbufq) q0 = q0 := by
    intro cs
    induction cs with
    | nil => intro q0; rfl
    | cons c cs ih => intro q0; rw [List.foldl_cons, hkeep, ih]
  have h := purge_loop_suffix run_cb rkb.rkb err (fun c r => by rw [hkeep]) q.rkbq_bufs [] q []
    fuel rfl hnodup hcb hfuel
  rw [hfold, List.nil_append] at h
  rw [rd_kafka_bufq_purge_on_thread run_cb self fuel rkb q err hthr, h]
  exact ⟨q, _, rfl, rfl, rfl, rfl⟩

/-- C17, witness: the purge of the queue that holds `req_a` and `req_b`
leaves this queue, with count 2 and message count 8, as it was. -/
theorem bufq_purge_removes_nothing_witness :
    ∃ q' calls, rd_kafka_bufq_purge cb_leaves_queue 1 3 broker_1 purge_q 7 =
        some (.ok (q', calls)) ∧
      q'.rkbq_bufs = purge_q.rkbq_bufs ∧ q'.rkbq_cnt = purge_q.rkbq_cnt ∧
      q'.rkbq_msg_cnt = purge_q.rkbq_msg_cnt :=
  bufq_purge_removes_nothing cb_leaves_queue 1 3 broker_1 purge_q 7 (by decide)
    (fun _ _ => rfl) (by decide) (by decide) (by decide)

end RdKafka
